import Mathlib

/-!
# IRM_Mini: addressing engine of a NeoPixel matrix driver

A shallow embedding of `src/irm_mini.cpp` (the `IRM_Mini` class, a GFX-compatible
layer over a linear NeoPixel strip) together with theorems about its pixel-write
entry point `drawPixel`.

Conventions of the embedding.

* Machine integers are mathematical integers with explicit wrap-around at every
  assignment to a fixed-width variable: `u16` for `uint16_t`, `i16` for `int16_t`.
* Expressions of C type `int` are evaluated exactly; every such value is converted
  to a 16-bit type before it is observed (the index parameter of `setPixelColor` is
  `uint16_t`), so the observed value is the same for a 16-bit and a 32-bit `int`.
* The strip (the `Adafruit_NeoPixel` base object) is observed through the
  chronological list of `setPixelColor(n, c)` calls made into it.
-/

/-- Conversion of an integer value to `uint16_t`. -/
def u16 (v : Int) : Int := v % 65536

/-- Conversion of an integer value to `int16_t` (two's complement wrap). -/
def i16 (v : Int) : Int := (v + 32768) % 65536 - 32768

/-- Modelled from the spec: the header `irm_mini.h` is not part of the sources; the
topology byte holds eight independent flags, corner (2 bits), axis and sequence for
the pixel level and the same for the tile level. The masks are those of the
NeoMatrix layout the file derives from. Pixel level, top edge. -/
def NEO_MATRIX_TOP : Nat := 0x00
/-- Pixel level, bottom edge (see `NEO_MATRIX_TOP` for the origin of the masks). -/
def NEO_MATRIX_BOTTOM : Nat := 0x01
/-- Pixel level, left edge. -/
def NEO_MATRIX_LEFT : Nat := 0x00
/-- Pixel level, right edge. -/
def NEO_MATRIX_RIGHT : Nat := 0x02
/-- Pixel level, bitmask of the corner. -/
def NEO_MATRIX_CORNER : Nat := 0x03
/-- Pixel level, row major. -/
def NEO_MATRIX_ROWS : Nat := 0x00
/-- Pixel level, column major. -/
def NEO_MATRIX_COLUMNS : Nat := 0x04
/-- Pixel level, bitmask of the axis. -/
def NEO_MATRIX_AXIS : Nat := 0x04
/-- Pixel level, same pixel order across each line. -/
def NEO_MATRIX_PROGRESSIVE : Nat := 0x00
/-- Pixel level, pixel order reverses between lines. -/
def NEO_MATRIX_ZIGZAG : Nat := 0x08
/-- Pixel level, bitmask of the sequence. -/
def NEO_MATRIX_SEQUENCE : Nat := 0x08
/-- Tile level, top edge. -/
def NEO_TILE_TOP : Nat := 0x00
/-- Tile level, bottom edge. -/
def NEO_TILE_BOTTOM : Nat := 0x10
/-- Tile level, left edge. -/
def NEO_TILE_LEFT : Nat := 0x00
/-- Tile level, right edge. -/
def NEO_TILE_RIGHT : Nat := 0x20
/-- Tile level, bitmask of the corner. -/
def NEO_TILE_CORNER : Nat := 0x30
/-- Tile level, row major. -/
def NEO_TILE_ROWS : Nat := 0x00
/-- Tile level, column major. -/
def NEO_TILE_COLUMNS : Nat := 0x40
/-- Tile level, bitmask of the axis. -/
def NEO_TILE_AXIS : Nat := 0x40
/-- Tile level, same tile order across each line. -/
def NEO_TILE_PROGRESSIVE : Nat := 0x00
/-- Tile level, tile order reverses between lines. -/
def NEO_TILE_ZIGZAG : Nat := 0x80
/-- Tile level, bitmask of the sequence. -/
def NEO_TILE_SEQUENCE : Nat := 0x80

/-- The compile-time switch `#define NEO_TILE_ZIGZAG_NOFLIP` of the source: it is
defined, so the corner flip on odd tile rows is compiled out. -/
def NEO_TILE_ZIGZAG_NOFLIP : Bool := true

/-- Modelled from the spec: `gamma.h` is not part of the sources; it provides the
per-channel gamma lookup tables, `gamma5` (5 bits to 8 bits, red and blue) and
`gamma6` (6 bits to 8 bits, green). They are taken as parameters. -/
structure GammaTables where
  gamma5 : Nat → Nat
  gamma6 : Nat → Nat

/-- The macro `pgm_read_byte`: reads one `unsigned char`. -/
def pgm_read_byte (v : Nat) : Nat := v % 256

/-- The object state. `WIDTH`, `HEIGHT`, `_width`, `_height` and `rotation` are the
fields inherited from the graphics base class (`int16_t` and `uint8_t`); `numLEDs`
(the `uint16_t` pixel count handed to the strip base class by the constructors) and
`strip` (the log of `setPixelColor (n, c)` calls received by the strip base class)
stand for the strip; the rest are the fields of `IRM_Mini` itself. -/
structure IRM_Mini where
  WIDTH : Int
  HEIGHT : Int
  _width : Int
  _height : Int
  rotation : Nat
  type : Nat
  matrixWidth : Int
  matrixHeight : Int
  tilesX : Int
  tilesY : Int
  remapFn : Option (Int → Int → Int)
  passThruColor : Nat
  passThruFlag : Bool
  numLEDs : Int
  strip : List (Int × Nat)

namespace IRM_Mini

/-- Constructor for a single matrix: `IRM_Mini(int w, int h, pin, matrixType, ledType)`.
The graphics base class receives `w`, `h` as `int16_t`, the strip base class receives
`w * h` as `uint16_t`; the fields of the class itself hold the arguments. Passthrough
starts disabled. -/
def single (w h : Int) (matrixType : Nat) : IRM_Mini :=
  { WIDTH := i16 w, HEIGHT := i16 h, _width := i16 w, _height := i16 h, rotation := 0,
    type := matrixType, matrixWidth := w, matrixHeight := h, tilesX := 0, tilesY := 0,
    remapFn := none, passThruColor := 0, passThruFlag := false, numLEDs := u16 (w * h),
    strip := [] }

/-- Constructor for tiled matrices:
`IRM_Mini(uint8_t mW, uint8_t mH, uint8_t tX, uint8_t tY, pin, matrixType, ledType)`. -/
def tiled (mW mH tX tY : Int) (matrixType : Nat) : IRM_Mini :=
  { WIDTH := i16 (mW * tX), HEIGHT := i16 (mH * tY),
    _width := i16 (mW * tX), _height := i16 (mH * tY), rotation := 0,
    type := matrixType, matrixWidth := mW, matrixHeight := mH, tilesX := tX, tilesY := tY,
    remapFn := none, passThruColor := 0, passThruFlag := false,
    numLEDs := u16 (mW * mH * tX * tY), strip := [] }

/-- Modelled from the spec: rotation bookkeeping belongs to the external graphics
collaborator; the rotation state is one of four quadrants and the bounds seen by
`drawPixel` (`_width`, `_height`) are those of the rotated canvas. -/
def setRotation (s : IRM_Mini) (r : Nat) : IRM_Mini :=
  if (r % 4) % 2 = 1 then
    { s with rotation := r % 4, _width := s.HEIGHT, _height := s.WIDTH }
  else
    { s with rotation := r % 4, _width := s.WIDTH, _height := s.HEIGHT }

/-- The call `setPixelColor(n, c)` into the strip: recorded in the log. -/
def setPixelColor (s : IRM_Mini) (n : Int) (c : Nat) : IRM_Mini :=
  { s with strip := s.strip ++ [(n, c)] }

/-- The static function `expandColor`: 16-bit colour to 24-bit, through the gamma
tables. -/
def expandColor (g : GammaTables) (color : Nat) : Nat :=
  (pgm_read_byte (g.gamma5 (color >>> 11)) <<< 16) |||
  (pgm_read_byte (g.gamma6 ((color >>> 5) &&& 0x3F)) <<< 8) |||
  pgm_read_byte (g.gamma5 (color &&& 0x1F))

/-- Pass a raw colour value to set and enable passthrough: `setPassThruColor(uint32_t c)`. -/
def setPassThruColor (s : IRM_Mini) (c : Nat) : IRM_Mini :=
  { s with passThruColor := c, passThruFlag := true }

/-- The overload `setPassThruColor(void)`: disables passthrough. -/
def setPassThruColor_void (s : IRM_Mini) : IRM_Mini :=
  { s with passThruFlag := false }

/-- Installs a remap callback: `setRemapFunction(fn)`. -/
def setRemapFunction (s : IRM_Mini) (fn : Int → Int → Int) : IRM_Mini :=
  { s with remapFn := some fn }

/-- The rotation switch of `drawPixel`: the new `(x, y)`, both `int16_t`. -/
def drawPixel_rotate (s : IRM_Mini) (x y : Int) : Int × Int :=
  match s.rotation with
  | 1 => (i16 (s.WIDTH - 1 - y), x)
  | 2 => (i16 (s.WIDTH - 1 - x), i16 (s.HEIGHT - 1 - y))
  | 3 => (y, i16 (s.HEIGHT - 1 - x))
  | _ => (x, y)

/-- The `if (tilesX)` block of `drawPixel`: returns `tileOffset`, the (possibly
flipped) `corner` and the pixel coordinates within the tile. `minor`, `major`,
`majorScale` and `tile` are `uint16_t`, `x` and `y` are `int16_t`, `tileOffset`
is `int`. -/
def drawPixel_tile (s : IRM_Mini) (corner : Nat) (x y : Int) : Int × Nat × Int × Int :=
  let minor := u16 (Int.tdiv x s.matrixWidth)
  let major := u16 (Int.tdiv y s.matrixHeight)
  let x := i16 (x - minor * s.matrixWidth)
  let y := i16 (y - major * s.matrixHeight)
  let minor := if s.type &&& NEO_TILE_RIGHT ≠ 0 then u16 (s.tilesX - 1 - minor) else minor
  let major := if s.type &&& NEO_TILE_BOTTOM ≠ 0 then u16 (s.tilesY - 1 - major) else major
  let (major, minor, majorScale) :=
    if s.type &&& NEO_TILE_AXIS = NEO_TILE_ROWS then (major, minor, u16 s.tilesX)
    else (minor, major, u16 s.tilesY)
  let (corner, tile) :=
    if s.type &&& NEO_TILE_SEQUENCE = NEO_TILE_PROGRESSIVE then
      (corner, u16 (major * majorScale + minor))
    else if major % 2 ≠ 0 then
      (if NEO_TILE_ZIGZAG_NOFLIP then corner else corner ^^^ NEO_MATRIX_CORNER,
        u16 ((major + 1) * majorScale - 1 - minor))
    else
      (corner, u16 (major * majorScale + minor))
  (tile * s.matrixWidth * s.matrixHeight, corner, x, y)

/-- The pixel-within-tile part of `drawPixel`: returns `pixelOffset` (an `int`). -/
def drawPixel_pixel (s : IRM_Mini) (corner : Nat) (x y : Int) : Int :=
  let minor := u16 x
  let major := u16 y
  let minor := if corner &&& NEO_MATRIX_RIGHT ≠ 0 then u16 (s.matrixWidth - 1 - minor) else minor
  let major := if corner &&& NEO_MATRIX_BOTTOM ≠ 0 then u16 (s.matrixHeight - 1 - major) else major
  let (major, minor, majorScale) :=
    if s.type &&& NEO_MATRIX_AXIS = NEO_MATRIX_ROWS then (major, minor, u16 s.matrixWidth)
    else (minor, major, u16 s.matrixHeight)
  if s.type &&& NEO_MATRIX_SEQUENCE = NEO_MATRIX_PROGRESSIVE then
    major * majorScale + minor
  else if major % 2 ≠ 0 then
    (major + 1) * majorScale - 1 - minor
  else
    major * majorScale + minor

/-- The index computation of `drawPixel` after the rotation switch: the pair
`(tileOffset, pixelOffset)` for the rotated `(x, y)`. The callback takes and returns
`uint16_t`. -/
def drawPixel_offsets (s : IRM_Mini) (x y : Int) : Int × Int :=
  match s.remapFn with
  | some fn => (0, u16 (fn (u16 x) (u16 y)))
  | none =>
    let corner := s.type &&& NEO_MATRIX_CORNER
    if s.tilesX ≠ 0 then
      let (tileOffset, corner, x, y) := drawPixel_tile s corner x y
      (tileOffset, drawPixel_pixel s corner x y)
    else
      (0, drawPixel_pixel s corner x y)

/-- The index `tileOffset + pixelOffset` as received by `setPixelColor` (whose index
parameter is `uint16_t`), for the unrotated argument `(x, y)`. -/
def drawPixel_index (s : IRM_Mini) (x y : Int) : Int :=
  let (x, y) := drawPixel_rotate s x y
  let (tileOffset, pixelOffset) := drawPixel_offsets s x y
  u16 (tileOffset + pixelOffset)

/-- The method `drawPixel(int16_t x, int16_t y, uint16_t color)`. The arguments are
values of their parameter types. -/
def drawPixel (g : GammaTables) (s : IRM_Mini) (x y : Int) (color : Nat) : IRM_Mini :=
  if x < 0 ∨ y < 0 ∨ x ≥ s._width ∨ y ≥ s._height then s
  else
    setPixelColor s (drawPixel_index s x y)
      (if s.passThruFlag then s.passThruColor else expandColor g color)

/-- The bounds test of `drawPixel` passes: the write is not dropped. -/
def InBounds (s : IRM_Mini) (x y : Int) : Prop :=
  0 ≤ x ∧ 0 ≤ y ∧ x < s._width ∧ y < s._height

instance (s : IRM_Mini) (x y : Int) : Decidable (InBounds s x y) := by
  unfold InBounds; infer_instance

/-- The rotation fields are in the state the graphics base class keeps them in: the
rotation is a quadrant and `_width`, `_height` are the sides of the rotated canvas. -/
def Rotated (s : IRM_Mini) : Prop :=
  s.rotation < 4 ∧
  s._width = (if s.rotation % 2 = 1 then s.HEIGHT else s.WIDTH) ∧
  s._height = (if s.rotation % 2 = 1 then s.WIDTH else s.HEIGHT)

instance (s : IRM_Mini) : Decidable (Rotated s) := by
  unfold Rotated; infer_instance

/-- An untiled matrix as the single-matrix constructor builds it, with positive sides. -/
def Untiled (s : IRM_Mini) : Prop :=
  s.tilesX = 0 ∧ s.tilesY = 0 ∧ 1 ≤ s.matrixWidth ∧ 1 ≤ s.matrixHeight ∧
  s.WIDTH = i16 s.matrixWidth ∧ s.HEIGHT = i16 s.matrixHeight

instance (s : IRM_Mini) : Decidable (Untiled s) := by
  unfold Untiled; infer_instance

/-- A tiled array as the tiled constructor builds it, with positive sides and counts. -/
def Tiled (s : IRM_Mini) : Prop :=
  1 ≤ s.tilesX ∧ 1 ≤ s.tilesY ∧ 1 ≤ s.matrixWidth ∧ 1 ≤ s.matrixHeight ∧
  s.WIDTH = i16 (s.matrixWidth * s.tilesX) ∧ s.HEIGHT = i16 (s.matrixHeight * s.tilesY)

instance (s : IRM_Mini) : Decidable (Tiled s) := by
  unfold Tiled; infer_instance

/-- The total pixel count `matrixWidth*matrixHeight*max(tilesX,1)*max(tilesY,1)`. -/
def totalPixels (s : IRM_Mini) : Int :=
  s.matrixWidth * s.matrixHeight * max s.tilesX 1 * max s.tilesY 1

/-- The four-quadrant pre-transform `R_r` of the specification, in exact integers:
`R_1(x,y) = (WIDTH-1-y, x)`, `R_2(x,y) = (WIDTH-1-x, HEIGHT-1-y)`,
`R_3(x,y) = (y, HEIGHT-1-x)`, and the identity for rotation 0. -/
def specRotate (WIDTH HEIGHT : Int) (r : Nat) (x y : Int) : Int × Int :=
  if r = 1 then (WIDTH - 1 - y, x)
  else if r = 2 then (WIDTH - 1 - x, HEIGHT - 1 - y)
  else if r = 3 then (y, HEIGHT - 1 - x)
  else (x, y)

/-- The sequence step of the specification in exact integers: progressive is
`major*scale + minor`; serpentine is `(major+1)*scale - 1 - minor` on an odd major
index and the progressive value otherwise. -/
def specSequence (zigzag : Bool) (scale major minor : Int) : Int :=
  if zigzag = true ∧ major % 2 ≠ 0 then (major + 1) * scale - 1 - minor
  else major * scale + minor

/-- The wiring order of one level (pixels in a tile, or tiles in the array) in exact
integers, following the specification: corner flip, axis selection, then progressive
or serpentine sequence, for a `W` by `H` grid and the position `(x, y)` in it. -/
def specLevelIndex (right bottom columns zigzag : Bool) (W H x y : Int) : Int :=
  let minor := if right then W - 1 - x else x
  let major := if bottom then H - 1 - y else y
  if columns then specSequence zigzag H minor major
  else specSequence zigzag W major minor

/-- The linear index of the specification in exact integers, for a position `(x, y)`
of the unrotated canvas: tile number times tile size plus pixel number in the tile,
each by `specLevelIndex` with the flags of its level. -/
def specIndex (s : IRM_Mini) (x y : Int) : Int :=
  specLevelIndex (decide (s.type &&& NEO_TILE_RIGHT ≠ 0)) (decide (s.type &&& NEO_TILE_BOTTOM ≠ 0))
      (decide (s.type &&& NEO_TILE_AXIS ≠ NEO_TILE_ROWS))
      (decide (s.type &&& NEO_TILE_SEQUENCE ≠ NEO_TILE_PROGRESSIVE))
      (max s.tilesX 1) (max s.tilesY 1) (x / s.matrixWidth) (y / s.matrixHeight)
    * (s.matrixWidth * s.matrixHeight)
  + specLevelIndex (decide (s.type &&& NEO_MATRIX_RIGHT ≠ 0)) (decide (s.type &&& NEO_MATRIX_BOTTOM ≠ 0))
      (decide (s.type &&& NEO_MATRIX_AXIS ≠ NEO_MATRIX_ROWS))
      (decide (s.type &&& NEO_MATRIX_SEQUENCE ≠ NEO_MATRIX_PROGRESSIVE))
      s.matrixWidth s.matrixHeight (x % s.matrixWidth) (y % s.matrixHeight)

/-- A run of `drawPixel` calls, in order; each element is `(x, y, color)`. -/
def drawPixels (g : GammaTables) (s : IRM_Mini) (ws : List (Int × Int × Nat)) : IRM_Mini :=
  ws.foldl (fun t w => drawPixel g t w.1 w.2.1 w.2.2) s

/-- The method `Color(uint8_t r, uint8_t g, uint8_t b)`, returning `uint16_t`. -/
def Color (r g b : Nat) : Nat :=
  (((r &&& 0xF8) <<< 8) ||| ((g &&& 0xFC) <<< 3) ||| (b >>> 3)) % 65536

/-- Modelled from the spec: the strip collaborator's "get total pixel count", the
`uint16_t` count it was constructed with. -/
def numPixels (s : IRM_Mini) : Int := u16 s.numLEDs

/-- The loop `for (i = 0; i < n; i++) setPixelColor(i, c);` of `fillScreen`, with the
`uint16_t` counter `i`; the first argument bounds the number of iterations. -/
def fillScreen_loop (c : Nat) (n : Int) : Nat → Int → IRM_Mini → IRM_Mini
  | 0, _, s => s
  | fuel + 1, i, s =>
    if i < n then fillScreen_loop c n fuel (u16 (i + 1)) (setPixelColor s i c) else s

/-- The method `fillScreen(uint16_t color)`. A `uint16_t` counter below a `uint16_t`
bound is incremented at most 65535 times. -/
def fillScreen (g : GammaTables) (s : IRM_Mini) (color : Nat) : IRM_Mini :=
  let c := if s.passThruFlag then s.passThruColor else expandColor g color
  let n := numPixels s
  fillScreen_loop c n 65536 0 s

end IRM_Mini

/-! ## Text and bitmap drawing

`drawAscii` and `drawRGBBitmap` change no field themselves: they issue `fillRect` and
`drawPixel` calls on the object. They are embedded as the sequence of calls they issue,
each with its arguments converted to the parameter types of the callee
(`int16_t` coordinates and sizes, `uint16_t` colour). -/

/-- Conversion of an integer value to `uint8_t`. -/
def u8 (v : Int) : Int := v % 256

/-- Modelled from the spec: the font-size selectors of the absent header `irm_mini.h`;
the compact font has 5 rows. -/
def FONT5 : Nat := 5
/-- Modelled from the spec: the tall font has 7 rows. -/
def FONT7 : Nat := 7

/-- The table `FONT7_BITMAT[][8]` as compiled: one record per glyph, the width followed
by seven row bitmasks. Record 0 is the error glyph. The source text has 96 rows, but
the row labelled with the backslash character (source line 138) ends in the comment
`// \ `, a backslash followed by a blank at the end of the line: the compiler joins
the next line, the row of the character `]` (code 93), to that comment. The compiled
table therefore has 95 records: record `c - 31` is the row labelled code `c` for
`32 <= c <= 92`, and the row labelled code `c + 1` for `93 <= c <= 125`. -/
def FONT7_BITMAT : List (List Nat) :=
  [[4, 0b1111, 0b1001, 0b1001, 0b1001, 0b1001, 0b1111, 0b0000], -- record 0, the error glyph
   [1, 0b0, 0b0, 0b0, 0b0, 0b0, 0b0, 0b0], -- code 32
   [1, 0b1, 0b1, 0b1, 0b1, 0b0, 0b1, 0b0], -- code 33
   [3, 0b101, 0b101, 0b000, 0b000, 0b000, 0b000, 0b000], -- code 34
   [5, 0b01010, 0b11111, 0b01010, 0b11111, 0b01010, 0b01010, 0b00000], -- code 35
   [4, 0b0010, 0b0111, 0b1000, 0b1111, 0b0001, 0b1110, 0b0100], -- code 36
   [5, 0b11000, 0b11001, 0b00010, 0b00100, 0b01000, 0b10011, 0b00011], -- code 37
   [5, 0b01000, 0b10100, 0b01000, 0b10101, 0b10010, 0b10010, 0b00000], -- code 38
   [1, 0b1, 0b1, 0b0, 0b0, 0b0, 0b0, 0b0], -- code 39
   [2, 0b01, 0b10, 0b10, 0b10, 0b10, 0b01, 0b00], -- code 40
   [2, 0b10, 0b01, 0b01, 0b01, 0b01, 0b10, 0b00], -- code 41
   [5, 0b00000, 0b10101, 0b01110, 0b00100, 0b01110, 0b10101, 0b00000], -- code 42
   [5, 0b00000, 0b00100, 0b00100, 0b11111, 0b00100, 0b00100, 0b00000], -- code 43
   [2, 0b00, 0b00, 0b00, 0b00, 0b00, 0b01, 0b10], -- code 44
   [5, 0b00000, 0b00000, 0b00000, 0b11111, 0b00000, 0b00000, 0b00000], -- code 45
   [1, 0b0, 0b0, 0b0, 0b0, 0b0, 0b1, 0b0], -- code 46
   [5, 0b00000, 0b00001, 0b00010, 0b00100, 0b01000, 0b10000, 0b00000], -- code 47
   [5, 0b01110, 0b10001, 0b10011, 0b10101, 0b11001, 0b10001, 0b01110], -- code 48
   [5, 0b00100, 0b01100, 0b00100, 0b00100, 0b00100, 0b00100, 0b11111], -- code 49
   [5, 0b01110, 0b10001, 0b00001, 0b00110, 0b01000, 0b10000, 0b11111], -- code 50
   [5, 0b01110, 0b10001, 0b00001, 0b00110, 0b00001, 0b10001, 0b01110], -- code 51
   [5, 0b00011, 0b00101, 0b01001, 0b10001, 0b11111, 0b00001, 0b00001], -- code 52
   [5, 0b11111, 0b10000, 0b11110, 0b00001, 0b00001, 0b10001, 0b01110], -- code 53
   [5, 0b00110, 0b01000, 0b10000, 0b11110, 0b10001, 0b10001, 0b01110], -- code 54
   [5, 0b11111, 0b10001, 0b00001, 0b00010, 0b00100, 0b00100, 0b00100], -- code 55
   [5, 0b01110, 0b10001, 0b10001, 0b01110, 0b10001, 0b10001, 0b01110], -- code 56
   [5, 0b01110, 0b10001, 0b10001, 0b01111, 0b00001, 0b00010, 0b01100], -- code 57
   [1, 0b0, 0b1, 0b0, 0b0, 0b1, 0b0, 0b0], -- code 58
   [2, 0b00, 0b01, 0b00, 0b00, 0b01, 0b10, 0b00], -- code 59
   [3, 0b000, 0b001, 0b010, 0b100, 0b010, 0b001, 0b000], -- code 60
   [5, 0b00000, 0b00000, 0b11111, 0b00000, 0b11111, 0b00000, 0b00000], -- code 61
   [3, 0b000, 0b100, 0b010, 0b001, 0b010, 0b100, 0b000], -- code 62
   [3, 0b110, 0b001, 0b010, 0b010, 0b000, 0b010, 0b000], -- code 63
   [5, 0b01110, 0b10001, 0b10101, 0b10110, 0b10000, 0b01111, 0b00000], -- code 64
   [4, 0b0110, 0b1001, 0b1001, 0b1111, 0b1001, 0b1001, 0b0000], -- code 65
   [4, 0b1110, 0b1001, 0b1110, 0b1001, 0b1001, 0b1110, 0b0000], -- code 66
   [4, 0b0110, 0b1001, 0b1000, 0b1000, 0b1001, 0b0110, 0b0000], -- code 67
   [4, 0b1110, 0b1001, 0b1001, 0b1001, 0b1001, 0b1110, 0b0000], -- code 68
   [4, 0b1111, 0b1000, 0b1110, 0b1000, 0b1000, 0b1111, 0b0000], -- code 69
   [4, 0b1111, 0b1000, 0b1110, 0b1000, 0b1000, 0b1000, 0b0000], -- code 70
   [4, 0b0110, 0b1001, 0b1000, 0b1011, 0b1001, 0b0110, 0b0000], -- code 71
   [4, 0b1001, 0b1001, 0b1111, 0b1001, 0b1001, 0b1001, 0b0000], -- code 72
   [3, 0b111, 0b010, 0b010, 0b010, 0b010, 0b111, 0b000], -- code 73
   [4, 0b0001, 0b0001, 0b0001, 0b1001, 0b1001, 0b0110, 0b0000], -- code 74
   [4, 0b1001, 0b1010, 0b1010, 0b1100, 0b1010, 0b1001, 0b0000], -- code 75
   [4, 0b1000, 0b1000, 0b1000, 0b1000, 0b1000, 0b1111, 0b0000], -- code 76
   [5, 0b10001, 0b11011, 0b10101, 0b10001, 0b10001, 0b10001, 0b00000], -- code 77
   [4, 0b1001, 0b1001, 0b1101, 0b1011, 0b1001, 0b1001, 0b0000], -- code 78
   [4, 0b0110, 0b1001, 0b1001, 0b1001, 0b1001, 0b0110, 0b0000], -- code 79
   [4, 0b1110, 0b1001, 0b1001, 0b1110, 0b1000, 0b1000, 0b0000], -- code 80
   [5, 0b01110, 0b10001, 0b10001, 0b10001, 0b10101, 0b01110, 0b00001], -- code 81
   [4, 0b1110, 0b1001, 0b1001, 0b1110, 0b1010, 0b1001, 0b0000], -- code 82
   [4, 0b0110, 0b1001, 0b0100, 0b0010, 0b1001, 0b0110, 0b0000], -- code 83
   [5, 0b11111, 0b00100, 0b00100, 0b00100, 0b00100, 0b00100, 0b00000], -- code 84
   [4, 0b1001, 0b1001, 0b1001, 0b1001, 0b1001, 0b0110, 0b0000], -- code 85
   [4, 0b1001, 0b1001, 0b1001, 0b1001, 0b1010, 0b0100, 0b0000], -- code 86
   [5, 0b10001, 0b10001, 0b10001, 0b10101, 0b10101, 0b01010, 0b00000], -- code 87
   [4, 0b1001, 0b1001, 0b0110, 0b1001, 0b1001, 0b1001, 0b0000], -- code 88
   [5, 0b10001, 0b10001, 0b01010, 0b00100, 0b00100, 0b00100, 0b00000], -- code 89
   [4, 0b1111, 0b0001, 0b0010, 0b0100, 0b1000, 0b1111, 0b0000], -- code 90
   [2, 0b11, 0b10, 0b10, 0b10, 0b10, 0b11, 0b00], -- code 91
   [5, 0b00000, 0b10000, 0b01000, 0b00100, 0b00010, 0b00001, 0b00000], -- code 92
   [3, 0b010, 0b101, 0b000, 0b000, 0b000, 0b000, 0b000], -- record 62, the row labelled code 94
   [4, 0b0000, 0b0000, 0b0000, 0b0000, 0b0000, 0b1111, 0b0000], -- record 63, the row labelled code 95
   [2, 0b10, 0b01, 0b00, 0b00, 0b00, 0b00, 0b00], -- record 64, the row labelled code 96
   [4, 0b0000, 0b0000, 0b0111, 0b1001, 0b1001, 0b0111, 0b0000], -- record 65, the row labelled code 97
   [4, 0b0000, 0b1000, 0b1110, 0b1001, 0b1001, 0b1110, 0b0000], -- record 66, the row labelled code 98
   [3, 0b000, 0b000, 0b011, 0b100, 0b100, 0b011, 0b000], -- record 67, the row labelled code 99
   [4, 0b0000, 0b0001, 0b0111, 0b1001, 0b1001, 0b0111, 0b0000], -- record 68, the row labelled code 100
   [4, 0b0000, 0b0000, 0b0110, 0b1011, 0b1100, 0b0110, 0b0000], -- record 69, the row labelled code 101
   [3, 0b000, 0b001, 0b010, 0b111, 0b010, 0b010, 0b000], -- record 70, the row labelled code 102
   [4, 0b0000, 0b0111, 0b1001, 0b1001, 0b0111, 0b0001, 0b0110], -- record 71, the row labelled code 103
   [4, 0b0000, 0b1000, 0b1110, 0b1001, 0b1001, 0b1001, 0b0000], -- record 72, the row labelled code 104
   [1, 0b0, 0b1, 0b0, 0b1, 0b1, 0b1, 0b0], -- record 73, the row labelled code 105
   [2, 0b01, 0b00, 0b01, 0b01, 0b01, 0b10, 0b00], -- record 74, the row labelled code 106
   [4, 0b0000, 0b1000, 0b1001, 0b1010, 0b1110, 0b1001, 0b0000], -- record 75, the row labelled code 107
   [1, 0b0, 0b1, 0b1, 0b1, 0b1, 0b1, 0b0], -- record 76, the row labelled code 108
   [5, 0b00000, 0b00000, 0b11110, 0b10101, 0b10101, 0b10101, 0b00000], -- record 77, the row labelled code 109
   [4, 0b0000, 0b0000, 0b1110, 0b1001, 0b1001, 0b1001, 0b0000], -- record 78, the row labelled code 110
   [4, 0b0000, 0b0000, 0b0110, 0b1001, 0b1001, 0b0110, 0b0000], -- record 79, the row labelled code 111
   [4, 0b0000, 0b0000, 0b0110, 0b1001, 0b1001, 0b1110, 0b1000], -- record 80, the row labelled code 112
   [4, 0b0000, 0b0000, 0b0110, 0b1001, 0b1001, 0b0111, 0b0001], -- record 81, the row labelled code 113
   [3, 0b000, 0b000, 0b101, 0b110, 0b100, 0b100, 0b000], -- record 82, the row labelled code 114
   [4, 0b0000, 0b0000, 0b0111, 0b1100, 0b0011, 0b1110, 0b0000], -- record 83, the row labelled code 115
   [3, 0b000, 0b010, 0b111, 0b010, 0b010, 0b001, 0b000], -- record 84, the row labelled code 116
   [4, 0b0000, 0b0000, 0b1001, 0b1001, 0b1001, 0b0111, 0b0000], -- record 85, the row labelled code 117
   [4, 0b0000, 0b0000, 0b1001, 0b1001, 0b1010, 0b0100, 0b0000], -- record 86, the row labelled code 118
   [5, 0b00000, 0b00000, 0b10101, 0b10101, 0b01010, 0b01010, 0b00000], -- record 87, the row labelled code 119
   [3, 0b000, 0b000, 0b101, 0b010, 0b010, 0b101, 0b000], -- record 88, the row labelled code 120
   [4, 0b0000, 0b1001, 0b1001, 0b0111, 0b0001, 0b0110, 0b0000], -- record 89, the row labelled code 121
   [4, 0b0000, 0b0000, 0b1111, 0b0010, 0b0100, 0b1111, 0b0000], -- record 90, the row labelled code 122
   [3, 0b001, 0b010, 0b010, 0b100, 0b010, 0b010, 0b001], -- record 91, the row labelled code 123
   [1, 0b1, 0b1, 0b1, 0b1, 0b1, 0b1, 0b1], -- record 92, the row labelled code 124
   [3, 0b100, 0b010, 0b010, 0b001, 0b010, 0b010, 0b100], -- record 93, the row labelled code 125
   [5, 0b00000, 0b00000, 0b01000, 0b10101, 0b00010, 0b00000, 0b00000]] -- record 94, the row labelled code 126

/-- The table `FONT5_BITMAT[][6]` as compiled: one record per glyph, the width followed
by five row bitmasks. As in `FONT7_BITMAT`, the row of the character `]` (source line
238) follows a line ending in `// \ ` and is part of that comment: the compiled table
has 95 records, the rows labelled code 94 .. 126 being the records 62 .. 94. -/
def FONT5_BITMAT : List (List Nat) :=
  [[4, 0b1111, 0b1001, 0b1001, 0b1001, 0b1111], -- record 0, the error glyph
   [1, 0b0, 0b0, 0b0, 0b0, 0b0], -- code 32
   [1, 0b1, 0b1, 0b1, 0b0, 0b1], -- code 33
   [3, 0b101, 0b101, 0b000, 0b000, 0b000], -- code 34
   [5, 0b01010, 0b11111, 0b01010, 0b11111, 0b01010], -- code 35
   [4, 0b1111, 0b1001, 0b1001, 0b1001, 0b1111], -- code 36
   [4, 0b0000, 0b1001, 0b0010, 0b0100, 0b1001], -- code 37
   [4, 0b1111, 0b1001, 0b1001, 0b1001, 0b1111], -- code 38
   [1, 0b1, 0b1, 0b0, 0b0, 0b0], -- code 39
   [2, 0b01, 0b10, 0b10, 0b10, 0b01], -- code 40
   [2, 0b10, 0b01, 0b01, 0b01, 0b10], -- code 41
   [5, 0b10101, 0b01110, 0b00100, 0b01110, 0b10101], -- code 42
   [3, 0b000, 0b010, 0b111, 0b010, 0b000], -- code 43
   [2, 0b00, 0b00, 0b00, 0b01, 0b10], -- code 44
   [3, 0b000, 0b000, 0b111, 0b000, 0b000], -- code 45
   [1, 0b0, 0b0, 0b0, 0b1, 0b0], -- code 46
   [4, 0b0000, 0b0001, 0b0010, 0b0100, 0b1000], -- code 47
   [4, 0b0111, 0b1001, 0b1001, 0b1001, 0b1111], -- code 48
   [2, 0b01, 0b11, 0b01, 0b01, 0b01], -- code 49
   [4, 0b1110, 0b0001, 0b0111, 0b1000, 0b1111], -- code 50
   [4, 0b1110, 0b0001, 0b0110, 0b0001, 0b1111], -- code 51
   [4, 0b0011, 0b0101, 0b1001, 0b1111, 0b0001], -- code 52
   [4, 0b1110, 0b1000, 0b1111, 0b0001, 0b1111], -- code 53
   [4, 0b0110, 0b1000, 0b1111, 0b1001, 0b1111], -- code 54
   [4, 0b1111, 0b0001, 0b0001, 0b0010, 0b0100], -- code 55
   [4, 0b0111, 0b1001, 0b1111, 0b1001, 0b1111], -- code 56
   [4, 0b1111, 0b1001, 0b1111, 0b0001, 0b0110], -- code 57
   [1, 0b0, 0b1, 0b0, 0b1, 0b0], -- code 58
   [2, 0b00, 0b01, 0b00, 0b01, 0b10], -- code 59
   [3, 0b001, 0b010, 0b100, 0b010, 0b001], -- code 60
   [4, 0b0000, 0b1111, 0b0000, 0b1111, 0b0000], -- code 61
   [3, 0b100, 0b010, 0b001, 0b010, 0b100], -- code 62
   [3, 0b110, 0b001, 0b111, 0b000, 0b010], -- code 63
   [3, 0b100, 0b010, 0b001, 0b010, 0b100], -- code 64
   [4, 0b0111, 0b1001, 0b1001, 0b1111, 0b1001], -- code 65
   [4, 0b1110, 0b1001, 0b1111, 0b1001, 0b1111], -- code 66
   [4, 0b0110, 0b1001, 0b1000, 0b1001, 0b0110], -- code 67
   [4, 0b1110, 0b1001, 0b1001, 0b1001, 0b1110], -- code 68
   [4, 0b0111, 0b1000, 0b1110, 0b1000, 0b1111], -- code 69
   [4, 0b1111, 0b1000, 0b1110, 0b1000, 0b1000], -- code 70
   [4, 0b0110, 0b1000, 0b1011, 0b1001, 0b0111], -- code 71
   [4, 0b1001, 0b1001, 0b1111, 0b1001, 0b1001], -- code 72
   [3, 0b111, 0b010, 0b010, 0b010, 0b111], -- code 73
   [4, 0b0001, 0b0001, 0b0001, 0b1001, 0b0110], -- code 74
   [4, 0b1001, 0b1001, 0b1110, 0b1001, 0b1001], -- code 75
   [4, 0b1000, 0b1000, 0b1000, 0b1000, 0b1111], -- code 76
   [5, 0b10001, 0b11011, 0b10101, 0b10101, 0b10001], -- code 77
   [4, 0b1001, 0b1101, 0b1011, 0b1001, 0b1001], -- code 78
   [4, 0b0110, 0b1001, 0b1001, 0b1001, 0b0110], -- code 79
   [4, 0b1110, 0b1001, 0b1001, 0b1110, 0b1000], -- code 80
   [4, 0b0110, 0b1001, 0b1001, 0b1010, 0b0101], -- code 81
   [4, 0b0110, 0b1001, 0b1001, 0b1110, 0b1001], -- code 82
   [4, 0b0111, 0b1000, 0b1111, 0b0001, 0b1111], -- code 83
   [5, 0b11111, 0b00100, 0b00100, 0b00100, 0b00100], -- code 84
   [4, 0b1001, 0b1001, 0b1001, 0b1001, 0b0110], -- code 85
   [4, 0b1001, 0b1001, 0b1001, 0b1010, 0b0100], -- code 86
   [5, 0b10001, 0b10101, 0b10101, 0b10101, 0b01111], -- code 87
   [4, 0b1001, 0b1001, 0b0110, 0b1001, 0b1001], -- code 88
   [4, 0b1001, 0b1001, 0b1001, 0b0111, 0b0001], -- code 89
   [4, 0b1111, 0b0001, 0b0110, 0b1000, 0b1111], -- code 90
   [2, 0b11, 0b10, 0b10, 0b10, 0b11], -- code 91
   [4, 0b0000, 0b1000, 0b0100, 0b0010, 0b0001], -- code 92
   [3, 0b010, 0b101, 0b000, 0b000, 0b000], -- record 62, the row labelled code 94
   [3, 0b000, 0b000, 0b000, 0b000, 0b111], -- record 63, the row labelled code 95
   [2, 0b10, 0b01, 0b00, 0b00, 0b00], -- record 64, the row labelled code 96
   [4, 0b0111, 0b1001, 0b1001, 0b1111, 0b1001], -- record 65, the row labelled code 97
   [4, 0b1110, 0b1001, 0b1111, 0b1001, 0b1111], -- record 66, the row labelled code 98
   [4, 0b0110, 0b1001, 0b1000, 0b1001, 0b0110], -- record 67, the row labelled code 99
   [4, 0b1110, 0b1001, 0b1001, 0b1001, 0b1110], -- record 68, the row labelled code 100
   [4, 0b0111, 0b1000, 0b1110, 0b1000, 0b1111], -- record 69, the row labelled code 101
   [4, 0b1111, 0b1000, 0b1110, 0b1000, 0b1000], -- record 70, the row labelled code 102
   [4, 0b0110, 0b1000, 0b1011, 0b1001, 0b0111], -- record 71, the row labelled code 103
   [4, 0b1001, 0b1001, 0b1111, 0b1001, 0b1001], -- record 72, the row labelled code 104
   [3, 0b111, 0b010, 0b010, 0b010, 0b111], -- record 73, the row labelled code 105
   [4, 0b0001, 0b0001, 0b0001, 0b1001, 0b0110], -- record 74, the row labelled code 106
   [4, 0b1001, 0b1001, 0b1110, 0b1001, 0b1001], -- record 75, the row labelled code 107
   [4, 0b1000, 0b1000, 0b1000, 0b1000, 0b1111], -- record 76, the row labelled code 108
   [5, 0b10001, 0b11011, 0b10101, 0b10101, 0b10001], -- record 77, the row labelled code 109
   [4, 0b1001, 0b1101, 0b1011, 0b1001, 0b1001], -- record 78, the row labelled code 110
   [4, 0b0110, 0b1001, 0b1001, 0b1001, 0b0110], -- record 79, the row labelled code 111
   [4, 0b1110, 0b1001, 0b1001, 0b1110, 0b1000], -- record 80, the row labelled code 112
   [4, 0b0110, 0b1001, 0b1001, 0b1010, 0b0101], -- record 81, the row labelled code 113
   [4, 0b0110, 0b1001, 0b1001, 0b1110, 0b1001], -- record 82, the row labelled code 114
   [4, 0b0111, 0b1000, 0b1111, 0b0001, 0b1111], -- record 83, the row labelled code 115
   [5, 0b11111, 0b00100, 0b00100, 0b00100, 0b00100], -- record 84, the row labelled code 116
   [4, 0b1001, 0b1001, 0b1001, 0b1001, 0b0110], -- record 85, the row labelled code 117
   [4, 0b1001, 0b1001, 0b1001, 0b1010, 0b0100], -- record 86, the row labelled code 118
   [5, 0b10001, 0b10101, 0b10101, 0b10101, 0b01111], -- record 87, the row labelled code 119
   [4, 0b1001, 0b1001, 0b0110, 0b1001, 0b1001], -- record 88, the row labelled code 120
   [4, 0b1001, 0b1001, 0b1001, 0b0111, 0b0001], -- record 89, the row labelled code 121
   [4, 0b1111, 0b0001, 0b0110, 0b1000, 0b1111], -- record 90, the row labelled code 122
   [3, 0b001, 0b010, 0b110, 0b010, 0b001], -- record 91, the row labelled code 123
   [1, 0b1, 0b1, 0b1, 0b1, 0b1], -- record 92, the row labelled code 124
   [3, 0b100, 0b010, 0b011, 0b010, 0b100], -- record 93, the row labelled code 125
   [4, 0b0000, 0b0101, 0b1010, 0b0000, 0b0000]] -- record 94, the row labelled code 126

/-- A call issued on the object by a drawing routine: `fillRect(x, y, w, h, color)` of
the graphics base class, or `drawPixel(x, y, color)`. -/
inductive Call where
  | fillRect (x y w h : Int) (color : Nat)
  | drawPixel (x y : Int) (color : Nat)
  deriving DecidableEq

/-- How a run of `drawAscii` ends: it returns; it stops for ever in the `while(1)` that
follows the message "Unknown font size"; it reads a glyph table at a record index past
its end (behaviour undefined from there on); or it is still in its loop when the
iteration budget of the model is used up. Each case carries the calls issued so far. -/
inductive Outcome where
  | returned (calls : List Call)
  | halted (calls : List Call)
  | overrun (calls : List Call) (index : Int)
  | running (calls : List Call)
  deriving DecidableEq

/-- The calls issued so far. -/
def Outcome.calls : Outcome → List Call
  | .returned cs => cs
  | .halted cs => cs
  | .overrun cs _ => cs
  | .running cs => cs

namespace IRM_Mini

/-- The loop `for (uint8_t k=0; k<width; k++)` of `drawAscii`: one `drawPixel` call for
each set bit `k` of `line`. `x`, `y` are the `uint16_t` cursor, `j` the row counter. -/
def drawAscii_bits (x y : Int) (width line j fontSizeOffset color : Nat) : Nat → Nat → List Call
  | 0, _ => []
  | fuel + 1, k =>
    if k < width then
      (if line &&& (1 <<< k) ≠ 0 then
          [Call.drawPixel (i16 (x + width - k - 1)) (i16 (y + j + fontSizeOffset - 1)) color]
        else []) ++
        drawAscii_bits x y width line j fontSizeOffset color fuel ((k + 1) % 256)
    else []

/-- The loop `for (uint8_t j=1; j<=fontSize; j++)` of `drawAscii`. -/
def drawAscii_rows (x y : Int) (bitmap : List Nat) (width fontSize fontSizeOffset color : Nat) :
    Nat → Nat → List Call
  | 0, _ => []
  | fuel + 1, j =>
    if j ≤ fontSize then
      drawAscii_bits x y width (bitmap.getD j 0) j fontSizeOffset color 256 0 ++
        drawAscii_rows x y bitmap width fontSize fontSizeOffset color fuel ((j + 1) % 256)
    else []

/-- The body of the character loop of `drawAscii` after the `switch`: the calls issued
for the glyph record `bitmap` at the cursor `(x, y)`, and the new cursor `x`. -/
def drawAscii_glyph (x y : Int) (bitmap : List Nat) (color fontSize : Nat) : List Call × Int :=
  let width := bitmap.getD 0 0
  let clear := Call.fillRect (i16 x) (i16 y) (i16 (x + width)) (i16 (y + fontSize)) 0
  let fontSizeOffset := (u8 ((fontSize : Int) - fontSize)).toNat
  let pixels := drawAscii_rows x y bitmap width fontSize fontSizeOffset color 256 1
  let x := u16 (x + width)
  let space := Call.fillRect (i16 x) (i16 y) (i16 (x + 1)) (i16 (y + fontSize)) 0
  let x := u16 (x + 1)
  (clear :: pixels ++ [space], x)

/-- The character loop `for (uint8_t i=0; i<text.length(); i++)` of `drawAscii`. The
text is the list of its character codes; the first argument bounds the number of
iterations, `calls` are the calls issued so far. -/
def drawAscii_loop (y : Int) (text : List Nat) (color fontSize : Nat) :
    Nat → Nat → Int → List Call → Outcome
  | 0, _, _, calls => Outcome.running calls
  | fuel + 1, i, x, calls =>
    if i < text.length then
      let asciiValue := u8 ((text.getD i 0 : Int) - 32 + 1)
      let asciiValue := if asciiValue < 0 then 0 else asciiValue
      let table :=
        if fontSize = FONT7 then some FONT7_BITMAT
        else if fontSize = FONT5 then some FONT5_BITMAT
        else none
      match table with
      | none => Outcome.halted calls
      | some t =>
        match t[asciiValue.toNat]? with
        | none => Outcome.overrun calls asciiValue
        | some bitmap =>
          drawAscii_loop y text color fontSize fuel ((i + 1) % 256)
            (drawAscii_glyph x y bitmap color fontSize).2
            (calls ++ (drawAscii_glyph x y bitmap color fontSize).1)
    else Outcome.returned calls

/-- The method `drawAscii(uint16_t x, uint16_t y, String text, uint16_t color,
uint8_t fontSize)`, run for at most `fuel` characters. -/
def drawAscii (fuel : Nat) (x y : Int) (text : List Nat) (color fontSize : Nat) : Outcome :=
  drawAscii_loop y text color fontSize fuel 0 x []

/-- The loop `for (uint16_t y=0; y<h; y++)` of `drawRGBBitmap`, for the column `x`. -/
def drawRGBBitmap_rows (startx starty : Int) (bitmap : List Nat) (w h : Int) (cover : Bool)
    (x : Int) : Nat → Int → List Call
  | 0, _ => []
  | fuel + 1, y =>
    if y < h then
      (let color := bitmap.getD (x + y * w).toNat 0
       if color = 0 ∧ cover = false then []
       else
         let r := ((color >>> 16) &&& 0xFF) % 256
         let g := ((color >>> 8) &&& 0xFF) % 256
         let b := (color &&& 0xFF) % 256
         [Call.drawPixel (i16 (startx + x)) (i16 (starty + y)) (Color r g b)]) ++
        drawRGBBitmap_rows startx starty bitmap w h cover x fuel (u16 (y + 1))
    else []

/-- The loop `for (uint16_t x=0; x<w; x++)` of `drawRGBBitmap`. -/
def drawRGBBitmap_cols (startx starty : Int) (bitmap : List Nat) (w h : Int) (cover : Bool) :
    Nat → Int → List Call
  | 0, _ => []
  | fuel + 1, x =>
    if x < w then
      drawRGBBitmap_rows startx starty bitmap w h cover x 65536 0 ++
        drawRGBBitmap_cols startx starty bitmap w h cover fuel (u16 (x + 1))
    else []

/-- The method `drawRGBBitmap(int16_t startx, int16_t starty, const uint32_t *bitmap,
int16_t w, int16_t h, bool cover)`: the `drawPixel` calls it issues. The `uint16_t`
counters are compared with `w` and `h` as `int`. -/
def drawRGBBitmap (startx starty : Int) (bitmap : List Nat) (w h : Int) (cover : Bool) :
    List Call :=
  drawRGBBitmap_cols startx starty bitmap w h cover 65536 0

/-- The glyph table a supported font size selects in the `switch` of `drawAscii`. -/
def fontTable (fontSize : Nat) : List (List Nat) :=
  if fontSize = FONT7 then FONT7_BITMAT else FONT5_BITMAT

/-- The record `drawAscii` reads for the character code `c` when `32 <= c`: the one at
the record index `c - 32 + 1` of the compiled table (the empty list stands for a
position past the end). -/
def glyphRecord (fontSize c : Nat) : List Nat := (fontTable fontSize).getD (c - 32 + 1) []

/-- The run is still in its loop. -/
def isRunning : Outcome → Bool
  | .running _ => true
  | _ => false

/-- The call is a `drawPixel` call. -/
def isDrawPixel : Call → Bool
  | .drawPixel _ _ _ => true
  | _ => false

/-- The `drawPixel` call of the specification for the source pixel `(col, row)` of a
bitmap `w` pixels wide: at `(startx + col, starty + row)` converted to `int16_t`, with
the colour `Color (r, g, b)` where `r`, `g`, `b` are bits 16-23, 8-15 and 0-7 of
`bitmap[col + row*w]`. -/
def specBlitCall (startx starty : Int) (bitmap : List Nat) (w col row : Nat) : Call :=
  Call.drawPixel (i16 (startx + col)) (i16 (starty + row))
    (Color (bitmap.getD (col + row * w) 0 / 2 ^ 16 % 256)
      (bitmap.getD (col + row * w) 0 / 2 ^ 8 % 256) (bitmap.getD (col + row * w) 0 % 256))

end IRM_Mini

/-! ## Arithmetic of the fixed-width conversions -/

theorem u16_of_range {v : Int} (h0 : 0 ≤ v) (h1 : v < 65536) : u16 v = v := by
  unfold u16; omega

theorem i16_of_range {v : Int} (h0 : -32768 ≤ v) (h1 : v ≤ 32767) : i16 v = v := by
  unfold i16; omega

theorem i16_le (v : Int) : i16 v ≤ 32767 := by
  unfold i16; omega

theorem i16_le_of_eq {a v : Int} (h : a = i16 v) : a ≤ 32767 := by
  rw [h]; exact i16_le v

theorem i16_neg_of_ge {v : Int} (h0 : 32768 ≤ v) (h1 : v < 65536) : i16 v < 0 := by
  unfold i16; omega

/-! ## The wiring order of one level -/

namespace IRM_Mini

theorem specSequence_range (zigzag : Bool) (scale major minor : Int)
    (h0 : 0 ≤ minor) (h1 : minor < scale) :
    major * scale ≤ specSequence zigzag scale major minor ∧
    specSequence zigzag scale major minor < (major + 1) * scale := by
  unfold specSequence
  split <;> constructor <;> nlinarith

theorem specSequence_bounds (zigzag : Bool) (scale count major minor : Int)
    (h0 : 0 ≤ minor) (h1 : minor < scale) (h2 : 0 ≤ major) (h3 : major < count) :
    0 ≤ specSequence zigzag scale major minor ∧
    specSequence zigzag scale major minor < count * scale := by
  have h := specSequence_range zigzag scale major minor h0 h1
  constructor <;> nlinarith [h.1, h.2]

theorem specSequence_inj {zigzag : Bool} {scale a b c d : Int}
    (h : specSequence zigzag scale a b = specSequence zigzag scale c d)
    (hb0 : 0 ≤ b) (hb : b < scale) (hd0 : 0 ≤ d) (hd : d < scale) :
    a = c ∧ b = d := by
  have h1 := specSequence_range zigzag scale a b hb0 hb
  have h2 := specSequence_range zigzag scale c d hd0 hd
  have hs : 0 < scale := by omega
  have hac : a = c := by
    rw [h] at h1
    have e1 : a * scale < (c + 1) * scale := lt_of_le_of_lt h1.1 h2.2
    have e2 : c * scale < (a + 1) * scale := lt_of_le_of_lt h2.1 h1.2
    have f1 : a < c + 1 := lt_of_mul_lt_mul_right e1 hs.le
    have f2 : c < a + 1 := lt_of_mul_lt_mul_right e2 hs.le
    omega
  subst hac
  refine ⟨rfl, ?_⟩
  unfold specSequence at h
  split at h <;> linarith

theorem specLevelIndex_range (right bottom columns zigzag : Bool) (W H x y : Int)
    (hx0 : 0 ≤ x) (hx : x < W) (hy0 : 0 ≤ y) (hy : y < H) :
    0 ≤ specLevelIndex right bottom columns zigzag W H x y ∧
    specLevelIndex right bottom columns zigzag W H x y < W * H := by
  unfold specLevelIndex
  cases right <;> cases bottom <;> cases columns <;>
    simp only [if_true, if_false, Bool.false_eq_true] <;>
    first
      | (refine specSequence_bounds _ _ _ _ _ ?_ ?_ ?_ ?_ <;> omega)
      | (rw [mul_comm W H]; refine specSequence_bounds _ _ _ _ _ ?_ ?_ ?_ ?_ <;> omega)

theorem specLevelIndex_inj (right bottom columns zigzag : Bool) (W H x y u v : Int)
    (hx0 : 0 ≤ x) (hx : x < W) (hy0 : 0 ≤ y) (hy : y < H)
    (hu0 : 0 ≤ u) (hu : u < W) (hv0 : 0 ≤ v) (hv : v < H)
    (h : specLevelIndex right bottom columns zigzag W H x y =
      specLevelIndex right bottom columns zigzag W H u v) :
    x = u ∧ y = v := by
  unfold specLevelIndex at h
  cases right <;> cases bottom <;> cases columns <;>
    simp only [if_true, if_false, Bool.false_eq_true] at h <;>
    (have e := specSequence_inj h (by omega) (by omega) (by omega) (by omega)
     omega)

/-! ## The code computes the exact index when nothing wraps -/

theorem u16_sequence_progressive (count : Int) {scale major minor : Int}
    (h0 : 0 ≤ minor) (h1 : minor < scale) (h2 : 0 ≤ major) (h3 : major < count)
    (hc : count * scale ≤ 65536) :
    u16 (major * scale + minor) = specSequence false scale major minor := by
  have h := specSequence_bounds false scale count major minor h0 h1 h2 h3
  have e : specSequence false scale major minor = major * scale + minor := by
    simp [specSequence]
  rw [← e]
  exact u16_of_range h.1 (by omega)

theorem u16_sequence_zigzag {scale count major minor : Int}
    (h0 : 0 ≤ minor) (h1 : minor < scale) (h2 : 0 ≤ major) (h3 : major < count)
    (hc : count * scale ≤ 65536) :
    (if major % 2 ≠ 0 then u16 ((major + 1) * scale - 1 - minor)
      else u16 (major * scale + minor)) = specSequence true scale major minor := by
  have h := specSequence_bounds true scale count major minor h0 h1 h2 h3
  have e := u16_of_range h.1 (by omega : specSequence true scale major minor < 65536)
  rw [← e]
  unfold specSequence
  split <;> simp_all

theorem pair_sequence_zigzag {α : Type} (corner : α) (count : Int) {scale major minor : Int}
    (h0 : 0 ≤ minor) (h1 : minor < scale) (h2 : 0 ≤ major) (h3 : major < count)
    (hc : count * scale ≤ 65536) :
    (if ¬ major % 2 = 0 then (corner, u16 ((major + 1) * scale - 1 - minor))
      else (corner, u16 (major * scale + minor))) =
      (corner, specSequence true scale major minor) := by
  rw [← u16_sequence_zigzag h0 h1 h2 h3 hc]
  split <;> simp_all

theorem drawPixel_pixel_exact (s : IRM_Mini) (corner : Nat) (x y : Int)
    (hx0 : 0 ≤ x) (hx : x < s.matrixWidth) (hy0 : 0 ≤ y) (hy : y < s.matrixHeight)
    (hw : s.matrixWidth < 65536) (hh : s.matrixHeight < 65536) :
    drawPixel_pixel s corner x y =
      specLevelIndex (decide (corner &&& NEO_MATRIX_RIGHT ≠ 0))
        (decide (corner &&& NEO_MATRIX_BOTTOM ≠ 0))
        (decide (s.type &&& NEO_MATRIX_AXIS ≠ NEO_MATRIX_ROWS))
        (decide (s.type &&& NEO_MATRIX_SEQUENCE ≠ NEO_MATRIX_PROGRESSIVE))
        s.matrixWidth s.matrixHeight x y := by
  have e1 : u16 x = x := u16_of_range hx0 (by omega)
  have e2 : u16 y = y := u16_of_range hy0 (by omega)
  have e3 : u16 (s.matrixWidth - 1 - x) = s.matrixWidth - 1 - x :=
    u16_of_range (by omega) (by omega)
  have e4 : u16 (s.matrixHeight - 1 - y) = s.matrixHeight - 1 - y :=
    u16_of_range (by omega) (by omega)
  have e5 : u16 s.matrixWidth = s.matrixWidth := u16_of_range (by omega) hw
  have e6 : u16 s.matrixHeight = s.matrixHeight := u16_of_range (by omega) hh
  simp only [drawPixel_pixel, specLevelIndex, specSequence, e1, e2, e3, e4, e5, e6]
  by_cases c1 : corner &&& NEO_MATRIX_RIGHT ≠ 0 <;>
  by_cases c2 : corner &&& NEO_MATRIX_BOTTOM ≠ 0 <;>
  by_cases c3 : s.type &&& NEO_MATRIX_AXIS = NEO_MATRIX_ROWS <;>
  by_cases c4 : s.type &&& NEO_MATRIX_SEQUENCE = NEO_MATRIX_PROGRESSIVE <;>
  simp [c1, c2, c3, c4]

theorem tdiv_eq_of_nonneg {a b : Int} (ha : 0 ≤ a) (hb : 0 < b) : Int.tdiv a b = a / b :=
  Int.tdiv_eq_ediv ha hb.le

theorem ediv_range {a b c : Int} (ha : 0 ≤ a) (hb : 0 < b) (h : a < b * c) :
    0 ≤ a / b ∧ a / b < c :=
  ⟨Int.ediv_nonneg ha hb.le, Int.ediv_lt_of_lt_mul hb (by rw [mul_comm]; exact h)⟩

theorem sub_ediv_mul {a b : Int} : a - a / b * b = a % b := by
  have := Int.emod_add_ediv a b
  linarith [mul_comm b (a / b)]

theorem drawPixel_tile_exact (s : IRM_Mini) (corner : Nat) (x y : Int)
    (hmw : 1 ≤ s.matrixWidth) (hmh : 1 ≤ s.matrixHeight)
    (htx : 1 ≤ s.tilesX) (hty : 1 ≤ s.tilesY)
    (hx0 : 0 ≤ x) (hx : x < s.matrixWidth * s.tilesX)
    (hy0 : 0 ≤ y) (hy : y < s.matrixHeight * s.tilesY)
    (hw : s.matrixWidth * s.tilesX ≤ 32767) (hh : s.matrixHeight * s.tilesY ≤ 32767)
    (ht : s.tilesX * s.tilesY ≤ 65536) :
    drawPixel_tile s corner x y =
      (specLevelIndex (decide (s.type &&& NEO_TILE_RIGHT ≠ 0))
          (decide (s.type &&& NEO_TILE_BOTTOM ≠ 0))
          (decide (s.type &&& NEO_TILE_AXIS ≠ NEO_TILE_ROWS))
          (decide (s.type &&& NEO_TILE_SEQUENCE ≠ NEO_TILE_PROGRESSIVE))
          s.tilesX s.tilesY (x / s.matrixWidth) (y / s.matrixHeight)
        * s.matrixWidth * s.matrixHeight,
       corner, x % s.matrixWidth, y % s.matrixHeight) := by
  obtain ⟨q0, q1⟩ := ediv_range hx0 (by omega : 0 < s.matrixWidth) hx
  obtain ⟨p0, p1⟩ := ediv_range hy0 (by omega : 0 < s.matrixHeight) hy
  have tx1 : s.tilesX ≤ 32767 := by nlinarith
  have ty1 : s.tilesY ≤ 32767 := by nlinarith
  have mx0 := Int.emod_nonneg x (by omega : s.matrixWidth ≠ 0)
  have mx1 := Int.emod_lt_of_pos x (by omega : 0 < s.matrixWidth)
  have my0 := Int.emod_nonneg y (by omega : s.matrixHeight ≠ 0)
  have my1 := Int.emod_lt_of_pos y (by omega : 0 < s.matrixHeight)
  have mw1 : s.matrixWidth ≤ 32767 := by nlinarith
  have mh1 : s.matrixHeight ≤ 32767 := by nlinarith
  have d1 : Int.tdiv x s.matrixWidth = x / s.matrixWidth := tdiv_eq_of_nonneg hx0 (by omega)
  have d2 : Int.tdiv y s.matrixHeight = y / s.matrixHeight := tdiv_eq_of_nonneg hy0 (by omega)
  have e1 : u16 (x / s.matrixWidth) = x / s.matrixWidth := u16_of_range q0 (by omega)
  have e2 : u16 (y / s.matrixHeight) = y / s.matrixHeight := u16_of_range p0 (by omega)
  have e3 : i16 (x - x / s.matrixWidth * s.matrixWidth) = x % s.matrixWidth := by
    rw [sub_ediv_mul]; exact i16_of_range (by omega) (by omega)
  have e4 : i16 (y - y / s.matrixHeight * s.matrixHeight) = y % s.matrixHeight := by
    rw [sub_ediv_mul]; exact i16_of_range (by omega) (by omega)
  have e5 : u16 (s.tilesX - 1 - x / s.matrixWidth) = s.tilesX - 1 - x / s.matrixWidth :=
    u16_of_range (by omega) (by omega)
  have e6 : u16 (s.tilesY - 1 - y / s.matrixHeight) = s.tilesY - 1 - y / s.matrixHeight :=
    u16_of_range (by omega) (by omega)
  have e7 : u16 s.tilesX = s.tilesX := u16_of_range (by omega) (by omega)
  have e8 : u16 s.tilesY = s.tilesY := u16_of_range (by omega) (by omega)
  have ht2 : s.tilesY * s.tilesX ≤ 65536 := by rw [mul_comm]; exact ht
  simp only [drawPixel_tile, specLevelIndex, NEO_TILE_ZIGZAG_NOFLIP, d1, d2, e1, e2, e3, e4, e5,
    e6, e7, e8, if_true]
  by_cases c1 : s.type &&& NEO_TILE_RIGHT ≠ 0 <;>
  by_cases c2 : s.type &&& NEO_TILE_BOTTOM ≠ 0 <;>
  by_cases c3 : s.type &&& NEO_TILE_AXIS = NEO_TILE_ROWS <;>
  by_cases c4 : s.type &&& NEO_TILE_SEQUENCE = NEO_TILE_PROGRESSIVE <;>
  simp only [c1, c2, c3, c4, if_true, if_false, not_true_eq_false, not_false_eq_true,
    decide_True, decide_False, ne_eq, Bool.false_eq_true]
  all_goals first
    | (rw [u16_sequence_progressive s.tilesY ?_ ?_ ?_ ?_ ht2] <;> omega)
    | (rw [u16_sequence_progressive s.tilesX ?_ ?_ ?_ ?_ ht] <;> omega)
    | (rw [pair_sequence_zigzag corner s.tilesY ?_ ?_ ?_ ?_ ht2] <;> omega)
    | (rw [pair_sequence_zigzag corner s.tilesX ?_ ?_ ?_ ?_ ht] <;> omega)

theorem land_corner_right (t : Nat) :
    (t &&& NEO_MATRIX_CORNER) &&& NEO_MATRIX_RIGHT = t &&& NEO_MATRIX_RIGHT := by
  rw [Nat.land_assoc]; rfl

theorem land_corner_bottom (t : Nat) :
    (t &&& NEO_MATRIX_CORNER) &&& NEO_MATRIX_BOTTOM = t &&& NEO_MATRIX_BOTTOM := by
  rw [Nat.land_assoc]; rfl

theorem specLevelIndex_single (right bottom columns zigzag : Bool) :
    specLevelIndex right bottom columns zigzag 1 1 0 0 = 0 := by
  cases right <;> cases bottom <;> cases columns <;> cases zigzag <;> rfl

/-- The canvas of a configured matrix on which some coordinate is in bounds has the
sides the constructor asked for: nothing wrapped in the `int16_t` fields. -/
theorem canvas_sides (s : IRM_Mini) (x y : Int) (hc : Untiled s ∨ Tiled s) (hr : Rotated s)
    (hf : totalPixels s < 65536) (hb : InBounds s x y) :
    s.WIDTH = s.matrixWidth * max s.tilesX 1 ∧ s.HEIGHT = s.matrixHeight * max s.tilesY 1 ∧
    1 ≤ s.matrixWidth ∧ 1 ≤ s.matrixHeight ∧
    s.matrixWidth * max s.tilesX 1 ≤ 32767 ∧ s.matrixHeight * max s.tilesY 1 ≤ 32767 := by
  obtain ⟨hr0, hr1, hr2⟩ := hr
  obtain ⟨b0, b1, b2, b3⟩ := hb
  have hpos : 0 < s.WIDTH ∧ 0 < s.HEIGHT := by
    rw [hr1] at b2; rw [hr2] at b3
    split at b2 <;> split at b3 <;> omega
  have key : ∀ a b c d : Int, 1 ≤ a → 1 ≤ b → 1 ≤ c → 1 ≤ d → a * b * c * d < 65536 →
      0 < i16 (a * c) → 0 < i16 (b * d) →
      i16 (a * c) = a * c ∧ i16 (b * d) = b * d ∧ a * c ≤ 32767 ∧ b * d ≤ 32767 := by
    intro a b c d ha hb hc hd hlt h1 h2
    have hbd : 1 ≤ b * d := by nlinarith
    have hac : 1 ≤ a * c := by nlinarith
    have e1 : a * c < 65536 := by nlinarith
    have e2 : b * d < 65536 := by nlinarith
    unfold i16 at *
    omega
  unfold totalPixels at hf
  rcases hc with ⟨u0, u1, u2, u3, u4, u5⟩ | ⟨t0, t1, t2, t3, t4, t5⟩
  · have m1 : max s.tilesX 1 = 1 := by omega
    have m2 : max s.tilesY 1 = 1 := by omega
    rw [m1, m2] at hf ⊢
    have k := key s.matrixWidth s.matrixHeight 1 1 u2 u3 le_rfl le_rfl hf
      (by rw [mul_one, ← u4]; exact hpos.1) (by rw [mul_one, ← u5]; exact hpos.2)
    simp only [mul_one] at k ⊢
    rw [u4, u5]
    exact ⟨k.1, k.2.1, u2, u3, k.2.2⟩
  · have m1 : max s.tilesX 1 = s.tilesX := by omega
    have m2 : max s.tilesY 1 = s.tilesY := by omega
    rw [m1, m2] at hf ⊢
    have k := key s.matrixWidth s.matrixHeight s.tilesX s.tilesY t2 t3 t0 t1 hf
      (by rw [← t4]; exact hpos.1) (by rw [← t5]; exact hpos.2)
    rw [t4, t5]
    exact ⟨k.1, k.2.1, t2, t3, k.2.2⟩

/-- In bounds, the rotation switch computes the exact pre-transform, and the rotated
coordinate lies inside the unrotated canvas. -/
theorem drawPixel_rotate_exact (s : IRM_Mini) (x y : Int) (hr : Rotated s)
    (hw : s.WIDTH ≤ 32767) (hh : s.HEIGHT ≤ 32767) (hb : InBounds s x y) :
    drawPixel_rotate s x y = specRotate s.WIDTH s.HEIGHT s.rotation x y ∧
    0 ≤ (specRotate s.WIDTH s.HEIGHT s.rotation x y).1 ∧
    (specRotate s.WIDTH s.HEIGHT s.rotation x y).1 < s.WIDTH ∧
    0 ≤ (specRotate s.WIDTH s.HEIGHT s.rotation x y).2 ∧
    (specRotate s.WIDTH s.HEIGHT s.rotation x y).2 < s.HEIGHT := by
  obtain ⟨hr0, hr1, hr2⟩ := hr
  obtain ⟨b0, b1, b2, b3⟩ := hb
  rw [hr1] at b2; rw [hr2] at b3
  unfold drawPixel_rotate specRotate
  have h4 : s.rotation = 0 ∨ s.rotation = 1 ∨ s.rotation = 2 ∨ s.rotation = 3 := by omega
  rcases h4 with h | h | h | h <;> rw [h] at b2 b3 ⊢ <;> simp at b2 b3 ⊢
  · omega
  · rw [i16_of_range (by omega) (by omega)]; omega
  · rw [i16_of_range (by omega) (by omega), i16_of_range (by omega) (by omega)]; omega
  · rw [i16_of_range (by omega) (by omega)]; omega

theorem specIndex_range (s : IRM_Mini) (x y : Int)
    (hmw : 1 ≤ s.matrixWidth) (hmh : 1 ≤ s.matrixHeight)
    (hx0 : 0 ≤ x) (hx : x < s.matrixWidth * max s.tilesX 1)
    (hy0 : 0 ≤ y) (hy : y < s.matrixHeight * max s.tilesY 1) :
    0 ≤ specIndex s x y ∧ specIndex s x y < totalPixels s := by
  obtain ⟨q0, q1⟩ := ediv_range hx0 (by omega : 0 < s.matrixWidth) hx
  obtain ⟨p0, p1⟩ := ediv_range hy0 (by omega : 0 < s.matrixHeight) hy
  have mx0 := Int.emod_nonneg x (by omega : s.matrixWidth ≠ 0)
  have mx1 := Int.emod_lt_of_pos x (by omega : 0 < s.matrixWidth)
  have my0 := Int.emod_nonneg y (by omega : s.matrixHeight ≠ 0)
  have my1 := Int.emod_lt_of_pos y (by omega : 0 < s.matrixHeight)
  unfold specIndex totalPixels
  generalize max s.tilesX 1 = tx at *
  generalize max s.tilesY 1 = ty at *
  have hT := specLevelIndex_range (decide (s.type &&& NEO_TILE_RIGHT ≠ 0))
    (decide (s.type &&& NEO_TILE_BOTTOM ≠ 0)) (decide (s.type &&& NEO_TILE_AXIS ≠ NEO_TILE_ROWS))
    (decide (s.type &&& NEO_TILE_SEQUENCE ≠ NEO_TILE_PROGRESSIVE))
    tx ty (x / s.matrixWidth) (y / s.matrixHeight) q0 q1 p0 p1
  have hP := specLevelIndex_range (decide (s.type &&& NEO_MATRIX_RIGHT ≠ 0))
    (decide (s.type &&& NEO_MATRIX_BOTTOM ≠ 0))
    (decide (s.type &&& NEO_MATRIX_AXIS ≠ NEO_MATRIX_ROWS))
    (decide (s.type &&& NEO_MATRIX_SEQUENCE ≠ NEO_MATRIX_PROGRESSIVE))
    s.matrixWidth s.matrixHeight (x % s.matrixWidth) (y % s.matrixHeight) mx0 mx1 my0 my1
  revert hT hP
  generalize specLevelIndex _ _ _ _ tx ty _ _ = T
  generalize specLevelIndex _ _ _ _ s.matrixWidth s.matrixHeight _ _ = P
  intro hT hP
  have hA : 0 < s.matrixWidth * s.matrixHeight := by nlinarith
  constructor
  · nlinarith
  · have : (T + 1) * (s.matrixWidth * s.matrixHeight) ≤ tx * ty * (s.matrixWidth * s.matrixHeight) :=
      mul_le_mul_of_nonneg_right (by omega) hA.le
    nlinarith

theorem drawPixel_offsets_exact (s : IRM_Mini) (x y : Int) (hn : s.remapFn = none)
    (ht : (s.tilesX = 0 ∧ s.tilesY = 0) ∨ (1 ≤ s.tilesX ∧ 1 ≤ s.tilesY))
    (hmw : 1 ≤ s.matrixWidth) (hmh : 1 ≤ s.matrixHeight) (hf : totalPixels s < 65536)
    (hx0 : 0 ≤ x) (hx : x < s.matrixWidth * max s.tilesX 1)
    (hy0 : 0 ≤ y) (hy : y < s.matrixHeight * max s.tilesY 1)
    (hw : s.matrixWidth * max s.tilesX 1 ≤ 32767)
    (hh : s.matrixHeight * max s.tilesY 1 ≤ 32767) :
    (drawPixel_offsets s x y).1 + (drawPixel_offsets s x y).2 = specIndex s x y := by
  unfold totalPixels at hf
  unfold drawPixel_offsets specIndex
  rw [hn]
  rcases ht with ⟨t0, t1⟩ | ⟨t0, t1⟩
  · have m1 : max s.tilesX 1 = 1 := by omega
    have m2 : max s.tilesY 1 = 1 := by omega
    simp only [m1, m2, mul_one] at hf hx hy hw hh ⊢
    have dx : x / s.matrixWidth = 0 := Int.ediv_eq_zero_of_lt hx0 hx
    have dy : y / s.matrixHeight = 0 := Int.ediv_eq_zero_of_lt hy0 hy
    have ex : x % s.matrixWidth = x := Int.emod_eq_of_lt hx0 hx
    have ey : y % s.matrixHeight = y := Int.emod_eq_of_lt hy0 hy
    rw [dx, dy, ex, ey, specLevelIndex_single]
    simp only [t0, ne_eq, not_true_eq_false, if_false, zero_mul, zero_add]
    rw [drawPixel_pixel_exact s _ x y hx0 hx hy0 hy (by omega) (by omega),
      land_corner_right, land_corner_bottom]
  · have m1 : max s.tilesX 1 = s.tilesX := by omega
    have m2 : max s.tilesY 1 = s.tilesY := by omega
    simp only [m1, m2] at hf hx hy hw hh ⊢
    have hne : s.tilesX ≠ 0 := by omega
    have mx0 := Int.emod_nonneg x (by omega : s.matrixWidth ≠ 0)
    have mx1 := Int.emod_lt_of_pos x (by omega : 0 < s.matrixWidth)
    have my0 := Int.emod_nonneg y (by omega : s.matrixHeight ≠ 0)
    have my1 := Int.emod_lt_of_pos y (by omega : 0 < s.matrixHeight)
    have hA : 1 ≤ s.matrixWidth * s.matrixHeight := by nlinarith
    have hB : 1 ≤ s.tilesX * s.tilesY := by nlinarith
    have htt : s.tilesX * s.tilesY ≤ 65536 := by nlinarith
    have hw2 : s.matrixWidth ≤ 32767 := by nlinarith
    have hh2 : s.matrixHeight ≤ 32767 := by nlinarith
    simp only [hne, ne_eq, not_false_eq_true, if_true]
    rw [drawPixel_tile_exact s _ x y hmw hmh t0 t1 hx0 hx hy0 hy hw hh htt]
    simp only
    rw [drawPixel_pixel_exact s _ _ _ mx0 mx1 my0 my1 (by omega) (by omega),
      land_corner_right, land_corner_bottom]
    ring

theorem drawPixel_eq_of_inBounds (g : GammaTables) (s : IRM_Mini) (x y : Int) (color : Nat)
    (hb : InBounds s x y) :
    drawPixel g s x y color =
      setPixelColor s (drawPixel_index s x y)
        (if s.passThruFlag then s.passThruColor else expandColor g color) := by
  obtain ⟨b0, b1, b2, b3⟩ := hb
  unfold drawPixel
  rw [if_neg (by omega)]

theorem drawPixel_eq_of_not_inBounds (g : GammaTables) (s : IRM_Mini) (x y : Int) (color : Nat)
    (hb : ¬ InBounds s x y) : drawPixel g s x y color = s := by
  unfold InBounds at hb
  unfold drawPixel
  rw [if_pos (by omega)]

/-- On a configured matrix whose pixel count fits in 16 bits and without a callback,
the index received by the strip is the exact index of the rotated coordinate, which
lies in the unrotated canvas, and it is a valid pixel number. -/
theorem drawPixel_index_exact (s : IRM_Mini) (x y : Int) (hc : Untiled s ∨ Tiled s)
    (hr : Rotated s) (hf : totalPixels s < 65536) (hn : s.remapFn = none)
    (hb : InBounds s x y) :
    drawPixel_index s x y =
      specIndex s (specRotate s.WIDTH s.HEIGHT s.rotation x y).1
        (specRotate s.WIDTH s.HEIGHT s.rotation x y).2 ∧
    0 ≤ drawPixel_index s x y ∧ drawPixel_index s x y < totalPixels s := by
  obtain ⟨cw, ch, mw, mh, lw, lh⟩ := canvas_sides s x y hc hr hf hb
  obtain ⟨r0, r1, r2, r3, r4⟩ :=
    drawPixel_rotate_exact s x y hr (by omega) (by omega) hb
  have ht : (s.tilesX = 0 ∧ s.tilesY = 0) ∨ (1 ≤ s.tilesX ∧ 1 ≤ s.tilesY) := by
    rcases hc with h | h
    · exact Or.inl ⟨h.1, h.2.1⟩
    · exact Or.inr ⟨h.1, h.2.1⟩
  have r2 := lt_of_lt_of_eq r2 cw
  have r4 := lt_of_lt_of_eq r4 ch
  have e := drawPixel_offsets_exact s _ _ hn ht mw mh hf r1 r2 r3 r4 lw lh
  have b := specIndex_range s _ _ mw mh r1 r2 r3 r4
  have dx : drawPixel_index s x y =
      specIndex s (specRotate s.WIDTH s.HEIGHT s.rotation x y).1
        (specRotate s.WIDTH s.HEIGHT s.rotation x y).2 := by
    unfold drawPixel_index
    rw [r0]
    simp only
    rw [e]
    exact u16_of_range b.1 (by omega)
  rw [dx]
  exact ⟨rfl, b⟩

/-- C1. For every topology byte, every rotation in {0,1,2,3} and every untiled or tiled
configuration with positive sides whose total pixel count fits in 16 bits, without a
remap callback: a `drawPixel` that passes the bounds check makes one `setPixelColor`
call whose index is at least 0 and less than
`matrixWidth*matrixHeight*max(tilesX,1)*max(tilesY,1)`; the rotated coordinate stays
inside the unrotated `WIDTH` by `HEIGHT` canvas, and the index equals the index
computed in exact integers, so that no 16-bit conversion (in particular no unsigned
subtraction of a corner flip) wrapped around. -/
theorem drawPixel_index_in_range (g : GammaTables) (s : IRM_Mini) (x y : Int) (color : Nat)
    (hc : Untiled s ∨ Tiled s) (hr : Rotated s) (hf : totalPixels s < 65536)
    (hn : s.remapFn = none) (hb : InBounds s x y) :
    (drawPixel g s x y color).strip =
      s.strip ++ [(drawPixel_index s x y,
        if s.passThruFlag then s.passThruColor else expandColor g color)] ∧
    0 ≤ drawPixel_index s x y ∧ drawPixel_index s x y < totalPixels s ∧
    0 ≤ (drawPixel_rotate s x y).1 ∧ (drawPixel_rotate s x y).1 < s.WIDTH ∧
    0 ≤ (drawPixel_rotate s x y).2 ∧ (drawPixel_rotate s x y).2 < s.HEIGHT ∧
    drawPixel_index s x y =
      specIndex s (specRotate s.WIDTH s.HEIGHT s.rotation x y).1
        (specRotate s.WIDTH s.HEIGHT s.rotation x y).2 := by
  obtain ⟨cw, ch, mw, mh, lw, lh⟩ := canvas_sides s x y hc hr hf hb
  obtain ⟨r0, r1, r2, r3, r4⟩ :=
    drawPixel_rotate_exact s x y hr (by omega) (by omega) hb
  obtain ⟨e, i0, i1⟩ := drawPixel_index_exact s x y hc hr hf hn hb
  rw [drawPixel_eq_of_inBounds g s x y color hb, r0]
  exact ⟨rfl, i0, i1, r1, r2, r3, r4, e⟩

/-- Witness of C1: 4 by 4 tiles of 2 by 2 pixels, every topology flag set, rotated by
one quadrant, coordinate (3, 5). -/
theorem drawPixel_index_in_range_witness :
    (drawPixel ⟨id, id⟩ ((tiled 2 2 4 4 0xff).setRotation 1) 3 5 0).strip =
      [(drawPixel_index ((tiled 2 2 4 4 0xff).setRotation 1) 3 5, 0)] ∧
    drawPixel_index ((tiled 2 2 4 4 0xff).setRotation 1) 3 5 < 64 :=
  have h := drawPixel_index_in_range ⟨id, id⟩ ((tiled 2 2 4 4 0xff).setRotation 1) 3 5 0
    (by decide) (by decide) (by decide) rfl (by decide)
  ⟨h.1, h.2.2.1⟩

/-! ## The index map is a bijection -/

theorem mul_add_unique {A T P U Q : Int} (hP0 : 0 ≤ P) (hP : P < A) (hQ0 : 0 ≤ Q) (hQ : Q < A)
    (h : T * A + P = U * A + Q) : T = U ∧ P = Q := by
  have hA : 0 < A := by omega
  have e1 : T * A < (U + 1) * A := by nlinarith
  have e2 : U * A < (T + 1) * A := by nlinarith
  have f1 : T < U + 1 := lt_of_mul_lt_mul_right e1 hA.le
  have f2 : U < T + 1 := lt_of_mul_lt_mul_right e2 hA.le
  have hTU : T = U := by omega
  subst hTU
  exact ⟨rfl, by linarith⟩

theorem specIndex_inj (s : IRM_Mini) (x y u v : Int)
    (hmw : 1 ≤ s.matrixWidth) (hmh : 1 ≤ s.matrixHeight)
    (hx0 : 0 ≤ x) (hx : x < s.matrixWidth * max s.tilesX 1)
    (hy0 : 0 ≤ y) (hy : y < s.matrixHeight * max s.tilesY 1)
    (hu0 : 0 ≤ u) (hu : u < s.matrixWidth * max s.tilesX 1)
    (hv0 : 0 ≤ v) (hv : v < s.matrixHeight * max s.tilesY 1)
    (h : specIndex s x y = specIndex s u v) : x = u ∧ y = v := by
  have wpos : 0 < s.matrixWidth := by omega
  have hpos : 0 < s.matrixHeight := by omega
  obtain ⟨q0, q1⟩ := ediv_range hx0 wpos hx
  obtain ⟨p0, p1⟩ := ediv_range hy0 hpos hy
  obtain ⟨a0, a1⟩ := ediv_range hu0 wpos hu
  obtain ⟨b0, b1⟩ := ediv_range hv0 hpos hv
  have mx0 := Int.emod_nonneg x wpos.ne.symm
  have mx1 := Int.emod_lt_of_pos x wpos
  have my0 := Int.emod_nonneg y hpos.ne.symm
  have my1 := Int.emod_lt_of_pos y hpos
  have mu0 := Int.emod_nonneg u wpos.ne.symm
  have mu1 := Int.emod_lt_of_pos u wpos
  have mv0 := Int.emod_nonneg v hpos.ne.symm
  have mv1 := Int.emod_lt_of_pos v hpos
  unfold specIndex at h
  have hP := specLevelIndex_range (decide (s.type &&& NEO_MATRIX_RIGHT ≠ 0))
    (decide (s.type &&& NEO_MATRIX_BOTTOM ≠ 0))
    (decide (s.type &&& NEO_MATRIX_AXIS ≠ NEO_MATRIX_ROWS))
    (decide (s.type &&& NEO_MATRIX_SEQUENCE ≠ NEO_MATRIX_PROGRESSIVE))
    s.matrixWidth s.matrixHeight (x % s.matrixWidth) (y % s.matrixHeight) mx0 mx1 my0 my1
  have hQ := specLevelIndex_range (decide (s.type &&& NEO_MATRIX_RIGHT ≠ 0))
    (decide (s.type &&& NEO_MATRIX_BOTTOM ≠ 0))
    (decide (s.type &&& NEO_MATRIX_AXIS ≠ NEO_MATRIX_ROWS))
    (decide (s.type &&& NEO_MATRIX_SEQUENCE ≠ NEO_MATRIX_PROGRESSIVE))
    s.matrixWidth s.matrixHeight (u % s.matrixWidth) (v % s.matrixHeight) mu0 mu1 mv0 mv1
  obtain ⟨hT, hL⟩ := mul_add_unique hP.1 hP.2 hQ.1 hQ.2 h
  obtain ⟨t1, t2⟩ := specLevelIndex_inj _ _ _ _ _ _ _ _ _ _ q0 q1 p0 p1 a0 a1 b0 b1 hT
  obtain ⟨l1, l2⟩ := specLevelIndex_inj _ _ _ _ _ _ _ _ _ _ mx0 mx1 my0 my1 mu0 mu1 mv0 mv1 hL
  have ex := Int.emod_add_ediv x s.matrixWidth
  have eu := Int.emod_add_ediv u s.matrixWidth
  have ey := Int.emod_add_ediv y s.matrixHeight
  have ev := Int.emod_add_ediv v s.matrixHeight
  rw [t1, l1] at ex
  rw [t2, l2] at ey
  exact ⟨by linarith, by linarith⟩

theorem specRotate_inj (W H : Int) (r : Nat) (x y u v : Int)
    (h : specRotate W H r x y = specRotate W H r u v) : x = u ∧ y = v := by
  unfold specRotate at h
  split_ifs at h <;> simp only [Prod.mk.injEq] at h <;> omega

theorem canvas_pos_of_fit (s : IRM_Mini) (hc : Untiled s ∨ Tiled s)
    (hw : s.matrixWidth * max s.tilesX 1 ≤ 32767)
    (hh : s.matrixHeight * max s.tilesY 1 ≤ 32767) :
    s.WIDTH = s.matrixWidth * max s.tilesX 1 ∧ s.HEIGHT = s.matrixHeight * max s.tilesY 1 ∧
    0 < s.WIDTH ∧ 0 < s.HEIGHT := by
  rcases hc with ⟨u0, u1, u2, u3, u4, u5⟩ | ⟨t0, t1, t2, t3, t4, t5⟩
  · have m1 : max s.tilesX 1 = 1 := by omega
    have m2 : max s.tilesY 1 = 1 := by omega
    simp only [m1, m2, mul_one] at hw hh ⊢
    rw [u4, u5, i16_of_range (by omega) hw, i16_of_range (by omega) hh]
    omega
  · have m1 : max s.tilesX 1 = s.tilesX := by omega
    have m2 : max s.tilesY 1 = s.tilesY := by omega
    simp only [m1, m2] at hw hh ⊢
    have p1 : 1 ≤ s.matrixWidth * s.tilesX := by nlinarith
    have p2 : 1 ≤ s.matrixHeight * s.tilesY := by nlinarith
    rw [t4, t5, i16_of_range (by omega) hw, i16_of_range (by omega) hh]
    omega

theorem drawPixel_index_inj (s : IRM_Mini) (x y u v : Int) (hc : Untiled s ∨ Tiled s)
    (hr : Rotated s) (hf : totalPixels s < 65536) (hn : s.remapFn = none)
    (hb : InBounds s x y) (hd : InBounds s u v)
    (h : drawPixel_index s x y = drawPixel_index s u v) : x = u ∧ y = v := by
  obtain ⟨cw, ch, mw, mh, lw, lh⟩ := canvas_sides s x y hc hr hf hb
  obtain ⟨_, r1, r2, r3, r4⟩ := drawPixel_rotate_exact s x y hr (by omega) (by omega) hb
  obtain ⟨_, k1, k2, k3, k4⟩ := drawPixel_rotate_exact s u v hr (by omega) (by omega) hd
  rw [(drawPixel_index_exact s x y hc hr hf hn hb).1,
    (drawPixel_index_exact s u v hc hr hf hn hd).1] at h
  have e := specIndex_inj s _ _ _ _ mw mh r1 (lt_of_lt_of_eq r2 cw) r3 (lt_of_lt_of_eq r4 ch)
    k1 (lt_of_lt_of_eq k2 cw) k3 (lt_of_lt_of_eq k4 ch) h
  exact specRotate_inj s.WIDTH s.HEIGHT s.rotation x y u v (Prod.ext e.1 e.2)

theorem drawPixel_index_surj (s : IRM_Mini) (n : Int) (hc : Untiled s ∨ Tiled s)
    (hr : Rotated s) (hf : totalPixels s < 65536) (hn : s.remapFn = none)
    (hw : s.matrixWidth * max s.tilesX 1 ≤ 32767)
    (hh : s.matrixHeight * max s.tilesY 1 ≤ 32767)
    (n0 : 0 ≤ n) (n1 : n < totalPixels s) :
    ∃ x y, InBounds s x y ∧ drawPixel_index s x y = n := by
  obtain ⟨cw, ch, wp, hp⟩ := canvas_pos_of_fit s hc hw hh
  have harea : s._width * s._height = totalPixels s := by
    obtain ⟨_, hr1, hr2⟩ := hr
    rw [hr1, hr2]
    unfold totalPixels
    split <;> rw [cw, ch] <;> ring
  have hwp : 0 < s._width ∧ 0 < s._height := by
    obtain ⟨_, hr1, hr2⟩ := hr
    rw [hr1, hr2]
    split <;> exact ⟨by omega, by omega⟩
  have hmem : ∀ a : Int × Int, a ∈ Finset.Ico (0 : Int) s._width ×ˢ Finset.Ico (0 : Int) s._height →
      InBounds s a.1 a.2 := by
    intro a ha
    simp only [Finset.mem_product, Finset.mem_Ico] at ha
    exact ⟨ha.1.1, ha.2.1, ha.1.2, ha.2.2⟩
  have key := Finset.surj_on_of_inj_on_of_card_le
    (s := Finset.Ico (0 : Int) s._width ×ˢ Finset.Ico (0 : Int) s._height)
    (t := Finset.Ico (0 : Int) (totalPixels s))
    (fun a _ => drawPixel_index s a.1 a.2)
    (by
      intro a ha
      obtain ⟨_, i0, i1⟩ := drawPixel_index_exact s a.1 a.2 hc hr hf hn (hmem a ha)
      exact Finset.mem_Ico.mpr ⟨i0, i1⟩)
    (by
      intro a b ha hb h
      obtain ⟨e1, e2⟩ := drawPixel_index_inj s a.1 a.2 b.1 b.2 hc hr hf hn (hmem a ha) (hmem b hb) h
      exact Prod.ext e1 e2)
    (by
      rw [Finset.card_product, Int.card_Ico, Int.card_Ico, Int.card_Ico]
      simp only [sub_zero]
      rw [← harea]
      have : ((s._width * s._height).toNat : Int) = ((s._width.toNat * s._height.toNat : Nat) : Int) := by
        push_cast
        rw [Int.toNat_of_nonneg (by nlinarith), Int.toNat_of_nonneg hwp.1.le,
          Int.toNat_of_nonneg hwp.2.le]
      exact le_of_eq (by exact_mod_cast this))
    n (Finset.mem_Ico.mpr ⟨n0, n1⟩)
  obtain ⟨a, ha, e⟩ := key
  exact ⟨a.1, a.2, hmem a ha, e.symm⟩

/-- C2, as amended. For every topology byte, every rotation in {0,1,2,3} and every
untiled or tiled configuration with positive sides, whose canvas sides fit `int16_t`
and whose total pixel count fits in 16 bits, without a remap callback: the map from
in-bounds `(x, y)` to the index written by `drawPixel` is a bijection onto
`[0, matrixWidth*matrixHeight*max(tilesX,1)*max(tilesY,1))`: two in-bounds
coordinates written to the same index are equal, and every index of the range is
written by some in-bounds coordinate. -/
theorem drawPixel_index_bijective (g : GammaTables) (s : IRM_Mini)
    (hc : Untiled s ∨ Tiled s) (hr : Rotated s) (hf : totalPixels s < 65536)
    (hn : s.remapFn = none)
    (hw : s.matrixWidth * max s.tilesX 1 ≤ 32767)
    (hh : s.matrixHeight * max s.tilesY 1 ≤ 32767) :
    (∀ (x y u v : Int) (c d : Nat) (n : Int) (a b : Nat),
      InBounds s x y → InBounds s u v →
      (drawPixel g s x y c).strip = s.strip ++ [(n, a)] →
      (drawPixel g s u v d).strip = s.strip ++ [(n, b)] → x = u ∧ y = v) ∧
    (∀ n : Int, 0 ≤ n → n < totalPixels s →
      ∃ x y : Int, InBounds s x y ∧ ∀ c : Nat,
        (drawPixel g s x y c).strip =
          s.strip ++ [(n, if s.passThruFlag then s.passThruColor else expandColor g c)]) := by
  constructor
  · intro x y u v c d n a b hb hd h1 h2
    rw [drawPixel_eq_of_inBounds g s x y c hb] at h1
    rw [drawPixel_eq_of_inBounds g s u v d hd] at h2
    simp only [setPixelColor, List.append_cancel_left_eq, List.cons.injEq, Prod.mk.injEq,
      and_true] at h1 h2
    exact drawPixel_index_inj s x y u v hc hr hf hn hb hd (h1.1.trans h2.1.symm)
  · intro n n0 n1
    obtain ⟨x, y, hb, e⟩ := drawPixel_index_surj s n hc hr hf hn hw hh n0 n1
    refine ⟨x, y, hb, fun c => ?_⟩
    rw [drawPixel_eq_of_inBounds g s x y c hb, e]
    rfl

/-- Witness of C2: 4 by 4 tiles of 2 by 2 pixels, every index 0..63 is written from
exactly one in-bounds coordinate. -/
theorem drawPixel_index_bijective_witness :
    (Untiled (tiled 2 2 4 4 0x5a) ∨ Tiled (tiled 2 2 4 4 0x5a)) ∧
    totalPixels (tiled 2 2 4 4 0x5a) = 64 ∧
    (∀ (x y u v : Int) (c d : Nat) (n : Int) (a b : Nat),
      InBounds (tiled 2 2 4 4 0x5a) x y → InBounds (tiled 2 2 4 4 0x5a) u v →
      (drawPixel ⟨id, id⟩ (tiled 2 2 4 4 0x5a) x y c).strip = [] ++ [(n, a)] →
      (drawPixel ⟨id, id⟩ (tiled 2 2 4 4 0x5a) u v d).strip = [] ++ [(n, b)] →
      x = u ∧ y = v) ∧
    (∀ n : Int, 0 ≤ n → n < 64 →
      ∃ x y : Int, InBounds (tiled 2 2 4 4 0x5a) x y ∧ ∀ c : Nat,
        (drawPixel ⟨id, id⟩ (tiled 2 2 4 4 0x5a) x y c).strip =
          [] ++ [(n, if false then 0 else expandColor ⟨id, id⟩ c)]) :=
  have h := drawPixel_index_bijective ⟨id, id⟩ (tiled 2 2 4 4 0x5a)
    (by decide) (by decide) (by decide) rfl (by decide) (by decide)
  ⟨by decide, by decide, h.1, h.2⟩

/-- Counterexample to C2 as stated: 2 by 1 tiles of 255 by 255 pixels have positive
sides and no callback, yet the in-bounds coordinates (0, 0) and (256, 2) are both
written to index 0, because the index is reduced to 16 bits. -/
theorem drawPixel_index_collision :
    Tiled (tiled 255 255 2 1 0) ∧ Rotated (tiled 255 255 2 1 0) ∧
    InBounds (tiled 255 255 2 1 0) 0 0 ∧ InBounds (tiled 255 255 2 1 0) 256 2 ∧
    (drawPixel ⟨id, id⟩ (tiled 255 255 2 1 0) 0 0 0).strip = [(0, 0)] ∧
    (drawPixel ⟨id, id⟩ (tiled 255 255 2 1 0) 256 2 0).strip = [(0, 0)] := by
  decide

/-! ## Particular topologies -/

/-- Without rotation, an untiled matrix is wired by the pixel-level flags alone. -/
theorem drawPixel_index_untiled (s : IRM_Mini) (x y : Int) (hu : Untiled s) (hr : Rotated s)
    (h0 : s.rotation = 0) (hf : totalPixels s < 65536) (hn : s.remapFn = none)
    (hb : InBounds s x y) :
    drawPixel_index s x y =
      specLevelIndex (decide (s.type &&& NEO_MATRIX_RIGHT ≠ 0))
        (decide (s.type &&& NEO_MATRIX_BOTTOM ≠ 0))
        (decide (s.type &&& NEO_MATRIX_AXIS ≠ NEO_MATRIX_ROWS))
        (decide (s.type &&& NEO_MATRIX_SEQUENCE ≠ NEO_MATRIX_PROGRESSIVE))
        s.matrixWidth s.matrixHeight x y := by
  obtain ⟨cw, ch, mw, mh, lw, lh⟩ := canvas_sides s x y (Or.inl hu) hr hf hb
  obtain ⟨e, _, _⟩ := drawPixel_index_exact s x y (Or.inl hu) hr hf hn hb
  obtain ⟨_, hr1, hr2⟩ := hr
  obtain ⟨b0, b1, b2, b3⟩ := hb
  obtain ⟨u0, u1, _, _, _, _⟩ := hu
  rw [hr1, h0] at b2; rw [hr2, h0] at b3
  simp only [Nat.zero_mod, zero_ne_one, if_false] at b2 b3
  have m1 : max s.tilesX 1 = 1 := by omega
  have m2 : max s.tilesY 1 = 1 := by omega
  rw [m1, mul_one] at cw; rw [m2, mul_one] at ch
  rw [cw] at b2; rw [ch] at b3
  rw [e, h0]
  simp only [specRotate, zero_ne_one, if_false, OfNat.zero_ne_ofNat]
  unfold specIndex
  rw [m1, m2, Int.ediv_eq_zero_of_lt b0 b2, Int.ediv_eq_zero_of_lt b1 b3,
    Int.emod_eq_of_lt b0 b2, Int.emod_eq_of_lt b1 b3, specLevelIndex_single]
  simp

/-- C3, as amended. For every untiled W by H matrix whose pixel count fits in 16 bits,
with the identity topology (pixel-level corner top-left, row-major, progressive),
rotation 0 and no remap callback, `drawPixel` writes in-bounds `(x, y)` to the index
`y*W + x` exactly. -/
theorem drawPixel_identity_index (g : GammaTables) (s : IRM_Mini) (x y : Int) (color : Nat)
    (hu : Untiled s) (hr : Rotated s) (h0 : s.rotation = 0) (hf : totalPixels s < 65536)
    (hn : s.remapFn = none)
    (f1 : s.type &&& NEO_MATRIX_RIGHT = 0) (f2 : s.type &&& NEO_MATRIX_BOTTOM = 0)
    (f3 : s.type &&& NEO_MATRIX_AXIS = NEO_MATRIX_ROWS)
    (f4 : s.type &&& NEO_MATRIX_SEQUENCE = NEO_MATRIX_PROGRESSIVE)
    (hb : InBounds s x y) :
    (drawPixel g s x y color).strip =
      s.strip ++ [(y * s.matrixWidth + x,
        if s.passThruFlag then s.passThruColor else expandColor g color)] := by
  rw [drawPixel_eq_of_inBounds g s x y color hb,
    drawPixel_index_untiled s x y hu hr h0 hf hn hb]
  simp [setPixelColor, specLevelIndex, specSequence, f1, f2, f3, f4]

/-- Witness of C3: on the 8 by 8 matrix with all flags zero, pixel (3, 5) goes to
index 5*8 + 3. -/
theorem drawPixel_identity_index_witness :
    (drawPixel ⟨id, id⟩ (single 8 8 0) 3 5 0).strip =
      [] ++ [(5 * 8 + 3, if false then 0 else expandColor ⟨id, id⟩ 0)] :=
  drawPixel_identity_index ⟨id, id⟩ (single 8 8 0) 3 5 0 (by decide) (by decide) rfl (by decide)
    rfl (by decide) (by decide) (by decide) (by decide) (by decide)

/-- Counterexample to C3 as stated: on the untiled 256 by 257 matrix with all flags
zero the in-bounds pixel (0, 256) is written to index 0, not to 256*256 + 0. -/
theorem drawPixel_identity_index_oversize :
    Untiled (single 256 257 0) ∧ InBounds (single 256 257 0) 0 256 ∧
    (drawPixel ⟨id, id⟩ (single 256 257 0) 0 256 0).strip = [(0, 0)] ∧
    (0 : Int) ≠ 256 * 256 + 0 := by
  decide

/-- C4, as amended. For every untiled W by H matrix whose pixel count fits in 16 bits,
with pixel-level corner top-left, row-major, serpentine topology, rotation 0 and no
remap callback, `drawPixel` writes in-bounds `(x, y)` to `y*W + x` when `y` is even
and to `(y+1)*W - 1 - x` when `y` is odd. -/
theorem drawPixel_serpentine_index (g : GammaTables) (s : IRM_Mini) (x y : Int) (color : Nat)
    (hu : Untiled s) (hr : Rotated s) (h0 : s.rotation = 0) (hf : totalPixels s < 65536)
    (hn : s.remapFn = none)
    (f1 : s.type &&& NEO_MATRIX_RIGHT = 0) (f2 : s.type &&& NEO_MATRIX_BOTTOM = 0)
    (f3 : s.type &&& NEO_MATRIX_AXIS = NEO_MATRIX_ROWS)
    (f4 : s.type &&& NEO_MATRIX_SEQUENCE = NEO_MATRIX_ZIGZAG)
    (hb : InBounds s x y) :
    (drawPixel g s x y color).strip =
      s.strip ++ [(if y % 2 = 0 then y * s.matrixWidth + x else (y + 1) * s.matrixWidth - 1 - x,
        if s.passThruFlag then s.passThruColor else expandColor g color)] := by
  rw [drawPixel_eq_of_inBounds g s x y color hb,
    drawPixel_index_untiled s x y hu hr h0 hf hn hb]
  have f5 : NEO_MATRIX_ZIGZAG ≠ NEO_MATRIX_PROGRESSIVE := by decide
  by_cases hy : y % 2 = 0 <;>
    simp [setPixelColor, specLevelIndex, specSequence, f1, f2, f3, f4, f5, hy]

/-- Witness of C4: on the 8 by 8 serpentine matrix, pixel (0, 1) goes to index 15 and
pixel (7, 0) goes to index 7. -/
theorem drawPixel_serpentine_index_witness :
    (drawPixel ⟨id, id⟩ (single 8 8 NEO_MATRIX_ZIGZAG) 0 1 0).strip = [(15, 0)] ∧
    (drawPixel ⟨id, id⟩ (single 8 8 NEO_MATRIX_ZIGZAG) 7 0 0).strip = [(7, 0)] :=
  ⟨drawPixel_serpentine_index ⟨id, id⟩ (single 8 8 NEO_MATRIX_ZIGZAG) 0 1 0 (by decide)
      (by decide) rfl (by decide) rfl (by decide) (by decide) (by decide) (by decide)
      (by decide),
   drawPixel_serpentine_index ⟨id, id⟩ (single 8 8 NEO_MATRIX_ZIGZAG) 7 0 0 (by decide)
      (by decide) rfl (by decide) rfl (by decide) (by decide) (by decide) (by decide)
      (by decide)⟩

/-- Counterexample to C4 as stated: on the untiled 256 by 512 serpentine matrix the
in-bounds pixel (0, 511), on an odd row, is written to index 65535, not to
`(511+1)*256 - 1 - 0 = 131071`. -/
theorem drawPixel_serpentine_index_oversize :
    Untiled (single 256 512 NEO_MATRIX_ZIGZAG) ∧
    InBounds (single 256 512 NEO_MATRIX_ZIGZAG) 0 511 ∧
    (drawPixel ⟨id, id⟩ (single 256 512 NEO_MATRIX_ZIGZAG) 0 511 0).strip = [(65535, 0)] ∧
    (65535 : Int) ≠ (511 + 1) * 256 - 1 - 0 := by
  decide

theorem area_lt_of_total {a b c d : Int} (ha : 1 ≤ a) (hb : 1 ≤ b) (hc : 1 ≤ c) (hd : 1 ≤ d)
    (h : a * b * c * d < 65536) : a * b < 65536 := by
  have h1 : 1 ≤ c * d := by nlinarith
  have h2 : 0 ≤ a * b := by nlinarith
  have h3 : a * b * 1 ≤ a * b * (c * d) := mul_le_mul_of_nonneg_left h1 h2
  have h4 : a * b * (c * d) = a * b * c * d := by ring
  linarith

/-- C5, as amended. For every tiled array whose total pixel count fits in 16 bits, with
tile-level corner top-left, tile-level row-major axis and tile-level serpentine
sequence (any pixel-level flags), rotation 0 and no remap callback: for every
in-bounds `(x, y)` with tile column `c = x / matrixWidth` and odd tile row
`r = y / matrixHeight`, `drawPixel` writes to the index
`((r+1)*tilesX - 1 - c)*matrixWidth*matrixHeight + p`, where `p` is the index that the
same topology byte assigns to the local coordinate `(x - c*matrixWidth,
y - r*matrixHeight)` in a single untiled `matrixWidth` by `matrixHeight` matrix: the
pixel-level corner is not flipped on odd tile rows. -/
theorem drawPixel_tile_serpentine_noflip (g : GammaTables) (s : IRM_Mini) (x y : Int)
    (color : Nat) (ht : Tiled s) (hr : Rotated s) (h0 : s.rotation = 0)
    (hf : totalPixels s < 65536) (hn : s.remapFn = none)
    (f1 : s.type &&& NEO_TILE_RIGHT = 0) (f2 : s.type &&& NEO_TILE_BOTTOM = 0)
    (f3 : s.type &&& NEO_TILE_AXIS = NEO_TILE_ROWS)
    (f4 : s.type &&& NEO_TILE_SEQUENCE = NEO_TILE_ZIGZAG)
    (hb : InBounds s x y) (hodd : (y / s.matrixHeight) % 2 = 1) :
    (drawPixel g s x y color).strip =
      s.strip ++ [(((y / s.matrixHeight + 1) * s.tilesX - 1 - x / s.matrixWidth)
            * s.matrixWidth * s.matrixHeight
          + drawPixel_index (single s.matrixWidth s.matrixHeight s.type)
              (x - x / s.matrixWidth * s.matrixWidth) (y - y / s.matrixHeight * s.matrixHeight),
        if s.passThruFlag then s.passThruColor else expandColor g color)] := by
  obtain ⟨cw, ch, mw, mh, lw, lh⟩ := canvas_sides s x y (Or.inr ht) hr hf hb
  obtain ⟨e, _, _⟩ := drawPixel_index_exact s x y (Or.inr ht) hr hf hn hb
  have wpos : 0 < s.matrixWidth := by omega
  have hpos : 0 < s.matrixHeight := by omega
  have mx0 := Int.emod_nonneg x wpos.ne.symm
  have mx1 := Int.emod_lt_of_pos x wpos
  have my0 := Int.emod_nonneg y hpos.ne.symm
  have my1 := Int.emod_lt_of_pos y hpos
  have m1 : max s.tilesX 1 = s.tilesX := by have := ht.1; omega
  have m2 : max s.tilesY 1 = s.tilesY := by have := ht.2.1; omega
  have hw2 : s.matrixWidth ≤ 32767 := by
    have := ht.1; rw [m1] at lw; nlinarith
  have hh2 : s.matrixHeight ≤ 32767 := by
    have := ht.2.1; rw [m2] at lh; nlinarith
  have hA : s.matrixWidth * s.matrixHeight < 65536 := by
    unfold totalPixels at hf
    rw [m1, m2] at hf
    exact area_lt_of_total mw mh ht.1 ht.2.1 hf
  have hlocal := drawPixel_index_untiled (single s.matrixWidth s.matrixHeight s.type)
    (x % s.matrixWidth) (y % s.matrixHeight)
    ⟨rfl, rfl, mw, mh, rfl, rfl⟩ ⟨Nat.zero_lt_succ 3, rfl, rfl⟩ rfl
    (by simpa [totalPixels, single] using hA) rfl
    ⟨mx0, my0, by
      show x % s.matrixWidth < i16 s.matrixWidth
      rw [i16_of_range (by omega) hw2]; exact mx1, by
      show y % s.matrixHeight < i16 s.matrixHeight
      rw [i16_of_range (by omega) hh2]; exact my1⟩
  rw [drawPixel_eq_of_inBounds g s x y color hb, e, h0, sub_ediv_mul, sub_ediv_mul, hlocal]
  have f5 : NEO_TILE_ZIGZAG ≠ NEO_TILE_PROGRESSIVE := by decide
  have hodd2 : ¬ (y / s.matrixHeight) % 2 = 0 := by omega
  simp only [specRotate, specIndex, setPixelColor, specLevelIndex, specSequence, single, m1, m2,
    f1, f2, f3, f4, f5, hodd2]
  simp [f5, hodd]
  ring

/-- Witness of C5: 2 by 2 tiles of 4 by 4 pixels, tile-level serpentine, all other
flags zero: canvas pixel (0, 4), local pixel (0, 0) of the tile in column 0 of tile
row 1, goes to tile 3 and index 48. -/
theorem drawPixel_tile_serpentine_noflip_witness :
    (drawPixel ⟨id, id⟩ (tiled 4 4 2 2 NEO_TILE_ZIGZAG) 0 4 0).strip = [(3 * 4 * 4 + 0, 0)] ∧
    drawPixel_index (single 4 4 NEO_TILE_ZIGZAG) 0 0 = 0 :=
  ⟨drawPixel_tile_serpentine_noflip ⟨id, id⟩ (tiled 4 4 2 2 NEO_TILE_ZIGZAG) 0 4 0 (by decide)
      (by decide) rfl (by decide) rfl (by decide) (by decide) (by decide) (by decide)
      (by decide) (by decide),
   by decide⟩

/-- Counterexample to C5 as stated: in 2 by 2 tiles of 255 by 255 pixels with tile-level
serpentine, the in-bounds pixel (0, 255), local pixel (0, 0) of tile column 0 in the
odd tile row 1, is written to index 64003, not to `((1+1)*2 - 1 - 0)*255*255 + 0`. -/
theorem drawPixel_tile_serpentine_oversize :
    Tiled (tiled 255 255 2 2 NEO_TILE_ZIGZAG) ∧
    InBounds (tiled 255 255 2 2 NEO_TILE_ZIGZAG) 0 255 ∧
    (drawPixel ⟨id, id⟩ (tiled 255 255 2 2 NEO_TILE_ZIGZAG) 0 255 0).strip = [(64003, 0)] ∧
    drawPixel_index (single 255 255 NEO_TILE_ZIGZAG) 0 0 = 0 ∧
    (64003 : Int) ≠ ((1 + 1) * 2 - 1 - 0) * 255 * 255 + 0 := by
  decide

/-! ## The bounds check -/

/-- C6. For every state (any topology, tiling, rotation, callback present or absent,
passthrough on or off) and every colour, `drawPixel (x, y, colour)` makes no
`setPixelColor` call when `x < 0`, `y < 0`, `x >= _width` or `y >= _height`, and makes
exactly one call otherwise; in particular `drawPixel (-1, 0, c)` and
`drawPixel (_width, 0, c)` make no call. -/
theorem drawPixel_calls (g : GammaTables) (s : IRM_Mini) (x y : Int) (color : Nat) :
    (drawPixel g s x y color).strip =
      (if x < 0 ∨ y < 0 ∨ x ≥ s._width ∨ y ≥ s._height then s.strip
       else s.strip ++ [(drawPixel_index s x y,
          if s.passThruFlag then s.passThruColor else expandColor g color)]) ∧
    (drawPixel g s x y color).strip.length =
      s.strip.length + (if x < 0 ∨ y < 0 ∨ x ≥ s._width ∨ y ≥ s._height then 0 else 1) ∧
    (drawPixel g s (-1) 0 color).strip = s.strip ∧
    (drawPixel g s s._width 0 color).strip = s.strip := by
  refine ⟨?_, ?_, ?_, ?_⟩
  · unfold drawPixel
    split <;> rfl
  · unfold drawPixel
    split <;> simp [setPixelColor]
  · unfold drawPixel
    rw [if_pos (by omega)]
  · unfold drawPixel
    rw [if_pos (by omega)]

/-- C7, as amended. For every rotation in {0,1,2,3}, the bounds check of `drawPixel`
uses the sides of the rotated canvas: the write is dropped exactly when `x < 0`,
`y < 0`, `x >= _width` or `y >= _height`, where `(_width, _height)` is
`(WIDTH, HEIGHT)` under rotations 0 and 2 and `(HEIGHT, WIDTH)` under rotations 1 and
3; a dropped write leaves the whole state as it was, so the check comes before any
rotation or tiling arithmetic. -/
theorem drawPixel_dropped_iff (g : GammaTables) (s : IRM_Mini) (x y : Int) (color : Nat)
    (hr : Rotated s) :
    ((drawPixel g s x y color).strip = s.strip ↔
      (x < 0 ∨ y < 0 ∨
        x ≥ (if s.rotation = 1 ∨ s.rotation = 3 then s.HEIGHT else s.WIDTH) ∨
        y ≥ (if s.rotation = 1 ∨ s.rotation = 3 then s.WIDTH else s.HEIGHT))) ∧
    ((drawPixel g s x y color).strip = s.strip → drawPixel g s x y color = s) := by
  obtain ⟨hr0, hr1, hr2⟩ := hr
  have e1 : (if s.rotation = 1 ∨ s.rotation = 3 then s.HEIGHT else s.WIDTH) = s._width := by
    rw [hr1]; split <;> split <;> first | rfl | omega
  have e2 : (if s.rotation = 1 ∨ s.rotation = 3 then s.WIDTH else s.HEIGHT) = s._height := by
    rw [hr2]; split <;> split <;> first | rfl | omega
  rw [e1, e2]
  by_cases hb : InBounds s x y
  · have hnot : ¬ (x < 0 ∨ y < 0 ∨ x ≥ s._width ∨ y ≥ s._height) := by
      unfold InBounds at hb; omega
    have hne : (drawPixel g s x y color).strip ≠ s.strip := by
      rw [drawPixel_eq_of_inBounds g s x y color hb]
      simp [setPixelColor]
    exact ⟨⟨fun h => absurd h hne, fun h => absurd h hnot⟩, fun h => absurd h hne⟩
  · have hout : x < 0 ∨ y < 0 ∨ x ≥ s._width ∨ y ≥ s._height := by
      unfold InBounds at hb; omega
    rw [drawPixel_eq_of_not_inBounds g s x y color hb]
    exact ⟨⟨fun _ => hout, fun _ => rfl⟩, fun _ => rfl⟩

/-- Witness of C7: the 8 by 4 matrix rotated by one quadrant drops (5, 0), which is
outside the rotated 4 by 8 canvas. -/
theorem drawPixel_dropped_iff_witness :
    Rotated ((single 8 4 0).setRotation 1) ∧
    ((drawPixel ⟨id, id⟩ ((single 8 4 0).setRotation 1) 5 0 0).strip =
        ((single 8 4 0).setRotation 1).strip ↔
      ((5 : Int) < 0 ∨ (0 : Int) < 0 ∨
        (5 : Int) ≥ (if ((single 8 4 0).setRotation 1).rotation = 1 ∨
            ((single 8 4 0).setRotation 1).rotation = 3
          then ((single 8 4 0).setRotation 1).HEIGHT else ((single 8 4 0).setRotation 1).WIDTH) ∨
        (0 : Int) ≥ (if ((single 8 4 0).setRotation 1).rotation = 1 ∨
            ((single 8 4 0).setRotation 1).rotation = 3
          then ((single 8 4 0).setRotation 1).WIDTH else ((single 8 4 0).setRotation 1).HEIGHT))) :=
  ⟨by decide, (drawPixel_dropped_iff ⟨id, id⟩ ((single 8 4 0).setRotation 1) 5 0 0 (by decide)).1⟩

/-- Counterexample to C7 as stated: on the 8 by 4 matrix rotated by one quadrant, the
write at (5, 0) is dropped although `0 <= 5 < WIDTH` and `0 <= 0 < HEIGHT`, and the
write at (0, 5) is made although `5 >= HEIGHT`. -/
theorem drawPixel_bounds_not_unrotated :
    ((single 8 4 0).setRotation 1).WIDTH = 8 ∧ ((single 8 4 0).setRotation 1).HEIGHT = 4 ∧
    (drawPixel ⟨id, id⟩ ((single 8 4 0).setRotation 1) 5 0 0).strip = [] ∧
    (drawPixel ⟨id, id⟩ ((single 8 4 0).setRotation 1) 0 5 0).strip = [(2, 0)] := by
  decide

/-! ## Rotation, callback and passthrough -/

theorem drawPixel_index_setRotation_zero (s : IRM_Mini) (x y : Int) :
    drawPixel_index (s.setRotation 0) x y =
      u16 ((drawPixel_offsets s x y).1 + (drawPixel_offsets s x y).2) := rfl

/-- C8. For every state whose rotation fields are consistent (`WIDTH` and `HEIGHT`
being `int16_t` values) and every in-bounds `(x, y)`, the write `drawPixel` makes under
rotation `r` is the write the same configuration makes under rotation 0 for the
pre-transformed coordinate `R_r(x, y)`, which is in bounds there; `R_0` is the
identity, `R_1(x,y) = (WIDTH-1-y, x)`, `R_2(x,y) = (WIDTH-1-x, HEIGHT-1-y)`,
`R_3(x,y) = (y, HEIGHT-1-x)`. -/
theorem drawPixel_rotation_pretransform (g : GammaTables) (s : IRM_Mini) (x y : Int)
    (color : Nat) (hr : Rotated s) (hw : s.WIDTH ≤ 32767) (hh : s.HEIGHT ≤ 32767)
    (hb : InBounds s x y) :
    InBounds (s.setRotation 0) (specRotate s.WIDTH s.HEIGHT s.rotation x y).1
      (specRotate s.WIDTH s.HEIGHT s.rotation x y).2 ∧
    (drawPixel g s x y color).strip =
      (drawPixel g (s.setRotation 0) (specRotate s.WIDTH s.HEIGHT s.rotation x y).1
        (specRotate s.WIDTH s.HEIGHT s.rotation x y).2 color).strip ∧
    specRotate s.WIDTH s.HEIGHT 0 x y = (x, y) ∧
    specRotate s.WIDTH s.HEIGHT 1 x y = (s.WIDTH - 1 - y, x) ∧
    specRotate s.WIDTH s.HEIGHT 2 x y = (s.WIDTH - 1 - x, s.HEIGHT - 1 - y) ∧
    specRotate s.WIDTH s.HEIGHT 3 x y = (y, s.HEIGHT - 1 - x) := by
  obtain ⟨r0, r1, r2, r3, r4⟩ := drawPixel_rotate_exact s x y hr hw hh hb
  have hb0 : InBounds (s.setRotation 0) (specRotate s.WIDTH s.HEIGHT s.rotation x y).1
      (specRotate s.WIDTH s.HEIGHT s.rotation x y).2 := ⟨r1, r3, r2, r4⟩
  refine ⟨hb0, ?_, rfl, rfl, rfl, rfl⟩
  rw [drawPixel_eq_of_inBounds g s x y color hb, drawPixel_eq_of_inBounds g _ _ _ color hb0,
    drawPixel_index_setRotation_zero]
  unfold drawPixel_index
  rw [r0]
  rfl

/-- Witness of C8: 2 by 2 tiles of 4 by 2 pixels rotated by three quadrants, pixel
(1, 6). -/
theorem drawPixel_rotation_pretransform_witness :
    InBounds ((tiled 4 2 2 2 0x9c).setRotation 3) 1 6 ∧
    (drawPixel ⟨id, id⟩ ((tiled 4 2 2 2 0x9c).setRotation 3) 1 6 0).strip =
      (drawPixel ⟨id, id⟩ (((tiled 4 2 2 2 0x9c).setRotation 3).setRotation 0) 6 (4 - 1 - 1) 0).strip :=
  ⟨by decide,
    (drawPixel_rotation_pretransform ⟨id, id⟩ ((tiled 4 2 2 2 0x9c).setRotation 3) 1 6 0
      (by decide) (by decide) (by decide) (by decide)).2.1⟩

/-- C9. When a remap callback `f` (taking and returning `uint16_t`) is installed with
`setRemapFunction`, for every in-bounds `(x, y)`, every rotation and every topology
byte and tile configuration, `drawPixel` makes its single write at index exactly
`f (x1, y1)`, where `(x1, y1)` is the rotated coordinate: `tileOffset` is 0 and the
index depends on the state only through `WIDTH`, `HEIGHT` and the rotation. -/
theorem drawPixel_remap (g : GammaTables) (s : IRM_Mini) (f : Int → Int → Int) (x y : Int)
    (color : Nat) (hr : Rotated s) (hw : s.WIDTH ≤ 32767) (hh : s.HEIGHT ≤ 32767)
    (hf : ∀ a b, 0 ≤ f a b ∧ f a b < 65536) (hb : InBounds s x y) :
    (drawPixel g (s.setRemapFunction f) x y color).strip =
      s.strip ++ [(f (specRotate s.WIDTH s.HEIGHT s.rotation x y).1
          (specRotate s.WIDTH s.HEIGHT s.rotation x y).2,
        if s.passThruFlag then s.passThruColor else expandColor g color)] ∧
    (drawPixel_offsets (s.setRemapFunction f) (drawPixel_rotate s x y).1
      (drawPixel_rotate s x y).2).1 = 0 := by
  obtain ⟨r0, r1, r2, r3, r4⟩ := drawPixel_rotate_exact s x y hr hw hh hb
  have hb1 : InBounds (s.setRemapFunction f) x y := hb
  have hrot : drawPixel_rotate (s.setRemapFunction f) x y = drawPixel_rotate s x y := rfl
  have hidx : drawPixel_index (s.setRemapFunction f) x y =
      f (specRotate s.WIDTH s.HEIGHT s.rotation x y).1
        (specRotate s.WIDTH s.HEIGHT s.rotation x y).2 := by
    unfold drawPixel_index
    rw [hrot, r0]
    simp only [drawPixel_offsets, setRemapFunction, zero_add]
    rw [u16_of_range r1 (by omega), u16_of_range r3 (by omega),
      u16_of_range (hf _ _).1 (hf _ _).2, u16_of_range (hf _ _).1 (hf _ _).2]
  refine ⟨?_, rfl⟩
  rw [drawPixel_eq_of_inBounds g _ x y color hb1, hidx]
  rfl

/-- Witness of C9: a callback that ignores the topology, on a tiled rotated array. -/
theorem drawPixel_remap_witness :
    (drawPixel ⟨id, id⟩ (((tiled 4 2 2 2 0xff).setRotation 1).setRemapFunction
      (fun a b => (a + 8 * b) % 65536)) 1 6 0).strip = [((1 + 8 * 1) % 65536, 0)] :=
  (drawPixel_remap ⟨id, id⟩ ((tiled 4 2 2 2 0xff).setRotation 1)
    (fun a b => (a + 8 * b) % 65536) 1 6 0 (by decide) (by decide) (by decide)
    (fun a b => ⟨Int.emod_nonneg _ (by decide), Int.emod_lt_of_pos _ (by decide)⟩) (by decide)).1

theorem drawPixel_config (g : GammaTables) (s : IRM_Mini) (x y : Int) (color : Nat) :
    ∃ l, drawPixel g s x y color = { s with strip := l } := by
  unfold drawPixel
  split
  · exact ⟨s.strip, rfl⟩
  · exact ⟨_, rfl⟩

theorem drawPixels_config (g : GammaTables) (ws : List (Int × Int × Nat)) (s : IRM_Mini) :
    ∃ l, drawPixels g s ws = { s with strip := l } := by
  induction ws generalizing s with
  | nil => exact ⟨s.strip, rfl⟩
  | cons w ws ih =>
    obtain ⟨l, hl⟩ := drawPixel_config g s w.1 w.2.1 w.2.2
    obtain ⟨m, hm⟩ := ih (drawPixel g s w.1 w.2.1 w.2.2)
    refine ⟨m, ?_⟩
    show drawPixels g (drawPixel g s w.1 w.2.1 w.2.2) ws = _
    rw [hm, hl]

theorem expandColor_bytes (g : GammaTables) (color : Nat) :
    expandColor g color =
      pgm_read_byte (g.gamma5 (color >>> 11)) * 65536 +
      pgm_read_byte (g.gamma6 ((color >>> 5) &&& 0x3F)) * 256 +
      pgm_read_byte (g.gamma5 (color &&& 0x1F)) := by
  unfold expandColor
  generalize g.gamma5 (color >>> 11) = r
  generalize g.gamma6 ((color >>> 5) &&& 0x3F) = v
  generalize g.gamma5 (color &&& 0x1F) = b
  have hr : pgm_read_byte r < 256 := Nat.mod_lt _ (by decide)
  have hv : pgm_read_byte v < 256 := Nat.mod_lt _ (by decide)
  have hb : pgm_read_byte b < 256 := Nat.mod_lt _ (by decide)
  generalize pgm_read_byte r = r at *
  generalize pgm_read_byte v = v at *
  generalize pgm_read_byte b = b at *
  have e1 : v <<< 8 ||| b = 2 ^ 8 * v + b := by
    rw [Nat.shiftLeft_eq, Nat.mul_comm]
    exact (Nat.mul_add_lt_is_or (by omega) v).symm
  have e2 : r <<< 16 ||| (2 ^ 8 * v + b) = 2 ^ 16 * r + (2 ^ 8 * v + b) := by
    rw [Nat.shiftLeft_eq, Nat.mul_comm]
    exact (Nat.mul_add_lt_is_or (by omega) r).symm
  rw [Nat.lor_assoc, e1, e2]
  omega

/-- C10. After `setPassThruColor (V)` and any number of further `drawPixel` calls, for
every in-bounds `(x, y)` and every colour argument `c`, `drawPixel (x, y, c)` writes
exactly the value `V`, at the index it would use without passthrough; after the
argument-less `setPassThruColor ()`, the next `drawPixel (x, y, c)` writes at the same
index the gamma expansion
`(gamma5[c >> 11] << 16) | (gamma6[(c >> 5) & 0x3F] << 8) | gamma5[c & 0x1F]`, whose
bytes from high to low are the red, green and blue table entries. -/
theorem drawPixel_passThru (g : GammaTables) (s : IRM_Mini) (V : Nat)
    (ws : List (Int × Int × Nat)) (x y : Int) (c : Nat) (hb : InBounds s x y) :
    (drawPixel g (drawPixels g (s.setPassThruColor V) ws) x y c).strip =
      (drawPixels g (s.setPassThruColor V) ws).strip ++ [(drawPixel_index s x y, V)] ∧
    (drawPixel g (drawPixels g (s.setPassThruColor V) ws).setPassThruColor_void x y c).strip =
      (drawPixels g (s.setPassThruColor V) ws).strip ++
        [(drawPixel_index s x y, expandColor g c)] ∧
    (drawPixel g s.setPassThruColor_void x y c).strip =
      s.strip ++ [(drawPixel_index s x y, expandColor g c)] ∧
    expandColor g c =
      (pgm_read_byte (g.gamma5 (c >>> 11)) <<< 16) |||
      (pgm_read_byte (g.gamma6 ((c >>> 5) &&& 0x3F)) <<< 8) |||
      pgm_read_byte (g.gamma5 (c &&& 0x1F)) ∧
    expandColor g c / 65536 = pgm_read_byte (g.gamma5 (c >>> 11)) ∧
    expandColor g c / 256 % 256 = pgm_read_byte (g.gamma6 ((c >>> 5) &&& 0x3F)) ∧
    expandColor g c % 256 = pgm_read_byte (g.gamma5 (c &&& 0x1F)) := by
  obtain ⟨l, hl⟩ := drawPixels_config g ws (s.setPassThruColor V)
  have h1 : InBounds ({ s.setPassThruColor V with strip := l }) x y := hb
  have h2 : InBounds (setPassThruColor_void { s.setPassThruColor V with strip := l }) x y := hb
  have h3 : InBounds s.setPassThruColor_void x y := hb
  have hr : pgm_read_byte (g.gamma5 (c >>> 11)) < 256 := Nat.mod_lt _ (by decide)
  have hv : pgm_read_byte (g.gamma6 ((c >>> 5) &&& 0x3F)) < 256 := Nat.mod_lt _ (by decide)
  have hc : pgm_read_byte (g.gamma5 (c &&& 0x1F)) < 256 := Nat.mod_lt _ (by decide)
  have he := expandColor_bytes g c
  rw [hl]
  refine ⟨?_, ?_, ?_, rfl, by omega, by omega, by omega⟩
  · rw [drawPixel_eq_of_inBounds g _ x y c h1]; rfl
  · rw [drawPixel_eq_of_inBounds g _ x y c h2]; rfl
  · rw [drawPixel_eq_of_inBounds g _ x y c h3]; rfl

/-- Witness of C10: passthrough value 0x123456 on the 8 by 8 matrix, two writes (one of
them dropped), then the write at (1, 2). -/
theorem drawPixel_passThru_witness :
    InBounds (single 8 8 0) 1 2 ∧
    (drawPixel ⟨id, id⟩ (drawPixels ⟨id, id⟩ ((single 8 8 0).setPassThruColor 0x123456)
        [(0, 0, 5), (9, 9, 1)]) 1 2 0xFFFF).strip =
      (drawPixels ⟨id, id⟩ ((single 8 8 0).setPassThruColor 0x123456)
        [(0, 0, 5), (9, 9, 1)]).strip ++ [(drawPixel_index (single 8 8 0) 1 2, 0x123456)] :=
  ⟨by decide,
    (drawPixel_passThru ⟨id, id⟩ (single 8 8 0) 0x123456 [(0, 0, 5), (9, 9, 1)] 1 2 0xFFFF
      (by decide)).1⟩

/-! ## The colour constructor -/

set_option maxRecDepth 100000 in
theorem red_channel_table : ∀ r, r < 256 →
    (r &&& 0xF8) <<< 8 = 2 ^ 11 * (r / 8) ∧ (r >>> 3) <<< 11 = 2 ^ 11 * (r / 8) ∧
    r >>> 3 = r / 8 := by
  decide

set_option maxRecDepth 100000 in
theorem green_channel_table : ∀ v, v < 256 →
    (v &&& 0xFC) <<< 3 = 32 * (v / 4) ∧ (v >>> 2) <<< 5 = 32 * (v / 4) ∧ v >>> 2 = v / 4 := by
  decide

theorem or_three_fields {a c d : Nat} (hc : c < 64) (hd : d < 32) :
    2 ^ 11 * a ||| 32 * c ||| d = a * 2048 + c * 32 + d := by
  have e1 : 2 ^ 11 * a ||| 32 * c = 2 ^ 11 * a + 32 * c :=
    (Nat.mul_add_lt_is_or (by omega) a).symm
  have e2 : 2 ^ 11 * a + 32 * c = 2 ^ 5 * (64 * a + c) := by omega
  have e3 : 2 ^ 5 * (64 * a + c) ||| d = 2 ^ 5 * (64 * a + c) + d :=
    (Nat.mul_add_lt_is_or (by omega) (64 * a + c)).symm
  rw [e1, e2, e3]
  omega

theorem Color_fields (r g b : Nat) (hr : r < 256) (hg : g < 256) (hb : b < 256) :
    Color r g b = (r / 8) * 2048 + (g / 4) * 32 + b / 8 ∧
    (r >>> 3) <<< 11 ||| (g >>> 2) <<< 5 ||| b >>> 3 = (r / 8) * 2048 + (g / 4) * 32 + b / 8 := by
  obtain ⟨r1, r2, _⟩ := red_channel_table r hr
  obtain ⟨g1, g2, _⟩ := green_channel_table g hg
  have hb3 : b >>> 3 = b / 8 := Nat.shiftRight_eq_div_pow b 3
  have hc : g / 4 < 64 := by omega
  have hd : b / 8 < 32 := by omega
  unfold Color
  rw [r1, g1, r2, g2, hb3, or_three_fields hc hd]
  exact ⟨Nat.mod_eq_of_lt (by omega), rfl⟩

/-- C11. For all 8-bit `r`, `g`, `b`, `Color (r, g, b)` equals
`((r >> 3) << 11) | ((g >> 2) << 5) | (b >> 3)`: the top 5 bits of `r` are bits 15..11
of the result, the top 6 bits of `g` are bits 10..5 and the top 5 bits of `b` are bits
4..0; the result fits in 16 bits, and two inputs that differ only in the discarded low
bits give the same result. -/
theorem Color_packing (r g b : Nat) (hr : r < 256) (hg : g < 256) (hb : b < 256) :
    Color r g b = (r >>> 3) <<< 11 ||| (g >>> 2) <<< 5 ||| b >>> 3 ∧
    Color r g b < 65536 ∧
    Color r g b >>> 11 = r >>> 3 ∧
    (Color r g b >>> 5) &&& 0x3F = g >>> 2 ∧
    Color r g b &&& 0x1F = b >>> 3 ∧
    (∀ r2 g2 b2 : Nat, r2 < 256 → g2 < 256 → b2 < 256 →
      r2 >>> 3 = r >>> 3 → g2 >>> 2 = g >>> 2 → b2 >>> 3 = b >>> 3 →
      Color r2 g2 b2 = Color r g b) := by
  obtain ⟨e, f⟩ := Color_fields r g b hr hg hb
  have hr3 : r >>> 3 = r / 8 := Nat.shiftRight_eq_div_pow r 3
  have hg2 : g >>> 2 = g / 4 := Nat.shiftRight_eq_div_pow g 2
  have hb3 : b >>> 3 = b / 8 := Nat.shiftRight_eq_div_pow b 3
  have m6 : ∀ v : Nat, v &&& 0x3F = v % 64 := fun v => Nat.and_pow_two_sub_one_eq_mod v 6
  have m5 : ∀ v : Nat, v &&& 0x1F = v % 32 := fun v => Nat.and_pow_two_sub_one_eq_mod v 5
  refine ⟨by rw [e, f], by omega, ?_, ?_, ?_, ?_⟩
  · rw [Nat.shiftRight_eq_div_pow, hr3, e]; omega
  · rw [m6, Nat.shiftRight_eq_div_pow, hg2, e]; omega
  · rw [m5, hb3, e]; omega
  · intro r2 g2 b2 h1 h2 h3 k1 k2 k3
    rw [(Color_fields r2 g2 b2 h1 h2 h3).1, e]
    rw [Nat.shiftRight_eq_div_pow, Nat.shiftRight_eq_div_pow] at k1 k2 k3
    simp only [Nat.reducePow] at k1 k2 k3
    rw [k1, k2, k3]

/-- Witness of C11: `Color (0xFF, 0x80, 0x0F)` keeps 31, 32 and 1. -/
theorem Color_packing_witness :
    Color 0xFF 0x80 0x0F = (0xFF >>> 3) <<< 11 ||| (0x80 >>> 2) <<< 5 ||| 0x0F >>> 3 ∧
    Color 0xFF 0x80 0x0F = 31 * 2048 + 32 * 32 + 1 :=
  ⟨(Color_packing 0xFF 0x80 0x0F (by decide) (by decide) (by decide)).1, by decide⟩

/-! ## The full-surface fill -/

theorem fillScreen_loop_strip (c : Nat) (n : Int) (hn : n ≤ 65535) :
    ∀ (k fuel a : Nat) (s : IRM_Mini), (a : Int) + k = n → k ≤ fuel →
      (fillScreen_loop c n fuel a s).strip =
        s.strip ++ (List.range' a k).map (fun (j : Nat) => ((j : Int), c)) := by
  intro k
  induction k with
  | zero =>
    intro fuel a s ha _
    have hlt : ¬ ((a : Int) < n) := by omega
    cases fuel with
    | zero => simp [fillScreen_loop]
    | succ f => simp [fillScreen_loop, hlt]
  | succ k ih =>
    intro fuel a s ha hk
    cases fuel with
    | zero => omega
    | succ f =>
      have hlt : (a : Int) < n := by omega
      have hw : u16 ((a : Int) + 1) = ((a + 1 : Nat) : Int) := by
        rw [u16_of_range (by omega) (by omega)]; rfl
      rw [fillScreen_loop, if_pos hlt, hw,
        ih f (a + 1) (setPixelColor s a c) (by push_cast; omega) (by omega)]
      simp [setPixelColor, List.range'_succ]

/-- C12. For every state with `n = numPixels ()` physical pixels and every colour `c`,
`fillScreen (c)` makes exactly `n` calls of `setPixelColor`, one for each index
0, 1, ..., n-1 in increasing order, all with the same resolved colour (the passthrough
colour if passthrough is enabled, otherwise the gamma expansion of `c`); the calls do
not depend on the rotation, the topology byte, the tile configuration or an installed
remap callback. -/
theorem fillScreen_sweep (g : GammaTables) (s : IRM_Mini) (color : Nat) :
    (fillScreen g s color).strip =
      s.strip ++ (List.range (numPixels s).toNat).map (fun (i : Nat) => ((i : Int),
        if s.passThruFlag then s.passThruColor else expandColor g color)) ∧
    (fillScreen g s color).strip.length = s.strip.length + (numPixels s).toNat ∧
    (∀ (r t : Nat) (cw ch mW mH tX tY : Int) (f : Option (Int → Int → Int)),
      (fillScreen g
          { s with rotation := r, _width := cw, _height := ch, type := t, matrixWidth := mW, matrixHeight := mH, tilesX := tX, tilesY := tY, remapFn := f }
        color).strip = (fillScreen g s color).strip) := by
  have key : ∀ t : IRM_Mini, (fillScreen g t color).strip =
      t.strip ++ (List.range (numPixels t).toNat).map (fun (i : Nat) => ((i : Int),
        if t.passThruFlag then t.passThruColor else expandColor g color)) := by
    intro t
    have h0 : 0 ≤ numPixels t := by unfold numPixels u16; omega
    have h1 : numPixels t ≤ 65535 := by unfold numPixels u16; omega
    unfold fillScreen
    simp only
    have hc : (((0 : Nat) : Int)) + ((numPixels t).toNat : Nat) = numPixels t := by
      rw [Int.toNat_of_nonneg h0]; simp
    have := fillScreen_loop_strip
      (if t.passThruFlag then t.passThruColor else expandColor g color) (numPixels t) h1
      (numPixels t).toNat 65536 0 t hc (by omega)
    rw [List.range_eq_range']
    exact this
  refine ⟨key s, ?_, ?_⟩
  · rw [key s]; simp
  · intro r t cw ch mW mH tX tY f
    rw [key, key s]
    rfl

/-! ## The font rasterizer -/

theorem bit_test_iff (line k : Nat) : line &&& (1 <<< k) ≠ 0 ↔ line.testBit k = true := by
  rw [Nat.one_shiftLeft, Nat.and_two_pow]
  cases line.testBit k <;> simp

theorem drawAscii_bits_eq (x y : Int) (width line j off color : Nat) (hw : width ≤ 255) :
    ∀ (fuel k0 : Nat), width - k0 ≤ fuel → k0 ≤ width →
      drawAscii_bits x y width line j off color fuel k0 =
        ((List.range' k0 (width - k0)).filter (fun k => line.testBit k)).map
          (fun (k : Nat) =>
            Call.drawPixel (i16 (x + width - k - 1)) (i16 (y + j + off - 1)) color) := by
  intro fuel
  induction fuel with
  | zero =>
    intro k0 h1 _
    have e : width - k0 = 0 := by omega
    simp [drawAscii_bits, e]
  | succ f ih =>
    intro k0 h1 h2
    by_cases hk : k0 < width
    · have e : width - k0 = (width - (k0 + 1)) + 1 := by omega
      have hm : (k0 + 1) % 256 = k0 + 1 := Nat.mod_eq_of_lt (by omega)
      rw [drawAscii_bits, if_pos hk, hm, ih (k0 + 1) (by omega) (by omega), e, List.range'_succ]
      by_cases hb : line.testBit k0 = true
      · rw [if_pos ((bit_test_iff line k0).mpr hb), List.filter_cons_of_pos (by simpa using hb)]
        rfl
      · rw [if_neg (fun h => hb ((bit_test_iff line k0).mp h)),
          List.filter_cons_of_neg (by simpa using hb)]
        rfl
    · have e : width - k0 = 0 := by omega
      rw [drawAscii_bits, if_neg hk, e]
      rfl

theorem drawAscii_rows_eq (x y : Int) (bitmap : List Nat) (width fontSize off color : Nat)
    (hw : width ≤ 255) (hf : fontSize ≤ 254) :
    ∀ (fuel j0 : Nat), fontSize + 1 - j0 ≤ fuel → j0 ≤ fontSize + 1 →
      drawAscii_rows x y bitmap width fontSize off color fuel j0 =
        (List.range' j0 (fontSize + 1 - j0)).flatMap (fun (j : Nat) =>
          ((List.range' 0 width).filter (fun k => (bitmap.getD j 0).testBit k)).map
            (fun (k : Nat) =>
              Call.drawPixel (i16 (x + width - k - 1)) (i16 (y + j + off - 1)) color)) := by
  intro fuel
  induction fuel with
  | zero =>
    intro j0 h1 _
    have e : fontSize + 1 - j0 = 0 := by omega
    simp [drawAscii_rows, e]
  | succ f ih =>
    intro j0 h1 h2
    by_cases hj : j0 ≤ fontSize
    · have e : fontSize + 1 - j0 = (fontSize + 1 - (j0 + 1)) + 1 := by omega
      have hm : (j0 + 1) % 256 = j0 + 1 := Nat.mod_eq_of_lt (by omega)
      rw [drawAscii_rows, if_pos hj, hm, ih (j0 + 1) (by omega) (by omega), e, List.range'_succ,
        List.flatMap_cons, drawAscii_bits_eq x y width _ j0 off color hw 256 0 (by omega) (by omega)]
      rfl
    · have e : fontSize + 1 - j0 = 0 := by omega
      rw [drawAscii_rows, if_neg hj, e]
      rfl

theorem fontTable_length (fontSize : Nat) : (fontTable fontSize).length = 95 := by
  unfold fontTable
  split <;> decide

theorem fontTable_lookup (fontSize index : Nat) (h : index < 95) :
    (fontTable fontSize)[index]? = some ((fontTable fontSize).getD index []) := by
  have hl : index < (fontTable fontSize).length := by rw [fontTable_length]; exact h
  rw [List.getD_eq_getElem?_getD, List.getElem?_eq_getElem hl]
  rfl

theorem ascii_index_in_range (c : Nat) (h1 : 32 ≤ c) (h2 : c ≤ 125) :
    (u8 ((c : Int) - 32 + 1)).toNat = c - 32 + 1 ∧ c - 32 + 1 < 95 ∧
    ¬ (u8 ((c : Int) - 32 + 1) < 0) := by
  unfold u8
  omega

/-- One iteration of the character loop of `drawAscii`, for a supported font size and a
character whose record index lies in the table. -/
theorem drawAscii_loop_step (y : Int) (text : List Nat) (color fontSize fuel i : Nat) (x : Int)
    (calls : List Call) (bitmap : List Nat) (hfs : fontSize = FONT5 ∨ fontSize = FONT7)
    (hi : i < text.length)
    (hrec : (fontTable fontSize)[(u8 ((text.getD i 0 : Int) - 32 + 1)).toNat]? = some bitmap) :
    drawAscii_loop y text color fontSize (fuel + 1) i x calls =
      drawAscii_loop y text color fontSize fuel ((i + 1) % 256)
        (drawAscii_glyph x y bitmap color fontSize).2
        (calls ++ (drawAscii_glyph x y bitmap color fontSize).1) := by
  have hneg : ¬ (u8 ((text.getD i 0 : Int) - 32 + 1) < 0) := by unfold u8; omega
  have h57 : FONT5 ≠ FONT7 := by decide
  rw [drawAscii_loop, if_pos hi]
  simp only [if_neg hneg]
  rcases hfs with h | h
  · have e : fontTable fontSize = FONT5_BITMAT := by
      unfold fontTable; rw [h, if_neg h57]
    rw [e] at hrec
    simp only [h, if_neg h57, if_true, hrec]
  · have e : fontTable fontSize = FONT7_BITMAT := by
      unfold fontTable; rw [h, if_pos rfl]
    rw [e] at hrec
    simp only [h, if_true, hrec]

/-- C13, as amended. For every non-empty text, every start position and every
`fontSize` other than the two supported selectors `FONT5` and `FONT7`, `drawAscii` ends
in the fatal stop (the `while(1)` after "Unknown font size") without having issued any
`drawPixel` or `fillRect` call; for the empty text it returns normally, also without
any call. -/
theorem drawAscii_unknown_font (fuel : Nat) (x y : Int) (text : List Nat)
    (color fontSize : Nat) (h5 : fontSize ≠ FONT5) (h7 : fontSize ≠ FONT7) :
    drawAscii (fuel + 1) x y text color fontSize =
      if text = [] then Outcome.returned [] else Outcome.halted [] := by
  unfold drawAscii
  rw [drawAscii_loop]
  cases text with
  | nil => simp
  | cons c cs => simp [h5, h7]

/-- Witness of C13: the text "A" with font size 6 stops for ever before any call. -/
theorem drawAscii_unknown_font_witness :
    (6 : Nat) ≠ FONT5 ∧ (6 : Nat) ≠ FONT7 ∧
    drawAscii (0 + 1) 0 0 [65] 1 6 = if [65] = ([] : List Nat) then Outcome.returned []
      else Outcome.halted [] :=
  ⟨by decide, by decide, drawAscii_unknown_font 0 0 0 [65] 1 6 (by decide) (by decide)⟩

/-- Counterexample to C13 as stated: with the empty text and the unsupported font size
6, `drawAscii` returns normally. -/
theorem drawAscii_unknown_font_empty :
    (6 : Nat) ≠ FONT5 ∧ (6 : Nat) ≠ FONT7 ∧
    drawAscii 1 0 0 [] 1 6 = Outcome.returned [] ∧
    drawAscii 1000 0 0 [] 1 6 = Outcome.returned [] := by
  decide

/-- C14, the code at its failing inputs. With a supported font size, the character code
127 gives the record index 96 and the code 10 gives the record index 235: both are
past the end of the tables (95 records each as compiled, 96 rows in the source text),
and no glyph is selected. Only the code 31 gives record 0. -/
theorem drawAscii_index_past_table :
    FONT5_BITMAT.length = 95 ∧ FONT7_BITMAT.length = 95 ∧
    drawAscii 2 0 0 [127] 1 FONT5 = Outcome.overrun [] 96 ∧
    drawAscii 2 0 0 [10] 1 FONT7 = Outcome.overrun [] 235 ∧
    drawAscii 2 0 0 [200] 1 FONT5 = Outcome.overrun [] 169 ∧
    u8 ((31 : Int) - 32 + 1) = 0 := by
  decide

/-- C15, the code at its failing input. For the letter A (width 4) in the compact font
at the cursor (3, 2), the first call is `fillRect (3, 2, 7, 7, 0)`: the width argument
is `x + width` and the height argument is `y + fontSize`, not 4 and 5. At the cursor
(0, 0) the request is `fillRect (0, 0, 4, 5, 0)`. -/
theorem drawAscii_clear_request :
    (glyphRecord FONT5 65).getD 0 0 = 4 ∧
    (drawAscii 2 3 2 [65] 1 FONT5).calls.head? = some (Call.fillRect 3 2 7 7 0) ∧
    (drawAscii 2 0 0 [65] 1 FONT5).calls.head? = some (Call.fillRect 0 0 4 5 0) ∧
    isRunning (drawAscii 2 3 2 [65] 1 FONT5) = false := by
  decide

theorem font_widths_table :
    (FONT5_BITMAT.all fun r => decide (r.getD 0 0 ≤ 7)) = true ∧
    (FONT7_BITMAT.all fun r => decide (r.getD 0 0 ≤ 7)) = true := by
  decide

theorem fontTable_width_le (fontSize index : Nat) :
    (((fontTable fontSize).getD index []).getD 0 0) ≤ 7 := by
  by_cases h : index < (fontTable fontSize).length
  · have hm : (fontTable fontSize).getD index [] ∈ fontTable fontSize := by
      rw [List.getD_eq_getElem _ _ h]; exact List.getElem_mem h
    have hall : ((fontTable fontSize).all fun r => decide (r.getD 0 0 ≤ 7)) = true := by
      unfold fontTable
      split
      · exact font_widths_table.2
      · exact font_widths_table.1
    have := List.all_eq_true.mp hall _ hm
    simpa using this
  · rw [List.getD_eq_default _ _ (Nat.le_of_not_lt h)]
    simp

theorem drawAscii_loop_end (y : Int) (text : List Nat) (color fontSize fuel i : Nat) (x : Int)
    (calls : List Call) (hi : ¬ i < text.length) :
    drawAscii_loop y text color fontSize (fuel + 1) i x calls = Outcome.returned calls := by
  rw [drawAscii_loop, if_neg hi]

/-- The calls of one glyph: the clearing request, the foreground pixels row by row, and
the request for the spacing column. -/
theorem drawAscii_glyph_calls (x y : Int) (bitmap : List Nat) (color fontSize : Nat)
    (hw : bitmap.getD 0 0 ≤ 255) (hf : fontSize ≤ 254) :
    (drawAscii_glyph x y bitmap color fontSize).1 =
      Call.fillRect (i16 x) (i16 y) (i16 (x + (bitmap.getD 0 0 : Nat))) (i16 (y + fontSize)) 0 ::
        (List.range' 1 fontSize).flatMap (fun (j : Nat) =>
          ((List.range (bitmap.getD 0 0)).filter (fun k => (bitmap.getD j 0).testBit k)).map
            (fun (k : Nat) =>
              Call.drawPixel (i16 (x + (bitmap.getD 0 0 : Nat) - 1 - k)) (i16 (y + j - 1)) color)) ++
        [Call.fillRect (i16 (u16 (x + (bitmap.getD 0 0 : Nat)))) (i16 y)
          (i16 (u16 (x + (bitmap.getD 0 0 : Nat)) + 1)) (i16 (y + fontSize)) 0] ∧
    (drawAscii_glyph x y bitmap color fontSize).2 = u16 (u16 (x + (bitmap.getD 0 0 : Nat)) + 1) := by
  have hoff : (u8 ((fontSize : Int) - fontSize)).toNat = 0 := by
    rw [sub_self]; rfl
  refine ⟨?_, rfl⟩
  unfold drawAscii_glyph
  simp only [hoff]
  rw [drawAscii_rows_eq x y bitmap _ fontSize 0 color hw hf 256 1 (by omega) (by omega)]
  simp only [Nat.add_sub_cancel, List.range_eq_range', List.cons_append, List.cons.injEq,
    true_and, List.append_cancel_right_eq]
  congr 1
  funext j
  congr 1
  funext k
  congr 2
  · ring
  · simp

theorem drawAscii_loop_text (y : Int) (text : List Nat) (color fontSize : Nat)
    (hfs : fontSize = FONT5 ∨ fontSize = FONT7) (hlen : text.length ≤ 255) :
    ∀ (rest pre : List Nat) (fuel : Nat) (x : Int) (calls : List Call),
      text = pre ++ rest → rest.length < fuel → (∀ c ∈ rest, 32 ≤ c ∧ c ≤ 125) →
      0 ≤ x → x < 65536 →
      drawAscii_loop y text color fontSize fuel pre.length x calls =
        Outcome.returned (calls ++ (List.range rest.length).flatMap (fun (i : Nat) =>
          (drawAscii_glyph
            ((x + ((rest.take i).map
              (fun (c : Nat) => (((glyphRecord fontSize c).getD 0 0 : Nat) : Int) + 1)).sum) % 65536)
            y (glyphRecord fontSize (rest.getD i 0)) color fontSize).1)) := by
  intro rest
  induction rest with
  | nil =>
    intro pre fuel x calls ht hfuel _ _ _
    obtain ⟨f, rfl⟩ : ∃ f, fuel = f + 1 := ⟨fuel - 1, by simp at hfuel; omega⟩
    rw [drawAscii_loop_end _ _ _ _ _ _ _ _ (by rw [ht]; simp)]
    simp
  | cons c cs ih =>
    intro pre fuel x calls ht hfuel hin hx0 hx1
    obtain ⟨f, rfl⟩ : ∃ f, fuel = f + 1 := ⟨fuel - 1, by simp at hfuel; omega⟩
    have hc := hin c (List.mem_cons_self c cs)
    have hi : pre.length < text.length := by rw [ht]; simp
    have hget : text.getD pre.length 0 = c := by
      rw [ht, List.getD_append_right _ _ _ _ (le_refl _)]; simp
    obtain ⟨a1, a2, _⟩ := ascii_index_in_range c hc.1 hc.2
    have hrec : (fontTable fontSize)[(u8 ((text.getD pre.length 0 : Nat) - 32 + 1 : Int)).toNat]? =
        some (glyphRecord fontSize c) := by
      rw [hget, a1]; exact fontTable_lookup _ _ a2
    have hp : (pre.length + 1) % 256 = (pre ++ [c]).length := by
      have : pre.length + 1 ≤ 255 := by
        have := hlen; rw [ht] at this; simp at this; omega
      rw [Nat.mod_eq_of_lt (by omega)]; simp
    have hw : (glyphRecord fontSize c).getD 0 0 ≤ 7 := fontTable_width_le _ _
    have hf : fontSize ≤ 254 := by rcases hfs with h | h <;> rw [h] <;> decide
    obtain ⟨_, g2⟩ := drawAscii_glyph_calls x y (glyphRecord fontSize c) color fontSize
      (by omega) hf
    rw [drawAscii_loop_step y text color fontSize f pre.length x calls _ hfs hi hrec, hp,
      ih (pre ++ [c]) f _ _ (by rw [ht]; simp) (by simp at hfuel; omega)
        (fun d hd => hin d (List.mem_cons_of_mem c hd))
        (by rw [g2]; unfold u16; omega) (by rw [g2]; unfold u16; omega)]
    congr 1
    rw [List.length_cons, List.range_succ_eq_map, List.flatMap_cons, List.flatMap_map,
      List.append_assoc]
    congr 1
    have e0 : x % 65536 = x := by omega
    congr 1
    · simp [e0]
    · congr 1
      funext i
      simp only [Function.comp, Nat.succ_eq_add_one, List.take_succ_cons, List.map_cons,
        List.sum_cons, List.getD_cons_succ]
      rw [g2]
      congr 2
      generalize ((cs.take i).map
        (fun (c : Nat) => (((glyphRecord fontSize c).getD 0 0 : Nat) : Int) + 1)).sum = S
      unfold u16
      omega

/-- The cursor of `drawAscii`. For every text of at most 255 characters with codes in
32..125 and a supported font size, `drawAscii` returns, having processed the characters
left to right: the calls are those of the records read, in order, the record of the
`i`-th character being drawn at the cursor `x0 + sum over m < i of (width_m + 1)`
(modulo 2^16) and at the unchanged `y0`, where `width_m` is the width of the record
read for the `m`-th character. -/
theorem drawAscii_cursor (fuel : Nat) (x0 y0 : Int) (text : List Nat) (color fontSize : Nat)
    (hfs : fontSize = FONT5 ∨ fontSize = FONT7) (hlen : text.length ≤ 255)
    (hin : ∀ c ∈ text, 32 ≤ c ∧ c ≤ 125) (hx0 : 0 ≤ x0) (hx1 : x0 < 65536)
    (hfuel : text.length < fuel) :
    drawAscii fuel x0 y0 text color fontSize =
      Outcome.returned ((List.range text.length).flatMap (fun (i : Nat) =>
        (drawAscii_glyph
          ((x0 + ((text.take i).map
            (fun (c : Nat) => (((glyphRecord fontSize c).getD 0 0 : Nat) : Int) + 1)).sum) % 65536)
          y0 (glyphRecord fontSize (text.getD i 0)) color fontSize).1)) := by
  have h := drawAscii_loop_text y0 text color fontSize hfs hlen text [] fuel x0 [] rfl hfuel hin
    hx0 hx1
  simpa [drawAscii] using h

/-- The cursor at a concrete input: the text "HI" at (3, 1) in the compact font; the
second record is drawn with its left column at 3 + (4 + 1) = 8. -/
theorem drawAscii_cursor_witness :
    Call.drawPixel 8 1 9 ∈ (drawAscii 3 3 1 [72, 73] 9 FONT5).calls ∧
    drawAscii 3 3 1 [72, 73] 9 FONT5 =
      Outcome.returned ((List.range [72, 73].length).flatMap (fun (i : Nat) =>
        (drawAscii_glyph
          ((3 + (([72, 73].take i).map
            (fun (c : Nat) => (((glyphRecord FONT5 c).getD 0 0 : Nat) : Int) + 1)).sum) % 65536)
          1 (glyphRecord FONT5 ([72, 73].getD i 0)) 9 FONT5).1)) :=
  ⟨by decide,
    drawAscii_cursor 3 3 1 [72, 73] 9 FONT5 (Or.inl rfl) (by decide) (by decide) (by decide)
      (by decide) (by decide)⟩

/-- With 256 characters or more, all in the range 32..125, the `uint8_t` counter of the
character loop never reaches the length: the run never returns. -/
theorem drawAscii_loop_running (y : Int) (text : List Nat) (color fontSize : Nat)
    (hfs : fontSize = FONT5 ∨ fontSize = FONT7) (hlen : 256 ≤ text.length)
    (hin : ∀ c ∈ text, 32 ≤ c ∧ c ≤ 125) :
    ∀ (fuel i : Nat) (x : Int) (calls : List Call), i < 256 →
      isRunning (drawAscii_loop y text color fontSize fuel i x calls) = true := by
  intro fuel
  induction fuel with
  | zero => intro i x calls _; rfl
  | succ f ih =>
    intro i x calls hi
    have hil : i < text.length := by omega
    have hmem : text.getD i 0 ∈ text := by
      rw [List.getD_eq_getElem _ _ hil]; exact List.getElem_mem hil
    have hc := hin _ hmem
    obtain ⟨a1, a2, _⟩ := ascii_index_in_range _ hc.1 hc.2
    have hrec : (fontTable fontSize)[(u8 ((text.getD i 0 : Nat) - 32 + 1 : Int)).toNat]? =
        some (glyphRecord fontSize (text.getD i 0)) := by
      rw [a1]; exact fontTable_lookup _ _ a2
    rw [drawAscii_loop_step y text color fontSize f i x calls _ hfs hil hrec]
    exact ih _ _ _ (Nat.mod_lt _ (by decide))

set_option maxRecDepth 100000 in
/-- C17, the code at its failing input. For the text of 256 spaces followed by the
letter A (257 characters of the range), the `uint8_t` counter of the character loop
wraps before it reaches the length: `drawAscii` never returns, and after 300 characters
have been processed no foreground pixel has been drawn; the letter A, at position 256,
is never reached. Alone, the letter A is drawn. -/
theorem drawAscii_long_text :
    (List.replicate 256 32 ++ [65]).length = 257 ∧
    (∀ fuel : Nat,
      isRunning (drawAscii fuel 0 0 (List.replicate 256 32 ++ [65]) 9 FONT5) = true) ∧
    ((drawAscii 300 0 0 (List.replicate 256 32 ++ [65]) 9 FONT5).calls.all
      (fun call => !isDrawPixel call)) = true ∧
    (drawAscii 2 0 0 [65] 9 FONT5).calls.any isDrawPixel = true :=
  ⟨by decide,
    fun fuel => drawAscii_loop_running 0 _ 9 FONT5 (Or.inl rfl) (by decide) (by decide) fuel 0 0 []
      (by decide),
    by decide, by decide⟩

/-! ## The bitmap blit -/

theorem blit_channels (v : Nat) :
    ((v >>> 16) &&& 0xFF) % 256 = v / 2 ^ 16 % 256 ∧ ((v >>> 8) &&& 0xFF) % 256 = v / 2 ^ 8 % 256 ∧
    (v &&& 0xFF) % 256 = v % 256 := by
  have m : ∀ u : Nat, u &&& 0xFF = u % 256 := fun u => Nat.and_pow_two_sub_one_eq_mod u 8
  rw [m, m, m, Nat.shiftRight_eq_div_pow, Nat.shiftRight_eq_div_pow]
  simp

theorem drawRGBBitmap_rows_eq (startx starty : Int) (bitmap : List Nat) (w h : Int)
    (cover : Bool) (col : Nat) (hw0 : 0 ≤ w) (hh : h ≤ 32767) :
    ∀ (n fuel a : Nat), (a : Int) + n = h → n ≤ fuel →
      drawRGBBitmap_rows startx starty bitmap w h cover col fuel a =
        (List.range' a n).flatMap (fun (row : Nat) =>
          if bitmap.getD (col + row * w.toNat) 0 = 0 ∧ cover = false then []
          else [specBlitCall startx starty bitmap w.toNat col row]) := by
  intro n
  induction n with
  | zero =>
    intro fuel a ha _
    have hlt : ¬ ((a : Int) < h) := by omega
    cases fuel with
    | zero => simp [drawRGBBitmap_rows]
    | succ f => simp [drawRGBBitmap_rows, hlt]
  | succ n ih =>
    intro fuel a ha hn
    cases fuel with
    | zero => omega
    | succ f =>
      have hlt : (a : Int) < h := by omega
      have hu : u16 ((a : Int) + 1) = ((a + 1 : Nat) : Int) := by
        rw [u16_of_range (by omega) (by omega)]; rfl
      have hidx : ((col : Int) + (a : Int) * w).toNat = col + a * w.toNat := by
        have e : (w.toNat : Int) = w := Int.toNat_of_nonneg hw0
        have : ((col : Int) + (a : Int) * w) = ((col + a * w.toNat : Nat) : Int) := by
          push_cast; rw [e]
        rw [this]; rfl
      obtain ⟨c1, c2, c3⟩ := blit_channels (bitmap.getD (col + a * w.toNat) 0)
      rw [drawRGBBitmap_rows, if_pos hlt, hu, ih f (a + 1) (by push_cast; omega) (by omega),
        List.range'_succ, List.flatMap_cons]
      simp only [hidx, c1, c2, c3, specBlitCall]

theorem drawRGBBitmap_cols_eq (startx starty : Int) (bitmap : List Nat) (w h : Int)
    (cover : Bool) (hw : w ≤ 32767) (hw0 : 0 ≤ w) (hh0 : 0 ≤ h) (hh : h ≤ 32767) :
    ∀ (n fuel a : Nat), (a : Int) + n = w → n ≤ fuel →
      drawRGBBitmap_cols startx starty bitmap w h cover fuel a =
        (List.range' a n).flatMap (fun (col : Nat) =>
          (List.range h.toNat).flatMap (fun (row : Nat) =>
            if bitmap.getD (col + row * w.toNat) 0 = 0 ∧ cover = false then []
            else [specBlitCall startx starty bitmap w.toNat col row])) := by
  intro n
  induction n with
  | zero =>
    intro fuel a ha _
    have hlt : ¬ ((a : Int) < w) := by omega
    cases fuel with
    | zero => simp [drawRGBBitmap_cols]
    | succ f => simp [drawRGBBitmap_cols, hlt]
  | succ n ih =>
    intro fuel a ha hn
    cases fuel with
    | zero => omega
    | succ f =>
      have hlt : (a : Int) < w := by omega
      have hu : u16 ((a : Int) + 1) = ((a + 1 : Nat) : Int) := by
        rw [u16_of_range (by omega) (by omega)]; rfl
      have hrows := drawRGBBitmap_rows_eq startx starty bitmap w h cover a hw0 hh
        h.toNat 65536 0 (by rw [Int.toNat_of_nonneg hh0]; simp) (by omega)
      rw [drawRGBBitmap_cols, if_pos hlt, hu, ih f (a + 1) (by push_cast; omega) (by omega),
        List.range'_succ, List.flatMap_cons, List.range_eq_range']
      congr 1

theorem drawRGBBitmap_eq (startx starty : Int) (bitmap : List Nat) (w h : Int) (cover : Bool)
    (hw0 : 0 ≤ w) (hw : w ≤ 32767) (hh0 : 0 ≤ h) (hh : h ≤ 32767) :
    drawRGBBitmap startx starty bitmap w h cover =
      (List.range w.toNat).flatMap (fun (col : Nat) =>
        (List.range h.toNat).flatMap (fun (row : Nat) =>
          if bitmap.getD (col + row * w.toNat) 0 = 0 ∧ cover = false then []
          else [specBlitCall startx starty bitmap w.toNat col row])) := by
  have h := drawRGBBitmap_cols_eq startx starty bitmap w h cover hw hw0 hh0 hh w.toNat 65536 0
    (by rw [Int.toNat_of_nonneg hw0]; simp) (by omega)
  rw [List.range_eq_range']
  unfold drawRGBBitmap
  simpa using h

theorem grid_length {α : Type} (m : Nat) (f : Nat → Nat → α) :
    ∀ n : Nat, ((List.range n).flatMap (fun col => (List.range m).map (f col))).length = n * m := by
  intro n
  induction n with
  | zero => simp
  | succ n ih =>
    rw [List.range_succ, List.flatMap_append, List.length_append, ih]
    simp [Nat.succ_mul]

theorem blit_index_lt (w h : Int) (len col row : Nat) (hw0 : 0 ≤ w)
    (hlen : (len : Int) = w * h) (hc : (col : Int) < w) (hr : (row : Int) < h) :
    col + row * w.toNat < len := by
  have e : (w.toNat : Int) = w := Int.toNat_of_nonneg hw0
  have h1 : ((row : Int) + 1) * w ≤ h * w := mul_le_mul_of_nonneg_right (by omega) hw0
  have h2 : ((col + row * w.toNat : Nat) : Int) < (len : Int) := by
    push_cast
    rw [e, hlen]
    nlinarith
  exact_mod_cast h2

/-- C18, as amended. For every `w, h >= 0`, every source buffer of `w*h` packed pixels
and every origin, `drawRGBBitmap` with `cover = true` issues exactly `w*h` calls of
`drawPixel`, one per `(col, row)` with `0 <= col < w` and `0 <= row < h`, columns in
the outer loop and rows in the inner loop; the call for `(col, row)` is at
`(startx + col, starty + row)` converted to `int16_t`, with the colour `Color (r, g, b)`
where `r`, `g`, `b` are bits 16-23, 8-15 and 0-7 of `bitmap[col + row*w]`, an element
of the buffer. -/
theorem drawRGBBitmap_cover (startx starty : Int) (bitmap : List Nat) (w h : Int)
    (hw0 : 0 ≤ w) (hw : w ≤ 32767) (hh0 : 0 ≤ h) (hh : h ≤ 32767)
    (hlen : (bitmap.length : Int) = w * h) :
    drawRGBBitmap startx starty bitmap w h true =
      (List.range w.toNat).flatMap (fun (col : Nat) =>
        (List.range h.toNat).map (fun (row : Nat) =>
          specBlitCall startx starty bitmap w.toNat col row)) ∧
    (drawRGBBitmap startx starty bitmap w h true).length = w.toNat * h.toNat ∧
    (∀ col row : Nat, (col : Int) < w → (row : Int) < h →
      col + row * w.toNat < bitmap.length) := by
  have key : drawRGBBitmap startx starty bitmap w h true =
      (List.range w.toNat).flatMap (fun (col : Nat) =>
        (List.range h.toNat).map (fun (row : Nat) =>
          specBlitCall startx starty bitmap w.toNat col row)) := by
    rw [drawRGBBitmap_eq startx starty bitmap w h true hw0 hw hh0 hh]
    congr 1
    funext col
    simp only [Bool.true_eq_false, and_false, if_false]
    exact (List.map_eq_flatMap _ _).symm
  refine ⟨key, ?_, fun col row hc hr => blit_index_lt w h _ col row hw0 hlen hc hr⟩
  rw [key]
  exact grid_length _ _ _

/-- Witness of C18: a 2 by 2 bitmap drawn at (5, 7). -/
theorem drawRGBBitmap_cover_witness :
    drawRGBBitmap 5 7 [0x010203, 0, 0xFF0000, 0x00FF00] 2 2 true =
      [Call.drawPixel 5 7 (Color 1 2 3), Call.drawPixel 5 8 (Color 0xFF 0 0),
       Call.drawPixel 6 7 (Color 0 0 0), Call.drawPixel 6 8 (Color 0 0xFF 0)] ∧
    (drawRGBBitmap 5 7 [0x010203, 0, 0xFF0000, 0x00FF00] 2 2 true).length =
      (2 : Int).toNat * (2 : Int).toNat :=
  ⟨by decide,
    (drawRGBBitmap_cover 5 7 [0x010203, 0, 0xFF0000, 0x00FF00] 2 2 (by decide) (by decide)
      (by decide) (by decide) (by decide)).2.1⟩

/-- Counterexample to C18 as stated: for the origin (32767, 0) and a 2 by 1 bitmap, the
call for the source pixel (1, 0) is at the `int16_t` coordinate (-32768, 0), not at
(32767 + 1, 0). -/
theorem drawRGBBitmap_cover_wraps :
    drawRGBBitmap 32767 0 [0x010203, 0x040506] 2 1 true =
      [Call.drawPixel 32767 0 (Color 1 2 3), Call.drawPixel (-32768) 0 (Color 4 5 6)] ∧
    (-32768 : Int) ≠ 32767 + 1 := by
  decide

/-- C19, as amended. With `cover = false`, `drawRGBBitmap` skips a source pixel exactly
when its packed 32-bit value is zero; every source pixel with a non-zero decoded R, G
or B has a non-zero packed value and is forwarded. With `cover = true` no pixel is
skipped. -/
theorem drawRGBBitmap_skip (startx starty : Int) (bitmap : List Nat) (w h : Int)
    (hw0 : 0 ≤ w) (hw : w ≤ 32767) (hh0 : 0 ≤ h) (hh : h ≤ 32767) :
    drawRGBBitmap startx starty bitmap w h false =
      (List.range w.toNat).flatMap (fun (col : Nat) =>
        (List.range h.toNat).flatMap (fun (row : Nat) =>
          if bitmap.getD (col + row * w.toNat) 0 = 0 then []
          else [specBlitCall startx starty bitmap w.toNat col row])) ∧
    drawRGBBitmap startx starty bitmap w h true =
      (List.range w.toNat).flatMap (fun (col : Nat) =>
        (List.range h.toNat).flatMap (fun (row : Nat) =>
          [specBlitCall startx starty bitmap w.toNat col row])) ∧
    (∀ v : Nat, (v / 2 ^ 16 % 256 ≠ 0 ∨ v / 2 ^ 8 % 256 ≠ 0 ∨ v % 256 ≠ 0) → v ≠ 0) := by
  refine ⟨?_, ?_, ?_⟩
  · rw [drawRGBBitmap_eq startx starty bitmap w h false hw0 hw hh0 hh]
    simp
  · rw [drawRGBBitmap_eq startx starty bitmap w h true hw0 hw hh0 hh]
    simp
  · intro v hv h0
    subst h0
    simp at hv

/-- Witness of C19: in a 2 by 2 bitmap only the pixel whose packed value is zero is
skipped. -/
theorem drawRGBBitmap_skip_witness :
    drawRGBBitmap 5 7 [0x010203, 0, 0xFF0000, 0x00FF00] 2 2 false =
      [Call.drawPixel 5 7 (Color 1 2 3), Call.drawPixel 5 8 (Color 0xFF 0 0),
       Call.drawPixel 6 8 (Color 0 0xFF 0)] ∧
    drawRGBBitmap 5 7 [0x010203, 0, 0xFF0000, 0x00FF00] 2 2 false =
      (List.range (2 : Int).toNat).flatMap (fun (col : Nat) =>
        (List.range (2 : Int).toNat).flatMap (fun (row : Nat) =>
          if [0x010203, 0, 0xFF0000, 0x00FF00].getD (col + row * (2 : Int).toNat) 0 = 0 then []
          else [specBlitCall 5 7 [0x010203, 0, 0xFF0000, 0x00FF00] (2 : Int).toNat col row])) :=
  ⟨by decide,
    (drawRGBBitmap_skip 5 7 [0x010203, 0, 0xFF0000, 0x00FF00] 2 2 (by decide) (by decide)
      (by decide) (by decide)).1⟩

/-- Counterexample to C19 as stated: the source pixel 0xFF000000 decodes to R, G and B
all zero, yet with `cover = false` it is forwarded (as colour 0), because its packed
value is not zero. -/
theorem drawRGBBitmap_skip_packed :
    (0xFF000000 / 2 ^ 16 % 256 = 0 ∧ 0xFF000000 / 2 ^ 8 % 256 = 0 ∧ 0xFF000000 % 256 = 0) ∧
    drawRGBBitmap 0 0 [0xFF000000] 1 1 false = [Call.drawPixel 0 0 (Color 0 0 0)] := by
  decide

/-! ## A half turn is wiring from the opposite corner -/

theorem xor_flag_keep (t m c : Nat) (hm : m &&& c = 0) : (t ^^^ m) &&& c = t &&& c := by
  rw [Nat.and_xor_distrib_right, hm, Nat.xor_zero]

theorem xor_flag_toggle (t m i : Nat) (hm : m &&& 2 ^ i = 2 ^ i) :
    ((t ^^^ m) &&& 2 ^ i = 0 ↔ t &&& 2 ^ i ≠ 0) := by
  rw [Nat.and_xor_distrib_right, hm, Nat.and_two_pow]
  have hp : 2 ^ i ≠ 0 := by positivity
  cases t.testBit i <;> simp [hp]

theorem ediv_flip {a b c : Int} (hb : 0 < b) :
    (b * c - 1 - a) / b = c - 1 - a / b ∧ (b * c - 1 - a) % b = b - 1 - a % b := by
  have m0 := Int.emod_nonneg a hb.ne.symm
  have m1 := Int.emod_lt_of_pos a hb
  have e := Int.emod_add_ediv a b
  refine (Int.ediv_emod_unique hb).mpr ⟨?_, by omega, by omega⟩
  have : b * (c - 1 - a / b) = b * c - b - b * (a / b) := by ring
  rw [this]
  omega

/-- The pixel-within-tile part gives the same offset for a coordinate with the corner
flags of one state and for the mirrored coordinate with the opposite corner flags. -/
theorem drawPixel_pixel_mirror (s t : IRM_Mini) (corner cornerT : Nat) (X Y x y : Int)
    (hmw : t.matrixWidth = s.matrixWidth) (hmh : t.matrixHeight = s.matrixHeight)
    (d1 : cornerT &&& NEO_MATRIX_RIGHT = 0 ↔ corner &&& NEO_MATRIX_RIGHT ≠ 0)
    (d2 : cornerT &&& NEO_MATRIX_BOTTOM = 0 ↔ corner &&& NEO_MATRIX_BOTTOM ≠ 0)
    (fA : t.type &&& NEO_MATRIX_AXIS = s.type &&& NEO_MATRIX_AXIS)
    (fS : t.type &&& NEO_MATRIX_SEQUENCE = s.type &&& NEO_MATRIX_SEQUENCE)
    (hX : u16 X = u16 (s.matrixWidth - 1 - u16 x))
    (hX2 : u16 (s.matrixWidth - 1 - u16 X) = u16 x)
    (hY : u16 Y = u16 (s.matrixHeight - 1 - u16 y))
    (hY2 : u16 (s.matrixHeight - 1 - u16 Y) = u16 y) :
    drawPixel_pixel s corner X Y = drawPixel_pixel t cornerT x y := by
  simp only [drawPixel_pixel, hmw, hmh, fA, fS]
  by_cases c1 : corner &&& NEO_MATRIX_RIGHT = 0 <;>
  by_cases c2 : corner &&& NEO_MATRIX_BOTTOM = 0 <;>
  simp [c1, c2, d1, d2, hX2, hY2, ← hX, ← hY]

/-- The tile block gives the same tile offset for a coordinate with the tile corner
flags of one state and for the mirrored coordinate with the opposite tile corner flags;
the pixel coordinates within the tile are mirrored. -/
theorem drawPixel_tile_mirror (s t : IRM_Mini) (corner cornerT : Nat) (x y : Int)
    (hmw : t.matrixWidth = s.matrixWidth) (hmh : t.matrixHeight = s.matrixHeight)
    (htx : t.tilesX = s.tilesX) (hty : t.tilesY = s.tilesY)
    (d1 : t.type &&& NEO_TILE_RIGHT = 0 ↔ s.type &&& NEO_TILE_RIGHT ≠ 0)
    (d2 : t.type &&& NEO_TILE_BOTTOM = 0 ↔ s.type &&& NEO_TILE_BOTTOM ≠ 0)
    (fA : t.type &&& NEO_TILE_AXIS = s.type &&& NEO_TILE_AXIS)
    (fS : t.type &&& NEO_TILE_SEQUENCE = s.type &&& NEO_TILE_SEQUENCE)
    (mw : 1 ≤ s.matrixWidth) (mh : 1 ≤ s.matrixHeight)
    (tx : 1 ≤ s.tilesX) (ty : 1 ≤ s.tilesY)
    (hx0 : 0 ≤ x) (hx : x < s.matrixWidth * s.tilesX)
    (hy0 : 0 ≤ y) (hy : y < s.matrixHeight * s.tilesY)
    (lw : s.matrixWidth * s.tilesX ≤ 32767) (lh : s.matrixHeight * s.tilesY ≤ 32767) :
    ∃ T : Int,
      drawPixel_tile s corner (s.matrixWidth * s.tilesX - 1 - x)
          (s.matrixHeight * s.tilesY - 1 - y) =
        (T, corner, s.matrixWidth - 1 - x % s.matrixWidth,
          s.matrixHeight - 1 - y % s.matrixHeight) ∧
      drawPixel_tile t cornerT x y = (T, cornerT, x % s.matrixWidth, y % s.matrixHeight) := by
  have wpos : 0 < s.matrixWidth := by omega
  have hpos : 0 < s.matrixHeight := by omega
  obtain ⟨q0, q1⟩ := ediv_range hx0 wpos hx
  obtain ⟨p0, p1⟩ := ediv_range hy0 hpos hy
  have tx1 : s.tilesX ≤ 32767 := by nlinarith
  have ty1 : s.tilesY ≤ 32767 := by nlinarith
  have mw1 : s.matrixWidth ≤ 32767 := by nlinarith
  have mh1 : s.matrixHeight ≤ 32767 := by nlinarith
  have mx0 := Int.emod_nonneg x wpos.ne.symm
  have mx1 := Int.emod_lt_of_pos x wpos
  have my0 := Int.emod_nonneg y hpos.ne.symm
  have my1 := Int.emod_lt_of_pos y hpos
  obtain ⟨fx1, fx2⟩ := ediv_flip (a := x) (c := s.tilesX) wpos
  obtain ⟨fy1, fy2⟩ := ediv_flip (a := y) (c := s.tilesY) hpos
  have dA1 : Int.tdiv (s.matrixWidth * s.tilesX - 1 - x) s.matrixWidth =
      s.tilesX - 1 - x / s.matrixWidth := by
    rw [tdiv_eq_of_nonneg (by omega) wpos]; exact fx1
  have dA2 : Int.tdiv (s.matrixHeight * s.tilesY - 1 - y) s.matrixHeight =
      s.tilesY - 1 - y / s.matrixHeight := by
    rw [tdiv_eq_of_nonneg (by omega) hpos]; exact fy1
  have dB1 : Int.tdiv x s.matrixWidth = x / s.matrixWidth := tdiv_eq_of_nonneg hx0 wpos
  have dB2 : Int.tdiv y s.matrixHeight = y / s.matrixHeight := tdiv_eq_of_nonneg hy0 hpos
  have e1 : u16 (x / s.matrixWidth) = x / s.matrixWidth := u16_of_range q0 (by omega)
  have e2 : u16 (y / s.matrixHeight) = y / s.matrixHeight := u16_of_range p0 (by omega)
  have e3 : u16 (s.tilesX - 1 - x / s.matrixWidth) = s.tilesX - 1 - x / s.matrixWidth :=
    u16_of_range (by omega) (by omega)
  have e4 : u16 (s.tilesY - 1 - y / s.matrixHeight) = s.tilesY - 1 - y / s.matrixHeight :=
    u16_of_range (by omega) (by omega)
  have e5 : u16 (s.tilesX - 1 - (s.tilesX - 1 - x / s.matrixWidth)) = x / s.matrixWidth := by
    rw [u16_of_range (by omega) (by omega)]; omega
  have e6 : u16 (s.tilesY - 1 - (s.tilesY - 1 - y / s.matrixHeight)) = y / s.matrixHeight := by
    rw [u16_of_range (by omega) (by omega)]; omega
  have xB : i16 (x - x / s.matrixWidth * s.matrixWidth) = x % s.matrixWidth := by
    rw [sub_ediv_mul]; exact i16_of_range (by omega) (by omega)
  have yB : i16 (y - y / s.matrixHeight * s.matrixHeight) = y % s.matrixHeight := by
    rw [sub_ediv_mul]; exact i16_of_range (by omega) (by omega)
  have xA : i16 (s.matrixWidth * s.tilesX - 1 - x -
      (s.tilesX - 1 - x / s.matrixWidth) * s.matrixWidth) =
      s.matrixWidth - 1 - x % s.matrixWidth := by
    rw [← fx1, sub_ediv_mul, fx2]; exact i16_of_range (by omega) (by omega)
  have yA : i16 (s.matrixHeight * s.tilesY - 1 - y -
      (s.tilesY - 1 - y / s.matrixHeight) * s.matrixHeight) =
      s.matrixHeight - 1 - y % s.matrixHeight := by
    rw [← fy1, sub_ediv_mul, fy2]; exact i16_of_range (by omega) (by omega)
  simp only [drawPixel_tile, NEO_TILE_ZIGZAG_NOFLIP, hmw, hmh, htx, hty, fA, fS, dA1, dA2, dB1,
    dB2, e1, e2, e3, e4, xA, yA, xB, yB, if_true]
  by_cases c1 : s.type &&& NEO_TILE_RIGHT = 0 <;>
  by_cases c2 : s.type &&& NEO_TILE_BOTTOM = 0 <;>
  simp only [c1, c2, d1, d2, ne_eq, not_true_eq_false, not_false_eq_true, if_true, if_false,
    e3, e4, e5, e6] <;>
  split_ifs <;> exact ⟨_, rfl, rfl⟩

theorem corner_flags_toggle (a m : Nat) (hm1 : m &&& 2 ^ 1 = 2 ^ 1) (hm0 : m &&& 2 ^ 0 = 2 ^ 0) :
    (((a ^^^ m) &&& NEO_MATRIX_CORNER) &&& NEO_MATRIX_RIGHT = 0 ↔
      (a &&& NEO_MATRIX_CORNER) &&& NEO_MATRIX_RIGHT ≠ 0) ∧
    (((a ^^^ m) &&& NEO_MATRIX_CORNER) &&& NEO_MATRIX_BOTTOM = 0 ↔
      (a &&& NEO_MATRIX_CORNER) &&& NEO_MATRIX_BOTTOM ≠ 0) := by
  rw [land_corner_right, land_corner_right, land_corner_bottom, land_corner_bottom]
  exact ⟨xor_flag_toggle a m 1 hm1, xor_flag_toggle a m 0 hm0⟩

/-- The index under a half turn equals the index, without rotation, of the state whose
corner flags are toggled. -/
theorem drawPixel_index_mirror (s t : IRM_Mini) (x y : Int)
    (hrs : s.rotation = 2) (hrt : t.rotation = 0)
    (hmw : t.matrixWidth = s.matrixWidth) (hmh : t.matrixHeight = s.matrixHeight)
    (htx : t.tilesX = s.tilesX) (hty : t.tilesY = s.tilesY)
    (hns : s.remapFn = none) (hnt : t.remapFn = none)
    (htype : t.type = s.type ^^^
      (if s.tilesX = 0 then NEO_MATRIX_CORNER else NEO_MATRIX_CORNER ||| NEO_TILE_CORNER))
    (hc : Untiled s ∨ (Tiled s ∧ s.matrixWidth ≤ 255 ∧ s.matrixHeight ≤ 255 ∧
      s.tilesX ≤ 255 ∧ s.tilesY ≤ 255))
    (hx0 : 0 ≤ x) (hx : x < s.WIDTH) (hy0 : 0 ≤ y) (hy : y < s.HEIGHT) :
    drawPixel_index s x y = drawPixel_index t x y := by
  have hWH : s.WIDTH ≤ 32767 ∧ s.HEIGHT ≤ 32767 := by
    rcases hc with h | h
    · exact ⟨i16_le_of_eq h.2.2.2.2.1, i16_le_of_eq h.2.2.2.2.2⟩
    · exact ⟨i16_le_of_eq h.1.2.2.2.2.1, i16_le_of_eq h.1.2.2.2.2.2⟩
  have rs : drawPixel_rotate s x y = (s.WIDTH - 1 - x, s.HEIGHT - 1 - y) := by
    unfold drawPixel_rotate
    rw [hrs]
    simp only
    rw [i16_of_range (by omega) (by omega), i16_of_range (by omega) (by omega)]
  have rt : drawPixel_rotate t x y = (x, y) := by
    unfold drawPixel_rotate
    rw [hrt]
  unfold drawPixel_index
  rw [rs, rt]
  simp only
  congr 1
  unfold drawPixel_offsets
  rw [hns, hnt]
  simp only [htx]
  rcases hc with ⟨u0, u1, u2, u3, u4, u5⟩ | ⟨⟨t0, t1, t2, t3, t4, t5⟩, b1, b2, b3, b4⟩
  · rw [if_pos u0] at htype
    simp only [u0, ne_eq, not_true_eq_false, if_false, zero_add]
    have hwl := i16_le s.matrixWidth
    have hhl := i16_le s.matrixHeight
    obtain ⟨d1, d2⟩ := corner_flags_toggle s.type NEO_MATRIX_CORNER rfl rfl
    rw [← htype] at d1 d2
    refine drawPixel_pixel_mirror s t _ _ _ _ x y hmw hmh d1 d2 ?_ ?_ ?_ ?_ ?_ ?_
    · rw [htype]; exact xor_flag_keep _ _ _ rfl
    · rw [htype]; exact xor_flag_keep _ _ _ rfl
    · rw [u4] at hx ⊢; unfold u16 i16 at *; omega
    · rw [u4] at hx ⊢; unfold u16 i16 at *; omega
    · rw [u5] at hy ⊢; unfold u16 i16 at *; omega
    · rw [u5] at hy ⊢; unfold u16 i16 at *; omega
  · have hne : s.tilesX ≠ 0 := by omega
    rw [if_neg hne] at htype
    have pw : s.matrixWidth * s.tilesX ≤ 255 * 255 := by nlinarith
    have ph : s.matrixHeight * s.tilesY ≤ 255 * 255 := by nlinarith
    have pw1 : 1 ≤ s.matrixWidth * s.tilesX := by nlinarith
    have ph1 : 1 ≤ s.matrixHeight * s.tilesY := by nlinarith
    have ew : s.WIDTH = s.matrixWidth * s.tilesX := by
      rw [t4] at hx ⊢; unfold i16 at *; omega
    have eh : s.HEIGHT = s.matrixHeight * s.tilesY := by
      rw [t5] at hy ⊢; unfold i16 at *; omega
    have lw : s.matrixWidth * s.tilesX ≤ 32767 := by rw [← ew]; exact i16_le_of_eq t4
    have lh : s.matrixHeight * s.tilesY ≤ 32767 := by rw [← eh]; exact i16_le_of_eq t5
    rw [ew] at hx; rw [eh] at hy
    have wpos : 0 < s.matrixWidth := by omega
    have hpos : 0 < s.matrixHeight := by omega
    have mx0 := Int.emod_nonneg x wpos.ne.symm
    have mx1 := Int.emod_lt_of_pos x wpos
    have my0 := Int.emod_nonneg y hpos.ne.symm
    have my1 := Int.emod_lt_of_pos y hpos
    have k1 : t.type &&& NEO_TILE_RIGHT = 0 ↔ s.type &&& NEO_TILE_RIGHT ≠ 0 := by
      rw [htype]; exact xor_flag_toggle s.type _ 5 rfl
    have k2 : t.type &&& NEO_TILE_BOTTOM = 0 ↔ s.type &&& NEO_TILE_BOTTOM ≠ 0 := by
      rw [htype]; exact xor_flag_toggle s.type _ 4 rfl
    obtain ⟨T, hA, hB⟩ := drawPixel_tile_mirror s t (s.type &&& NEO_MATRIX_CORNER)
      (t.type &&& NEO_MATRIX_CORNER) x y hmw hmh htx hty k1 k2
      (by rw [htype]; exact xor_flag_keep _ _ _ rfl)
      (by rw [htype]; exact xor_flag_keep _ _ _ rfl)
      t2 t3 t0 t1 hx0 hx hy0 hy lw lh
    obtain ⟨d1, d2⟩ := corner_flags_toggle s.type (NEO_MATRIX_CORNER ||| NEO_TILE_CORNER) rfl rfl
    rw [← htype] at d1 d2
    simp only [hne, ne_eq, not_false_eq_true, if_true, ew, eh, hA, hB]
    congr 1
    refine drawPixel_pixel_mirror s t _ _ _ _ _ _ hmw hmh d1 d2 ?_ ?_ ?_ ?_ ?_ ?_
    · rw [htype]; exact xor_flag_keep _ _ _ rfl
    · rw [htype]; exact xor_flag_keep _ _ _ rfl
    · unfold u16; omega
    · unfold u16; omega
    · unfold u16; omega
    · unfold u16; omega

/-- C20. For every untiled or tiled configuration with positive dimensions (a tiled one
built from `uint8_t` arguments, as its constructor takes them), every topology byte and
every in-bounds `(x, y)`, without a remap callback: the write `drawPixel` makes under
rotation 2 is the write it makes under rotation 0 with the topology in which the right
and bottom corner flags are toggled, at the pixel level and, when tiled, at the tile
level. -/
theorem drawPixel_half_turn (g : GammaTables) (s : IRM_Mini) (x y : Int) (color : Nat)
    (hc : Untiled s ∨ (Tiled s ∧ s.matrixWidth ≤ 255 ∧ s.matrixHeight ≤ 255 ∧
      s.tilesX ≤ 255 ∧ s.tilesY ≤ 255))
    (hr : Rotated s) (h2 : s.rotation = 2) (hn : s.remapFn = none) (hb : InBounds s x y) :
    InBounds { s.setRotation 0 with type := s.type ^^^ (if s.tilesX = 0 then NEO_MATRIX_CORNER else NEO_MATRIX_CORNER ||| NEO_TILE_CORNER) } x y ∧
    (drawPixel g s x y color).strip =
      (drawPixel g { s.setRotation 0 with type := s.type ^^^ (if s.tilesX = 0 then NEO_MATRIX_CORNER else NEO_MATRIX_CORNER ||| NEO_TILE_CORNER) } x y color).strip := by
  obtain ⟨_, hr1, hr2⟩ := hr
  obtain ⟨b0, b1, b2, b3⟩ := hb
  rw [hr1, h2] at b2; rw [hr2, h2] at b3
  simp only [Nat.mod_self, zero_ne_one, if_false] at b2 b3
  have hbs : InBounds s x y := by
    refine ⟨b0, b1, ?_, ?_⟩
    · rw [hr1, h2]; exact b2
    · rw [hr2, h2]; exact b3
  have hbt : InBounds { s.setRotation 0 with type := s.type ^^^ (if s.tilesX = 0 then NEO_MATRIX_CORNER else NEO_MATRIX_CORNER ||| NEO_TILE_CORNER) } x y :=
    ⟨b0, b1, b2, b3⟩
  have key := drawPixel_index_mirror s
    { s.setRotation 0 with type := s.type ^^^ (if s.tilesX = 0 then NEO_MATRIX_CORNER else NEO_MATRIX_CORNER ||| NEO_TILE_CORNER) }
    x y h2 rfl rfl rfl rfl rfl hn hn rfl hc b0 b2 b1 b3
  refine ⟨hbt, ?_⟩
  rw [drawPixel_eq_of_inBounds g s x y color hbs, drawPixel_eq_of_inBounds g _ x y color hbt, key]
  rfl

/-- Witness of C20: 4 by 4 tiles of 2 by 2 pixels with topology byte 0x5a, pixel (3, 5):
rotation 2 with 0x5a and rotation 0 with 0x5a xor 0x33 write the same index. -/
theorem drawPixel_half_turn_witness :
    (drawPixel ⟨id, id⟩ ((tiled 2 2 4 4 0x5a).setRotation 2) 3 5 0).strip =
      (drawPixel ⟨id, id⟩ ((tiled 2 2 4 4 (0x5a ^^^ 0x33)).setRotation 0) 3 5 0).strip ∧
    (drawPixel ⟨id, id⟩ ((single 8 4 0x0d).setRotation 2) 3 1 0).strip =
      (drawPixel ⟨id, id⟩ ((single 8 4 (0x0d ^^^ 0x03)).setRotation 0) 3 1 0).strip :=
  ⟨(drawPixel_half_turn ⟨id, id⟩ ((tiled 2 2 4 4 0x5a).setRotation 2) 3 5 0
      (Or.inr (by decide)) (by decide) rfl rfl (by decide)).2,
   (drawPixel_half_turn ⟨id, id⟩ ((single 8 4 0x0d).setRotation 2) 3 1 0
      (Or.inl (by decide)) (by decide) rfl rfl (by decide)).2⟩

/-! ## The glyph tables -/

theorem font_records_table :
    (FONT5_BITMAT.all fun r =>
      decide (r.length = 6) && decide (1 ≤ r.getD 0 0) && decide (r.getD 0 0 ≤ 5) &&
        (List.range' 1 5).all fun j => decide (r.getD j 0 < 2 ^ r.getD 0 0)) = true ∧
    (FONT7_BITMAT.all fun r =>
      decide (r.length = 8) && decide (1 ≤ r.getD 0 0) && decide (r.getD 0 0 ≤ 7) &&
        (List.range' 1 7).all fun j => decide (r.getD j 0 < 2 ^ r.getD 0 0)) = true := by
  decide

theorem font_record_rows (fontSize : Nat) (r : List Nat)
    (hr : fontSize = FONT5 ∧ r ∈ FONT5_BITMAT ∨ fontSize = FONT7 ∧ r ∈ FONT7_BITMAT) :
    r.length = fontSize + 1 ∧ 1 ≤ r.getD 0 0 ∧ r.getD 0 0 ≤ fontSize ∧
    ∀ j : Nat, 1 ≤ j → j ≤ fontSize → r.getD j 0 < 2 ^ r.getD 0 0 := by
  rcases hr with ⟨rfl, hm⟩ | ⟨rfl, hm⟩
  · have h := List.all_eq_true.mp font_records_table.1 r hm
    simp only [Bool.and_eq_true, decide_eq_true_eq, List.all_eq_true, List.mem_range'_1] at h
    obtain ⟨⟨⟨h1, h2⟩, h3⟩, h4⟩ := h
    exact ⟨h1, h2, h3, fun j a b => h4 j ⟨a, by unfold FONT5 at b; omega⟩⟩
  · have h := List.all_eq_true.mp font_records_table.2 r hm
    simp only [Bool.and_eq_true, decide_eq_true_eq, List.all_eq_true, List.mem_range'_1] at h
    obtain ⟨⟨⟨h1, h2⟩, h3⟩, h4⟩ := h
    exact ⟨h1, h2, h3, fun j a b => h4 j ⟨a, by unfold FONT7 at b; omega⟩⟩

theorem testBit_lt_of_lt_two_pow {v w k : Nat} (hv : v < 2 ^ w) (hk : v.testBit k = true) :
    k < w := by
  by_contra hge
  have h2 : v < 2 ^ k := lt_of_lt_of_le hv (Nat.pow_le_pow_right (by decide) (Nat.le_of_not_lt hge))
  rw [Nat.testBit_lt_two_pow h2] at hk
  exact Bool.false_ne_true hk

/-- C22. Every record of both glyph tables is well-formed for the rasterizer. A record
of the compact table `FONT5_BITMAT` (`fontSize = 5`) or of the tall table `FONT7_BITMAT`
(`fontSize = 7`) has a width byte followed by `fontSize` row values; the width is at
least 1 and at most `fontSize`; every row value is strictly less than `2 ^ width`.
Hence every set bit `k` of a row `j` has `k < width`, so the loop over the bit positions
`0 .. width-1` reaches it and the glyph issues the `drawPixel` call for it; and every
`drawPixel` call of the glyph at the cursor `(x, y)` is at a point `(px, py)` with
`x <= px < x + width` and `y <= py < y + fontSize`, passed as `int16_t`, which is the
point itself when the cell lies in the `int16_t` range. -/
theorem glyph_record_well_formed (fontSize : Nat) (r : List Nat)
    (hr : fontSize = FONT5 ∧ r ∈ FONT5_BITMAT ∨ fontSize = FONT7 ∧ r ∈ FONT7_BITMAT) :
    r.length = fontSize + 1 ∧ 1 ≤ r.getD 0 0 ∧ r.getD 0 0 ≤ fontSize ∧
    (∀ j : Nat, 1 ≤ j → j ≤ fontSize → r.getD j 0 < 2 ^ r.getD 0 0) ∧
    (∀ j k : Nat, 1 ≤ j → j ≤ fontSize → (r.getD j 0).testBit k = true →
      k < r.getD 0 0 ∧
      ∀ (x y : Int) (color : Nat),
        Call.drawPixel (i16 (x + (r.getD 0 0 : Nat) - 1 - k)) (i16 (y + j - 1)) color ∈
          (drawAscii_glyph x y r color fontSize).1) ∧
    (∀ (x y : Int) (color : Nat) (call : Call),
      call ∈ (drawAscii_glyph x y r color fontSize).1 → isDrawPixel call = true →
      ∃ px py : Int, x ≤ px ∧ px < x + (r.getD 0 0 : Nat) ∧ y ≤ py ∧ py < y + fontSize ∧
        call = Call.drawPixel (i16 px) (i16 py) color ∧
        (-32768 ≤ x → x + (r.getD 0 0 : Nat) ≤ 32768 → -32768 ≤ y → y + fontSize ≤ 32768 →
          call = Call.drawPixel px py color)) := by
  obtain ⟨h1, h2, h3, h4⟩ := font_record_rows fontSize r hr
  have hf : fontSize ≤ 7 := by
    rcases hr with ⟨h, _⟩ | ⟨h, _⟩ <;> rw [h] <;> decide
  have hcalls := fun (x y : Int) (color : Nat) =>
    (drawAscii_glyph_calls x y r color fontSize (by omega) (by omega)).1
  refine ⟨h1, h2, h3, h4, ?_, ?_⟩
  · intro j k hj1 hj2 hb
    have hk := testBit_lt_of_lt_two_pow (h4 j hj1 hj2) hb
    refine ⟨hk, fun x y color => ?_⟩
    rw [hcalls x y color]
    exact List.mem_append_left _ (List.mem_cons_of_mem _ (List.mem_flatMap.mpr
      ⟨j, List.mem_range'_1.mpr ⟨hj1, by omega⟩,
        List.mem_map.mpr ⟨k, List.mem_filter.mpr ⟨List.mem_range.mpr hk, hb⟩, rfl⟩⟩))
  · intro x y color call hmem hdp
    rw [hcalls x y color] at hmem
    simp only [List.mem_cons, List.mem_append, List.mem_flatMap, List.mem_map, List.mem_filter,
      List.mem_range, List.mem_range'_1, List.not_mem_nil, or_false] at hmem
    rcases hmem with (rfl | ⟨j, ⟨hj1, hj2⟩, k, ⟨hk, _⟩, rfl⟩) | rfl
    · exact absurd hdp (by simp [isDrawPixel])
    · refine ⟨x + (r.getD 0 0 : Nat) - 1 - k, y + j - 1, by omega, by omega, by omega, by omega,
        rfl, fun a b c d => ?_⟩
      rw [i16_of_range (by omega) (by omega), i16_of_range (by omega) (by omega)]
    · exact absurd hdp (by simp [isDrawPixel])

/-- Witness of C22: the record of the letter A in the compact table, width 4 with the
rows 0111, 1001, 1001, 1111, 1001. Bit 2 of row 1 is set and is drawn at (1, 0) for the
cursor (0, 0). -/
theorem glyph_record_well_formed_witness :
    (FONT5 = FONT5 ∧ [4, 0b0111, 0b1001, 0b1001, 0b1111, 0b1001] ∈ FONT5_BITMAT ∨
      FONT5 = FONT7 ∧ [4, 0b0111, 0b1001, 0b1001, 0b1111, 0b1001] ∈ FONT7_BITMAT) ∧
    (2 < 4 ∧ ∀ (x y : Int) (color : Nat),
      Call.drawPixel (i16 (x + ((4 : Nat) : Int) - 1 - (2 : Nat))) (i16 (y + (1 : Nat) - 1)) color ∈
        (drawAscii_glyph x y [4, 0b0111, 0b1001, 0b1001, 0b1111, 0b1001] color FONT5).1) ∧
    Call.drawPixel 1 0 9 ∈ (drawAscii_glyph 0 0 [4, 0b0111, 0b1001, 0b1001, 0b1111, 0b1001] 9 FONT5).1 :=
  ⟨Or.inl ⟨rfl, by decide⟩,
    (glyph_record_well_formed FONT5 [4, 0b0111, 0b1001, 0b1001, 0b1111, 0b1001]
      (Or.inl ⟨rfl, by decide⟩)).2.2.2.2.1 1 2 (by decide) (by decide) (by decide),
    by decide⟩

/-! ## Printable characters -/

theorem drawAscii_loop_printable (y : Int) (text : List Nat) (color fontSize : Nat)
    (hfs : fontSize = FONT5 ∨ fontSize = FONT7) (hin : ∀ c ∈ text, 32 ≤ c ∧ c ≤ 125)
    (fuel i : Nat) (x : Int) (calls : List Call) (hi : i < text.length) :
    drawAscii_loop y text color fontSize (fuel + 1) i x calls =
      drawAscii_loop y text color fontSize fuel ((i + 1) % 256)
        (drawAscii_glyph x y ((fontTable fontSize).getD (text.getD i 0 - 31) []) color fontSize).2
        (calls ++
          (drawAscii_glyph x y ((fontTable fontSize).getD (text.getD i 0 - 31) []) color
            fontSize).1) := by
  have hmem : text.getD i 0 ∈ text := by
    rw [List.getD_eq_getElem _ _ hi]; exact List.getElem_mem hi
  have hc := hin _ hmem
  obtain ⟨a1, a2, _⟩ := ascii_index_in_range _ hc.1 hc.2
  have e : text.getD i 0 - 31 = text.getD i 0 - 32 + 1 := by omega
  have hrec : (fontTable fontSize)[(u8 ((text.getD i 0 : Nat) - 32 + 1 : Int)).toNat]? =
      some ((fontTable fontSize).getD (text.getD i 0 - 31) []) := by
    rw [a1, e]; exact fontTable_lookup _ _ a2
  exact drawAscii_loop_step y text color fontSize fuel i x calls _ hfs hi hrec

/-- For a text of character codes 32..125 and a supported font size no run, however
long, ends in a read past the table or in the fatal stop. -/
theorem drawAscii_loop_reads (y : Int) (text : List Nat) (color fontSize : Nat)
    (hfs : fontSize = FONT5 ∨ fontSize = FONT7) (hin : ∀ c ∈ text, 32 ≤ c ∧ c ≤ 125) :
    ∀ (fuel i : Nat) (x : Int) (calls cs : List Call) (n : Int),
      drawAscii_loop y text color fontSize fuel i x calls ≠ Outcome.overrun cs n ∧
      drawAscii_loop y text color fontSize fuel i x calls ≠ Outcome.halted cs := by
  intro fuel
  induction fuel with
  | zero =>
    intro i x calls cs n
    constructor <;> (rw [drawAscii_loop]; exact Outcome.noConfusion)
  | succ f ih =>
    intro i x calls cs n
    by_cases hi : i < text.length
    · rw [drawAscii_loop_printable y text color fontSize hfs hin f i x calls hi]
      exact ih _ _ _ cs n
    · rw [drawAscii_loop_end _ _ _ _ _ _ _ _ hi]
      constructor <;> exact Outcome.noConfusion

/-- C21, the code at its failing input. The character `~` (code 126) is printable and
its record index is `126 - 31 = 95`, but the tables have 95 records each as compiled
(positions 0 .. 94): the row of the character `]` is part of the comment that ends the
line before it. With either supported font size `drawAscii` on the text "~" reads past
the end of the table, before any call; after the letter A the same happens once the
calls of the A are issued. The codes 93 .. 125 read the row labelled with the next
character: for `]` the record read is the row of `^`, and for `}` the row of `~`. -/
theorem drawAscii_tilde_past_table :
    FONT7_BITMAT.length = 95 ∧ FONT5_BITMAT.length = 95 ∧
    u8 ((126 : Int) - 32 + 1) = 95 ∧
    drawAscii 2 0 0 [126] 1 FONT5 = Outcome.overrun [] 95 ∧
    drawAscii 2 0 0 [126] 1 FONT7 = Outcome.overrun [] 95 ∧
    drawAscii 3 0 0 [65, 126] 1 FONT5 =
      Outcome.overrun (drawAscii 2 0 0 [65] 1 FONT5).calls 95 ∧
    glyphRecord FONT5 93 = [3, 0b010, 0b101, 0b000, 0b000, 0b000] ∧
    glyphRecord FONT7 93 = [3, 0b010, 0b101, 0b000, 0b000, 0b000, 0b000, 0b000] ∧
    glyphRecord FONT5 125 = [4, 0b0000, 0b0101, 0b1010, 0b0000, 0b0000] ∧
    glyphRecord FONT7 125 = [5, 0b00000, 0b00000, 0b01000, 0b10101, 0b00010, 0b00000, 0b00000] := by
  decide

end IRM_Mini
